import Mathlib

/-!
# Beam-search examples of llama.cpp: snapshot stack, snapshot queue, result collector

A shallow embedding of `examples/interactive-beam/interactive-beam.cpp` and of the
snapshot stack of `examples/save-load-state/save-load-state.cpp`.

Conventions of the embedding.

* The global variables of a file (`llama_state_stack`, `llama_state_queue`,
  `beam_results`) and the model context `ctx` are the fields of one `World` record that
  every function receives and returns.
* `float` values are rationals (exact arithmetic, no NaN); `int` values are integers.
* `new uint8_t[n]` / `delete[]` act on an explicit `Heap` of live buffers, a `state_mem`
  pointer is the address of a buffer.
* Undefined behaviour of the C++ program (reading outside a vector, `back()` / `front()`
  of an empty container, reading a freed buffer) is an explicit `Fault`.
* The functions of `llama.h` are not part of the example files; they are the fields of
  a `LlamaApi` record that the embedded functions take as a parameter.
* Recursion and the `while` loop take a fuel argument; running out of fuel is the fault
  `out_of_fuel`.
-/

namespace InteractiveBeam

/-- The token id type of `llama.h` (`typedef int llama_token`). -/
abbrev llama_token := Int

/-- A candidate of `llama.h`: token id, raw score and probability. -/
structure llama_token_data where
  id : llama_token
  logit : ℚ
  p : ℚ
deriving DecidableEq

/-- The functions of `llama.h` that the example files call, over an abstract context. -/
structure LlamaApi (Ctx : Type) where
  llama_get_state_size : Ctx → Nat
  llama_copy_state_data : Ctx → List Nat
  llama_set_state_data : Ctx → List Nat → Ctx
  llama_eval : Ctx → List llama_token → Int → Int → Ctx × Int
  llama_get_logits : Ctx → Nat → ℚ
  llama_n_vocab : Ctx → Int
  llama_sample_softmax : Ctx → List llama_token_data → List llama_token_data
  llama_token_to_str : Ctx → llama_token → String

/-- Ways in which the C++ program leaves defined behaviour, and fuel exhaustion. -/
inductive Fault where
  | out_of_bounds
  | empty_container
  | dangling_buffer
  | out_of_fuel
deriving DecidableEq

/-- Equality of outcomes is decidable, so that concrete runs can be checked by evaluation. -/
instance except_dec_eq {ε α : Type} [DecidableEq ε] [DecidableEq α] : DecidableEq (Except ε α)
  | .ok a, .ok b =>
    if h : a = b then isTrue (by rw [h]) else isFalse (fun h1 => h (by cases h1; rfl))
  | .error a, .error b =>
    if h : a = b then isTrue (by rw [h]) else isFalse (fun h1 => h (by cases h1; rfl))
  | .ok _, .error _ => isFalse (fun h => by cases h)
  | .error _, .ok _ => isFalse (fun h => by cases h)

/-- Live heap buffers: `next` is the next fresh address, `cells` the live buffers. -/
structure Heap where
  next : Nat
  cells : List (Nat × List Nat)
deriving DecidableEq

/-- `new uint8_t[n]` followed by filling the buffer with `data`. -/
def Heap.alloc (h : Heap) (data : List Nat) : Heap :=
  { next := h.next + 1, cells := (h.next, data) :: h.cells }

/-- Contents of the live buffer at an address. -/
def Heap.read (h : Heap) (addr : Nat) : Option (List Nat) :=
  (h.cells.find? (fun c => c.1 == addr)).map (fun c => c.2)

/-- `delete[]` of the buffer at an address. -/
def Heap.free (h : Heap) (addr : Nat) : Heap :=
  { h with cells := h.cells.eraseP (fun c => c.1 == addr) }

/-- `struct state_stack_entry` of interactive-beam.cpp. -/
structure state_stack_entry where
  state_mem : Nat
  state_size : Nat
  n_past : Int
  text : String
  depth : Int
  prob_sum : ℚ
deriving DecidableEq

/-- `struct beam_result`. -/
structure beam_result where
  text : String
  prob_sum : ℚ
  n_tokens : Int
deriving DecidableEq

/-- The model context, the heap, the three globals of interactive-beam.cpp, and two
ghost fields: the log `evals` of the `llama_eval` calls made so far (tokens, position,
return code) and `stack_peak`, the largest size `llama_state_stack` has had. -/
structure World (Ctx : Type) where
  ctx : Ctx
  heap : Heap
  llama_state_stack : List state_stack_entry
  llama_state_queue : List state_stack_entry
  beam_results : List beam_result
  evals : List (List llama_token × Int × Int)
  stack_peak : Nat
deriving DecidableEq

variable {Ctx : Type}

/-- `llama_push_state`: the vector grows at its back; the aggregate initialiser leaves
`text`, `depth` and `prob_sum` value-initialised. The ghost `stack_peak` follows the
size of the stack. -/
def llama_push_state (api : LlamaApi Ctx) (w : World Ctx) (n_past : Int) : World Ctx :=
  let state_size := api.llama_get_state_size w.ctx
  let state_mem := w.heap.next
  { w with
    heap := w.heap.alloc (api.llama_copy_state_data w.ctx)
    llama_state_stack := w.llama_state_stack ++ [⟨state_mem, state_size, n_past, "", 0, 0⟩]
    stack_peak := max w.stack_peak (w.llama_state_stack.length + 1) }

/-- `llama_pop_state`: returns the new world and the value written to `n_past`. -/
def llama_pop_state (api : LlamaApi Ctx) (w : World Ctx) : Except Fault (World Ctx × Int) :=
  match w.llama_state_stack.getLast? with
  | none => .error .empty_container
  | some stack_entry =>
    match w.heap.read stack_entry.state_mem with
    | none => .error .dangling_buffer
    | some buf =>
      .ok ({ w with
             ctx := api.llama_set_state_data w.ctx buf
             llama_state_stack := w.llama_state_stack.dropLast
             heap := w.heap.free stack_entry.state_mem }, stack_entry.n_past)

/-- `llama_queue_state`: the queue grows at its back (the end of the list). -/
def llama_queue_state (api : LlamaApi Ctx) (w : World Ctx) (n_past : Int) (text : String)
    (depth : Int) (prob_sum : ℚ) : World Ctx :=
  let state_size := api.llama_get_state_size w.ctx
  let state_mem := w.heap.next
  { w with
    heap := w.heap.alloc (api.llama_copy_state_data w.ctx)
    llama_state_queue :=
      w.llama_state_queue ++ [⟨state_mem, state_size, n_past, text, depth, prob_sum⟩] }

/-- `llama_dequeue_state`: returns the new world and the values written to `n_past`,
`text`, `depth`, `prob_sum`. -/
def llama_dequeue_state (api : LlamaApi Ctx) (w : World Ctx) :
    Except Fault (World Ctx × Int × String × Int × ℚ) :=
  match w.llama_state_queue with
  | [] => .error .empty_container
  | stack_entry :: rest =>
    match w.heap.read stack_entry.state_mem with
    | none => .error .dangling_buffer
    | some buf =>
      .ok ({ w with
             ctx := api.llama_set_state_data w.ctx buf
             llama_state_queue := rest
             heap := w.heap.free stack_entry.state_mem },
           stack_entry.n_past, stack_entry.text, stack_entry.depth, stack_entry.prob_sum)

/-- Insertion of one element into a list ordered by `comp`, after every element that
`comp` does not place behind it. -/
def std_sort_insert {α : Type} (comp : α → α → Bool) (x : α) : List α → List α
  | [] => [x]
  | y :: ys => if comp x y then x :: y :: ys else y :: std_sort_insert comp x ys

/-- `std::sort(first, last, comp)` of the C++ library, as an insertion sort. The theorems
below use only that the outcome is a rearrangement ordered by `comp`. -/
def std_sort {α : Type} (comp : α → α → Bool) : List α → List α
  | [] => []
  | x :: xs => std_sort_insert comp x (std_sort comp xs)

/-- The comparison lambda of `llama_queue_trim`. -/
def queue_comp (a b : state_stack_entry) : Bool := decide (a.prob_sum > b.prob_sum)

/-- `llama_queue_trim`: `size() > max_width` compares a `size_t` with an `int`, so
`max_width` is first converted to a 64-bit unsigned value. -/
def llama_queue_trim (w : World Ctx) (max_width : Int) : World Ctx :=
  if w.llama_state_queue.length > (max_width % 2 ^ 64).toNat then
    let queue_entries := std_sort queue_comp w.llama_state_queue
    { w with llama_state_queue := queue_entries.take max_width.toNat }
  else w

/-- The candidate array both searches build: one entry per token id below `n_vocab`
with its logit, handed to `llama_sample_softmax`. -/
def ranked_candidates (api : LlamaApi Ctx) (c : Ctx) : List llama_token_data :=
  let n_vocab := api.llama_n_vocab c
  let candidates := (List.range n_vocab.toNat).map
    (fun (token_id : Nat) =>
      (⟨Int.ofNat token_id, api.llama_get_logits c token_id, 0⟩ : llama_token_data))
  api.llama_sample_softmax c candidates

/-- A call `llama_eval(ctx, &next_token, 1, n_past, n_threads)` whose return code the
caller ignores; the call is appended to the ghost log. -/
def eval_token (api : LlamaApi Ctx) (w : World Ctx) (next_token : llama_token) (n_past : Int)
    (n_threads : Int) : World Ctx :=
  let r := api.llama_eval w.ctx [next_token] n_past n_threads
  { w with ctx := r.1, evals := w.evals ++ [([next_token], n_past, r.2)] }

/-- First loop of `recurse_beam_search`: `n` iterations remain, `i` is the loop index;
the value is the final `max_width`. -/
def scan_width (candidates_p : List llama_token_data) : Nat → Nat → Except Fault Nat
  | 0, _ => .ok 2
  | n + 1, i =>
    match candidates_p[i]? with
    | none => .error .out_of_bounds
    | some c => if c.p < 1 / 10 then .ok (if i > 2 then i else 2)
                else scan_width candidates_p n (i + 1)

/-- Second loop of `recurse_beam_search`: `n` iterations remain, `i` is the loop index,
`self` is the recursive call; returns the world and the final value of `n_past`. -/
def expand_candidates (api : LlamaApi Ctx)
    (self : World Ctx → Int → ℚ → Int → String → Except Fault (World Ctx))
    (candidates_p : List llama_token_data) (beam_width : Int) (prob_sum : ℚ)
    (current_depth max_depth : Int) (text : String) :
    Nat → Nat → World Ctx → Int → Except Fault (World Ctx × Int)
  | 0, _, w, n_past => .ok (w, n_past)
  | n + 1, i, w, n_past =>
    match candidates_p[i]? with
    | none => .error .out_of_bounds
    | some c =>
      let next_token := c.id
      let next_token_str := api.llama_token_to_str w.ctx next_token
      if current_depth = max_depth ∨ beam_width = 1 then
        expand_candidates api self candidates_p beam_width prob_sum current_depth max_depth text
          n (i + 1)
          { w with beam_results :=
              w.beam_results ++ [⟨text ++ next_token_str, prob_sum + c.p, current_depth⟩] }
          n_past
      else
        let w1 := llama_push_state api w n_past
        let w2 := eval_token api w1 next_token n_past 1
        match self w2 (n_past + 1) (prob_sum + c.p) (current_depth + 1)
            (text ++ next_token_str) with
        | .error e => .error e
        | .ok w3 =>
          match llama_pop_state api w3 with
          | .error e => .error e
          | .ok (w4, n_past1) =>
            expand_candidates api self candidates_p beam_width prob_sum current_depth
              max_depth text n (i + 1) w4 n_past1

/-- `recurse_beam_search` of interactive-beam.cpp; `fuel` bounds the recursion depth. -/
def recurse_beam_search (api : LlamaApi Ctx) :
    Nat → World Ctx → Int → Int → ℚ → Int → Int → String → Except Fault (World Ctx)
  | 0, _, _, _, _, _, _, _ => .error .out_of_fuel
  | fuel + 1, w, n_past, beam_width, prob_sum, current_depth, max_depth, text =>
    let candidates_p := ranked_candidates api w.ctx
    match scan_width candidates_p beam_width.toNat 0 with
    | .error e => .error e
    | .ok max_width =>
      match expand_candidates api
          (fun w1 n_past1 prob_sum1 depth1 text1 =>
            recurse_beam_search api fuel w1 n_past1 beam_width prob_sum1 depth1 max_depth text1)
          candidates_p beam_width prob_sum current_depth max_depth text max_width 0 w n_past with
      | .error e => .error e
      | .ok (w1, _) => .ok w1

/-- The `for` loop of `iterate_beam_search` over the candidates of one frame: `n`
iterations remain, `i` is the loop index; returns the world, `n_past` and `is_leaf`. -/
def iterate_candidates (api : LlamaApi Ctx) (candidates_p : List llama_token_data)
    (max_depth : Int) (p_threshold : ℚ) (text : String) (depth : Int) (prob_sum : ℚ) :
    Nat → Nat → World Ctx → Int → Bool → Except Fault (World Ctx × Int × Bool)
  | 0, _, w, n_past, is_leaf => .ok (w, n_past, is_leaf)
  | n + 1, i, w, n_past, is_leaf =>
    match candidates_p[i]? with
    | none => .error .out_of_bounds
    | some c =>
      if c.p < p_threshold then .ok (w, n_past, is_leaf)
      else
        let is_leaf1 := false
        let next_token := c.id
        let next_token_str := api.llama_token_to_str w.ctx next_token
        if depth = max_depth ∨ is_leaf1 = true then
          iterate_candidates api candidates_p max_depth p_threshold text depth prob_sum
            n (i + 1)
            { w with beam_results :=
                w.beam_results ++ [⟨text ++ next_token_str, prob_sum + c.p, depth⟩] }
            n_past is_leaf1
        else
          let w1 := llama_push_state api w n_past
          let w2 := eval_token api w1 next_token n_past 12
          let w3 := llama_queue_state api w2 (n_past + 1) (text ++ next_token_str)
            (depth + 1) (prob_sum + c.p)
          match llama_pop_state api w3 with
          | .error e => .error e
          | .ok (w4, n_past1) =>
            iterate_candidates api candidates_p max_depth p_threshold text depth prob_sum
              n (i + 1) w4 n_past1 is_leaf1

/-- The variables of `iterate_beam_search` that live across iterations of its `while`. -/
structure IterState (Ctx : Type) where
  w : World Ctx
  n_past : Int
  text : String
  depth : Int
  prob_sum : ℚ
deriving DecidableEq

/-- The conditional trim at the top of the body of the `while` loop. -/
def iterate_trim (beam_width : Int) (s : IterState Ctx) : World Ctx :=
  if s.depth > 10 ∧ s.depth % 3 = 0 then llama_queue_trim s.w beam_width else s.w

/-- One pass through the body of the `while` loop of `iterate_beam_search`. -/
def iterate_frame (api : LlamaApi Ctx) (beam_width max_depth : Int) (p_threshold : ℚ)
    (s : IterState Ctx) : Except Fault (IterState Ctx) :=
  match llama_dequeue_state api (iterate_trim beam_width s) with
  | .error e => .error e
  | .ok (w1, n_past, text, depth, prob_sum) =>
    let candidates_p := ranked_candidates api w1.ctx
    match iterate_candidates api candidates_p max_depth p_threshold text depth prob_sum
        beam_width.toNat 0 w1 n_past true with
    | .error e => .error e
    | .ok (w2, n_past1, is_leaf) =>
      let w3 := if is_leaf = true then
          { w2 with beam_results := w2.beam_results ++ [⟨text, prob_sum, depth⟩] }
        else w2
      .ok ⟨w3, n_past1, text, depth, prob_sum⟩

/-- The `while (!llama_state_queue.empty())` loop. -/
def iterate_loop (api : LlamaApi Ctx) (beam_width max_depth : Int) (p_threshold : ℚ) :
    Nat → IterState Ctx → Except Fault (IterState Ctx)
  | fuel, s =>
    if s.w.llama_state_queue = [] then .ok s
    else
      match fuel with
      | 0 => .error .out_of_fuel
      | fuel1 + 1 =>
        match iterate_frame api beam_width max_depth p_threshold s with
        | .error e => .error e
        | .ok s1 => iterate_loop api beam_width max_depth p_threshold fuel1 s1

/-- The loop state after at most `k` passes of the `while` loop (fewer when the queue
runs empty first): the instants between two passes of a run. -/
def iterate_passes (api : LlamaApi Ctx) (beam_width max_depth : Int) (p_threshold : ℚ) :
    Nat → IterState Ctx → Except Fault (IterState Ctx)
  | 0, s => .ok s
  | k + 1, s =>
    if s.w.llama_state_queue = [] then .ok s
    else
      match iterate_frame api beam_width max_depth p_threshold s with
      | .error e => .error e
      | .ok s1 => iterate_passes api beam_width max_depth p_threshold k s1

/-- The state with which `iterate_beam_search` enters its `while` loop. -/
def iterate_init (api : LlamaApi Ctx) (w : World Ctx) (n_past : Int) (text : String) :
    IterState Ctx :=
  let depth := 1
  let prob_sum := 0
  ⟨llama_queue_state api w n_past text depth prob_sum, n_past, text, depth, prob_sum⟩

/-- `iterate_beam_search`; `fuel` bounds the number of passes of the `while` loop. -/
def iterate_beam_search (api : LlamaApi Ctx) (fuel : Nat) (w : World Ctx) (n_past : Int)
    (beam_width max_depth : Int) (text : String) (p_threshold : ℚ) :
    Except Fault (World Ctx) :=
  match iterate_loop api beam_width max_depth p_threshold fuel (iterate_init api w n_past text) with
  | .error e => .error e
  | .ok s => .ok s.w

/-- The loop of `get_best_beam_result` over the remaining results, carrying `best_text`
and `best_prob_sum`. -/
def best_scan : List beam_result → String → ℚ → String
  | [], best_text, _ => best_text
  | r :: rs, best_text, best_prob_sum =>
    if r.prob_sum > best_prob_sum then best_scan rs r.text r.prob_sum
    else best_scan rs best_text best_prob_sum

/-- `get_best_beam_result`. -/
def get_best_beam_result (beam_results : List beam_result) : String :=
  best_scan beam_results "" 0

/-- The comparison lambda of `sort_beam_results`. -/
def result_comp (a b : beam_result) : Bool := decide (a.prob_sum > b.prob_sum)

/-- `sort_beam_results`. -/
def sort_beam_results (w : World Ctx) : World Ctx :=
  { w with beam_results := std_sort result_comp w.beam_results }

/-- The model state, position, text and `prob_sum` reached from a start by choosing, one
after the other, the ranked candidates with the indices in `path`: each candidate is
ranked and detokenized in the state reached so far, its probability is added, and the
model is stepped with its token at the current position. -/
def follow_path (api : LlamaApi Ctx) (n_threads : Int) :
    Ctx → Int → String → ℚ → List Nat → Option (Ctx × Int × String × ℚ)
  | c, n, t, p, [] => some (c, n, t, p)
  | c, n, t, p, i :: rest =>
    match (ranked_candidates api c)[i]? with
    | none => none
    | some d =>
      follow_path api n_threads (api.llama_eval c [d.id] n n_threads).1 (n + 1)
        (t ++ api.llama_token_to_str c d.id) (p + d.p) rest

/-- A text and a `prob_sum` are on a path from a start: they are what `follow_path`
reaches for some sequence of candidate choices. -/
def OnPath (api : LlamaApi Ctx) (n_threads : Int) (c0 : Ctx) (n0 : Int) (t0 : String)
    (p0 : ℚ) (text : String) (prob_sum : ℚ) : Prop :=
  ∃ path st n, follow_path api n_threads c0 n0 t0 p0 path = some (st, n, text, prob_sum)

/-- Every queued frame holds a capture of the state reached along some path from the
start, together with the position, text and `prob_sum` reached along that path. -/
def QueueOnPath (api : LlamaApi Ctx) (c0 : Ctx) (n0 : Int) (t0 : String) (w : World Ctx) :
    Prop :=
  ∀ e ∈ w.llama_state_queue, ∃ path st,
    w.heap.read e.state_mem = some (api.llama_copy_state_data st) ∧
    follow_path api 12 c0 n0 t0 0 path = some (st, e.n_past, e.text, e.prob_sum)

/-- Every queued frame owns a live buffer of its own: the addresses in the queue are
pairwise different, were allocated already, and are live. -/
def QueueLive (w : World Ctx) : Prop :=
  w.llama_state_queue.Pairwise (fun a b => a.state_mem ≠ b.state_mem) ∧
  ∀ e ∈ w.llama_state_queue, e.state_mem < w.heap.next ∧ (w.heap.read e.state_mem).isSome

/-- A bound on the number of passes of the `while` loop that a frame with `levels`
levels below it can cause when every frame has at most `width` children. -/
def pass_bound (width : Nat) : Nat → Nat
  | 0 => 1
  | levels + 1 => 1 + width * pass_bound width levels

/-- The passes still owed by a queue: the sum of the bounds of its frames. -/
def queue_bound (width : Nat) (max_depth : Int) (queue : List state_stack_entry) : Nat :=
  (queue.map (fun e => pass_bound width (max_depth - e.depth).toNat)).sum

/-- Modelled from the spec: `llama_copy_state_data` and `llama_set_state_data` are
declared in llama.h and defined outside the example files. Section 4.1 of the spec:
restore "writes the snapshot's bytes back into the model's internal state, leaving the
model exactly as it was at capture time". -/
def LlamaApi.RoundTrip (api : LlamaApi Ctx) : Prop :=
  ∀ s t : Ctx, api.llama_set_state_data t (api.llama_copy_state_data s) = s

/-- Modelled from the spec: `llama_sample_softmax` is declared in llama.h and defined
outside the example files. Section 4.2 of the spec: the ranked candidates are "sorted
probability-descending". -/
def LlamaApi.RankedDescending (api : LlamaApi Ctx) : Prop :=
  ∀ c : Ctx, (ranked_candidates api c).Pairwise (fun a b => b.p ≤ a.p)

/-- A small concrete model for the worked examples: the context is the list of tokens
evaluated so far, a snapshot is that list, the vocabulary has one token per entry of
`probs`, token `i` always has probability `probs[i]` and is printed as the `i`-th letter. -/
def toy_api (probs : List ℚ) : LlamaApi (List Nat) where
  llama_get_state_size := fun c => c.length
  llama_copy_state_data := fun c => c
  llama_set_state_data := fun _ buf => buf
  llama_eval := fun c tokens _ _ => (c ++ tokens.map Int.toNat, 0)
  llama_get_logits := fun _ token_id => - (token_id : ℚ)
  llama_n_vocab := fun _ => probs.length
  llama_sample_softmax := fun _ candidates =>
    List.zipWith (fun (d : llama_token_data) (q : ℚ) => { d with p := q }) candidates probs
  llama_token_to_str := fun _ t => String.singleton (Char.ofNat (97 + t.toNat))

/-- A world with nothing allocated, empty containers and an empty log. -/
def empty_world (c : Ctx) : World Ctx :=
  ⟨c, ⟨0, []⟩, [], [], [], [], 0⟩

end InteractiveBeam

namespace SaveLoadState

open InteractiveBeam

/-- `struct state_stack_entry` of save-load-state.cpp. -/
structure state_stack_entry where
  state_mem : Nat
  state_size : Nat
  n_past : Int
deriving DecidableEq

/-- The model context, the heap, the two globals of save-load-state.cpp, and the ghost
log of `llama_eval` calls. -/
structure World (Ctx : Type) where
  ctx : Ctx
  heap : Heap
  llama_state_stack : List state_stack_entry
  beam_results : List beam_result
  evals : List (List llama_token × Int × Int)
deriving DecidableEq

variable {Ctx : Type}

/-- `llama_push_state` of save-load-state.cpp. -/
def llama_push_state (api : LlamaApi Ctx) (w : World Ctx) (n_past : Int) : World Ctx :=
  let state_size := api.llama_get_state_size w.ctx
  let state_mem := w.heap.next
  { w with
    heap := w.heap.alloc (api.llama_copy_state_data w.ctx)
    llama_state_stack := w.llama_state_stack ++ [⟨state_mem, state_size, n_past⟩] }

/-- `llama_pop_state` of save-load-state.cpp: returns the new world and the value
written to `n_past`. -/
def llama_pop_state (api : LlamaApi Ctx) (w : World Ctx) : Except Fault (World Ctx × Int) :=
  match w.llama_state_stack.getLast? with
  | none => .error .empty_container
  | some stack_entry =>
    match w.heap.read stack_entry.state_mem with
    | none => .error .dangling_buffer
    | some buf =>
      .ok ({ w with
             ctx := api.llama_set_state_data w.ctx buf
             llama_state_stack := w.llama_state_stack.dropLast
             heap := w.heap.free stack_entry.state_mem }, stack_entry.n_past)

/-- Conversion of a `float` value to `int` (truncation toward zero), as happens when a
`float` expression is passed for an `int` parameter. -/
def float_to_int (q : ℚ) : Int := q.num.tdiv q.den

/-- A call `llama_eval(ctx, &next_token, 1, n_past, n_threads)` of save-load-state.cpp,
whose return code the caller ignores; the call is appended to the ghost log. -/
def eval_token (api : LlamaApi Ctx) (w : World Ctx) (next_token : llama_token) (n_past : Int)
    (n_threads : Int) : World Ctx :=
  let r := api.llama_eval w.ctx [next_token] n_past n_threads
  { w with ctx := r.1, evals := w.evals ++ [([next_token], n_past, r.2)] }

/-- The loop of `recurse_beam_search` of save-load-state.cpp: `n` iterations remain, `i`
is the loop index, `self` is the recursive call (world, `n_past`, `prob_sum`,
`current_depth`, `text`). The parameter `prob_sum` is an `int`: the sum
`prob_sum + candidates_p.data[i].p` is a `float`, stored as it is in a result and
converted to `int` when passed to the recursive call. -/
def expand_candidates (api : LlamaApi Ctx)
    (self : World Ctx → Int → Int → Int → String → Except Fault (World Ctx))
    (candidates_p : List llama_token_data) (beam_width : Int) (prob_sum : Int)
    (current_depth max_depth : Int) (text : String) :
    Nat → Nat → World Ctx → Int → Except Fault (World Ctx × Int)
  | 0, _, w, n_past => .ok (w, n_past)
  | n + 1, i, w, n_past =>
    match candidates_p[i]? with
    | none => .error .out_of_bounds
    | some c =>
      let next_token := c.id
      let next_token_str := api.llama_token_to_str w.ctx next_token
      if current_depth = max_depth ∨ beam_width = 1 then
        expand_candidates api self candidates_p beam_width prob_sum current_depth max_depth text
          n (i + 1)
          { w with beam_results :=
              w.beam_results ++ [⟨text ++ next_token_str, (prob_sum : ℚ) + c.p, current_depth⟩] }
          n_past
      else
        let w1 := llama_push_state api w n_past
        let w2 := eval_token api w1 next_token n_past 1
        match self w2 (n_past + 1) (float_to_int ((prob_sum : ℚ) + c.p)) (current_depth + 1)
            (text ++ next_token_str) with
        | .error e => .error e
        | .ok w3 =>
          match llama_pop_state api w3 with
          | .error e => .error e
          | .ok (w4, n_past1) =>
            expand_candidates api self candidates_p beam_width prob_sum current_depth
              max_depth text n (i + 1) w4 n_past1

/-- `recurse_beam_search` of save-load-state.cpp; `fuel` bounds the recursion depth. The
recursive call is made with `beam_width - 1`. -/
def recurse_beam_search (api : LlamaApi Ctx) :
    Nat → World Ctx → Int → Int → Int → Int → Int → String → Except Fault (World Ctx)
  | 0, _, _, _, _, _, _, _ => .error .out_of_fuel
  | fuel + 1, w, n_past, beam_width, prob_sum, current_depth, max_depth, text =>
    let candidates_p := ranked_candidates api w.ctx
    match expand_candidates api
        (fun w1 n_past1 prob_sum1 depth1 text1 =>
          recurse_beam_search api fuel w1 n_past1 (beam_width - 1) prob_sum1 depth1 max_depth
            text1)
        candidates_p beam_width prob_sum current_depth max_depth text beam_width.toNat 0 w
        n_past with
    | .error e => .error e
    | .ok (w1, _) => .ok w1

/-- A world of save-load-state.cpp with nothing allocated, an empty stack, no results
and an empty log. -/
def empty_world (c : Ctx) : World Ctx :=
  ⟨c, ⟨0, []⟩, [], [], []⟩

end SaveLoadState

namespace InteractiveBeam

variable {Ctx : Type}

/-- What a call leaves untouched when it restores every snapshot it takes: the model
state, the snapshot stack and the live buffers. -/
def SameFrame (w w1 : World Ctx) : Prop :=
  w1.ctx = w.ctx ∧ w1.llama_state_stack = w.llama_state_stack ∧ w1.heap.cells = w.heap.cells

/-- The world after the push / eval / queue / pop sequence that `iterate_beam_search`
runs for one candidate. -/
def enqueue_child (api : LlamaApi Ctx) (w : World Ctx) (next_token : llama_token)
    (n_past : Int) (text : String) (depth : Int) (prob_sum : ℚ) : World Ctx :=
  let r := api.llama_eval w.ctx [next_token] n_past 12
  { ctx := api.llama_set_state_data r.1 (api.llama_copy_state_data w.ctx)
    heap := ⟨w.heap.next + 2, (w.heap.next + 1, api.llama_copy_state_data r.1) :: w.heap.cells⟩
    llama_state_stack := w.llama_state_stack
    llama_state_queue := w.llama_state_queue ++
      [⟨w.heap.next + 1, api.llama_get_state_size r.1, n_past + 1, text, depth, prob_sum⟩]
    beam_results := w.beam_results
    evals := w.evals ++ [([next_token], n_past, r.2)]
    stack_peak := max w.stack_peak (w.llama_state_stack.length + 1) }

/-- The model `api` with the return code of `llama_eval` replaced by `code`; the state
the step leaves is unchanged. -/
def with_return_code (api : LlamaApi Ctx) (code : Ctx → List llama_token → Int → Int → Int) :
    LlamaApi Ctx :=
  { api with
    llama_eval := fun c tokens n_past n_threads =>
      ((api.llama_eval c tokens n_past n_threads).1, code c tokens n_past n_threads) }

/-- The world without the ghost log of `llama_eval` calls: what the program itself holds. -/
def forget_log (w : World Ctx) : World Ctx :=
  { w with evals := [] }

/-- Two worlds that differ at most in the ghost log of `llama_eval` calls. -/
def SameButLog (w w1 : World Ctx) : Prop :=
  w.ctx = w1.ctx ∧ w.heap = w1.heap ∧ w.llama_state_stack = w1.llama_state_stack ∧
  w.llama_state_queue = w1.llama_state_queue ∧ w.beam_results = w1.beam_results ∧
  w.stack_peak = w1.stack_peak

/-- Two loop states of `iterate_beam_search` that differ at most in the ghost log. -/
def SameState (s s1 : IterState Ctx) : Prop :=
  SameButLog s.w s1.w ∧ s.n_past = s1.n_past ∧ s.text = s1.text ∧ s.depth = s1.depth ∧
  s.prob_sum = s1.prob_sum

/-- The toy model of the scenario in section 8 of the spec. -/
def scenario_api : LlamaApi (List Nat) := toy_api [6 / 10, 3 / 10, 8 / 100, 2 / 100]

/-- A toy model with four tokens of equal probability 0.25. -/
def uniform_api : LlamaApi (List Nat) := toy_api [1 / 4, 1 / 4, 1 / 4, 1 / 4]

/-- A toy model whose four tokens all reach the cutoff 0.1: probabilities 0.4, 0.3, 0.2,
0.1. -/
def flat_api : LlamaApi (List Nat) := toy_api [4 / 10, 3 / 10, 2 / 10, 1 / 10]

/-- A toy model with one dominant token: probabilities 0.9, 0.05, 0.03, 0.02. -/
def peaked_api : LlamaApi (List Nat) := toy_api [9 / 10, 5 / 100, 3 / 100, 2 / 100]

/-- The toy model of the scenario with a model step that always reports failure
(return code 1) and leaves the context as it was. -/
def failing_api : LlamaApi (List Nat) :=
  { scenario_api with llama_eval := fun c _ _ _ => (c, 1) }

/-- The loop state after the first pass of the breadth-first search on `failing_api`. -/
def failing_first_frame : IterState (List Nat) :=
  { w := { ctx := []
           heap := ⟨5, [(4, []), (2, [])]⟩
           llama_state_stack := []
           llama_state_queue := [⟨2, 0, 6, "a", 2, 6 / 10⟩, ⟨4, 0, 6, "b", 2, 3 / 10⟩]
           beam_results := []
           evals := [([0], 5, 1), ([1], 5, 1)]
           stack_peak := 1 }
    n_past := 5
    text := ""
    depth := 1
    prob_sum := 0 }

/-- The start world of the runs of the dominant-token model. -/
def peaked_start : World (List Nat) := empty_world []

/-- The world in which the two-level depth-first run of the dominant-token model ends. -/
def peaked_run_result : World (List Nat) :=
  { ctx := []
    heap := ⟨2, []⟩
    llama_state_stack := []
    llama_state_queue := []
    beam_results :=
      [⟨"aa", 18 / 10, 1⟩, ⟨"ab", 95 / 100, 1⟩, ⟨"ba", 95 / 100, 1⟩, ⟨"bb", 10 / 100, 1⟩]
    evals := [([0], 5, 0), ([1], 5, 0)]
    stack_peak := 1 }

/-- A world of the toy model with one snapshot already on the stack. -/
def sample_world : World (List Nat) :=
  eval_token scenario_api (llama_push_state scenario_api (empty_world [7]) 4) 2 4 1

/-- The world in which the sample depth-first run of the toy model ends. -/
def sibling_sample_result : World (List Nat) :=
  { ctx := [7, 2]
    heap := ⟨3, [(0, [7])]⟩
    llama_state_stack := [⟨0, 1, 4, "", 0, 0⟩]
    llama_state_queue := []
    beam_results := [⟨"aa", 12 / 10, 1⟩, ⟨"ab", 9 / 10, 1⟩, ⟨"ba", 9 / 10, 1⟩, ⟨"bb", 6 / 10, 1⟩]
    evals := [([2], 4, 0), ([0], 5, 0), ([1], 5, 0)]
    stack_peak := 2 }

/-- A world of the toy model whose queue holds two frames, the second with the higher
`prob_sum`. -/
def trim_sample_world : World (List Nat) :=
  llama_queue_state scenario_api
    (llama_queue_state scenario_api (empty_world [7]) 5 "b" 2 (3 / 10)) 5 "a" 2 (6 / 10)

/-- The world in which the breadth-first run of the scenario ends. -/
def scenario_result : World (List Nat) :=
  { ctx := [1]
    heap := ⟨5, []⟩
    llama_state_stack := []
    llama_state_queue := []
    beam_results := [⟨"aa", 12 / 10, 2⟩, ⟨"ab", 9 / 10, 2⟩, ⟨"ba", 9 / 10, 2⟩, ⟨"bb", 6 / 10, 2⟩]
    evals := [([0], 5, 0), ([1], 5, 0)]
    stack_peak := 1 }

/-- Return codes of a model step that always reports failure. -/
def always_fails : List Nat → List llama_token → Int → Int → Int :=
  fun _ _ _ _ => 1

/-- The world in which the breadth-first run of the scenario ends when every model step
reports failure: the world of the scenario with return code 1 in the log. -/
def scenario_failing_result : World (List Nat) :=
  { scenario_result with evals := [([0], 5, 1), ([1], 5, 1)] }

/-- The loop state of the scenario after its first frame has been expanded. -/
def scenario_first_frame : IterState (List Nat) :=
  { w := { ctx := []
           heap := ⟨5, [(4, [1]), (2, [0])]⟩
           llama_state_stack := []
           llama_state_queue := [⟨2, 1, 6, "a", 2, 6 / 10⟩, ⟨4, 1, 6, "b", 2, 3 / 10⟩]
           beam_results := []
           evals := [([0], 5, 0), ([1], 5, 0)]
           stack_peak := 1 }
    n_past := 5
    text := ""
    depth := 1
    prob_sum := 0 }

end InteractiveBeam

namespace SaveLoadState

/-- A world of save-load-state.cpp over the toy model, one snapshot on the stack. -/
def sample_world : World (List Nat) :=
  ⟨[7, 2], ⟨1, [(0, [7])]⟩, [⟨0, 1, 4⟩], [], []⟩

end SaveLoadState

/-! ## Heap and snapshot stack -/

namespace InteractiveBeam

variable {Ctx : Type}

/-- The value of `llama_pop_state` on a non-empty stack whose top buffer is live. -/
theorem pop_eq (api : LlamaApi Ctx) (w3 : World Ctx) (K : List state_stack_entry)
    (e : state_stack_entry) (buf : List Nat)
    (hstack : w3.llama_state_stack = K ++ [e])
    (hread : w3.heap.read e.state_mem = some buf) :
    llama_pop_state api w3 = .ok ({ w3 with
      ctx := api.llama_set_state_data w3.ctx buf
      llama_state_stack := K
      heap := w3.heap.free e.state_mem }, e.n_past) := by
  simp [llama_pop_state, hstack, hread]

/-- Popping a world whose stack top is an entry for buffer `a` and whose newest live
buffer is `a`, holding a capture of `c0`. -/
theorem pop_of_top (api : LlamaApi Ctx) (hrt : api.RoundTrip) (w3 : World Ctx)
    (K : List state_stack_entry) (e : state_stack_entry) (c0 : Ctx)
    (cells : List (Nat × List Nat))
    (hstack : w3.llama_state_stack = K ++ [e])
    (hcells : w3.heap.cells = (e.state_mem, api.llama_copy_state_data c0) :: cells) :
    ∃ w4, llama_pop_state api w3 = .ok (w4, e.n_past) ∧ w4.ctx = c0 ∧
      w4.llama_state_stack = K ∧ w4.heap.cells = cells ∧ w4.heap.next = w3.heap.next ∧
      w4.llama_state_queue = w3.llama_state_queue ∧ w4.beam_results = w3.beam_results ∧
      w4.evals = w3.evals := by
  have hread : w3.heap.read e.state_mem = some (api.llama_copy_state_data c0) := by
    simp [Heap.read, hcells]
  refine ⟨_, pop_eq api w3 K e _ hstack hread, ?_⟩
  simp [hrt c0 w3.ctx, Heap.free, hcells]

end InteractiveBeam

namespace InteractiveBeam

variable {Ctx : Type}

theorem expand_candidates_frame (api : LlamaApi Ctx) (hrt : api.RoundTrip)
    (self : World Ctx → Int → ℚ → Int → String → Except Fault (World Ctx))
    (hself : ∀ w a b c d w1, self w a b c d = .ok w1 → SameFrame w w1)
    (candidates_p : List llama_token_data) (beam_width : Int) (prob_sum : ℚ)
    (current_depth max_depth : Int) (text : String) :
    ∀ (n i : Nat) (w : World Ctx) (n_past : Int) (w1 : World Ctx) (n_past1 : Int),
      expand_candidates api self candidates_p beam_width prob_sum current_depth max_depth text
        n i w n_past = .ok (w1, n_past1) → SameFrame w w1 ∧ n_past1 = n_past := by
  intro n
  induction n with
  | zero =>
    intro i w n_past w1 n_past1 h
    simp only [expand_candidates, Except.ok.injEq, Prod.mk.injEq] at h
    obtain ⟨rfl, rfl⟩ := h
    exact ⟨⟨rfl, rfl, rfl⟩, rfl⟩
  | succ n ih =>
    intro i w n_past w1 n_past1 h
    rw [expand_candidates] at h
    cases hc : candidates_p[i]? with
    | none => simp [hc] at h
    | some c =>
      simp only [hc] at h
      by_cases hleaf : current_depth = max_depth ∨ beam_width = 1
      · rw [if_pos hleaf] at h
        obtain ⟨⟨hc1, hs1, hh1⟩, hn⟩ := ih _ _ _ _ _ h
        exact ⟨⟨hc1, hs1, hh1⟩, hn⟩
      · rw [if_neg hleaf] at h
        generalize hw2 : eval_token api (llama_push_state api w n_past) c.id n_past 1 = w2 at h
        cases hs : self w2 (n_past + 1) (prob_sum + c.p) (current_depth + 1)
            (text ++ api.llama_token_to_str w.ctx c.id) with
        | error e => simp [hs] at h
        | ok w3 =>
          simp only [hs] at h
          obtain ⟨-, hst, hcells⟩ := hself _ _ _ _ _ _ hs
          have hst3 : w3.llama_state_stack = w.llama_state_stack ++
              [⟨w.heap.next, api.llama_get_state_size w.ctx, n_past, "", 0, 0⟩] := by
            rw [hst, ← hw2]; rfl
          have hcells3 : w3.heap.cells =
              (w.heap.next, api.llama_copy_state_data w.ctx) :: w.heap.cells := by
            rw [hcells, ← hw2]; rfl
          obtain ⟨w4, hpop, h4c, h4s, h4h, -⟩ :=
            pop_of_top api hrt w3 w.llama_state_stack _ w.ctx w.heap.cells hst3 hcells3
          simp only [hpop] at h
          obtain ⟨⟨hc1, hs1, hh1⟩, hn⟩ := ih _ _ _ _ _ h
          exact ⟨⟨hc1.trans h4c, hs1.trans h4s, hh1.trans h4h⟩, hn⟩

theorem recurse_beam_search_frame (api : LlamaApi Ctx) (hrt : api.RoundTrip) :
    ∀ (fuel : Nat) (w : World Ctx) (n_past beam_width : Int) (prob_sum : ℚ)
      (current_depth max_depth : Int) (text : String) (w1 : World Ctx),
      recurse_beam_search api fuel w n_past beam_width prob_sum current_depth max_depth text
        = .ok w1 → SameFrame w w1 := by
  intro fuel
  induction fuel with
  | zero => intro w n_past beam_width prob_sum current_depth max_depth text w1 h
            simp [recurse_beam_search] at h
  | succ fuel ih =>
    intro w n_past beam_width prob_sum current_depth max_depth text w1 h
    rw [recurse_beam_search] at h
    cases hsc : scan_width (ranked_candidates api w.ctx) beam_width.toNat 0 with
    | error e => simp [hsc] at h
    | ok max_width =>
      simp only [hsc] at h
      split at h
      · simp at h
      · rename_i w2 np2 hex
        simp only [Except.ok.injEq] at h
        subst h
        exact (expand_candidates_frame api hrt _
          (fun w a b c d w1 hh => ih w a beam_width b c max_depth d w1 hh)
          _ _ _ _ _ _ _ _ _ _ _ _ hex).1

end InteractiveBeam

/-! ## The sort -/

namespace InteractiveBeam

theorem std_sort_insert_perm {α : Type} (comp : α → α → Bool) (x : α) (l : List α) :
    (std_sort_insert comp x l).Perm (x :: l) := by
  induction l with
  | nil => exact List.Perm.refl _
  | cons y ys ih =>
    unfold std_sort_insert
    split
    · exact List.Perm.refl _
    · exact (List.Perm.cons y ih).trans (List.Perm.swap x y ys)

theorem std_sort_perm {α : Type} (comp : α → α → Bool) (l : List α) :
    (std_sort comp l).Perm l := by
  induction l with
  | nil => exact List.Perm.refl _
  | cons x xs ih =>
    unfold std_sort
    exact (std_sort_insert_perm comp x _).trans (List.Perm.cons x ih)

theorem std_sort_insert_ordered {α : Type} (key : α → ℚ) (comp : α → α → Bool)
    (hcomp : ∀ a b, comp a b = true ↔ key b < key a) (x : α) (l : List α)
    (hl : l.Pairwise (fun a b => key b ≤ key a)) :
    (std_sort_insert comp x l).Pairwise (fun a b => key b ≤ key a) := by
  induction l with
  | nil => simp [std_sort_insert]
  | cons y ys ih =>
    rw [List.pairwise_cons] at hl
    unfold std_sort_insert
    split
    · rename_i hxy
      have hlt : key y < key x := (hcomp x y).1 hxy
      refine List.pairwise_cons.2 ⟨?_, List.pairwise_cons.2 hl⟩
      intro z hz
      rcases List.mem_cons.1 hz with rfl | hz
      · exact le_of_lt hlt
      · exact le_trans (hl.1 z hz) (le_of_lt hlt)
    · rename_i hxy
      have hle : key x ≤ key y := by
        by_contra hcon
        exact hxy ((hcomp x y).2 (lt_of_not_le hcon))
      refine List.pairwise_cons.2 ⟨?_, ih hl.2⟩
      intro z hz
      rcases List.mem_cons.1 ((std_sort_insert_perm comp x ys).mem_iff.1 hz) with rfl | hz
      · exact hle
      · exact hl.1 z hz

theorem std_sort_ordered {α : Type} (key : α → ℚ) (comp : α → α → Bool)
    (hcomp : ∀ a b, comp a b = true ↔ key b < key a) (l : List α) :
    (std_sort comp l).Pairwise (fun a b => key b ≤ key a) := by
  induction l with
  | nil => simp [std_sort]
  | cons x xs ih =>
    unfold std_sort
    exact std_sort_insert_ordered key comp hcomp x _ ih

theorem queue_comp_iff (a b : state_stack_entry) :
    queue_comp a b = true ↔ b.prob_sum < a.prob_sum := by
  simp [queue_comp]

theorem result_comp_iff (a b : beam_result) :
    result_comp a b = true ↔ b.prob_sum < a.prob_sum := by
  simp [result_comp]

end InteractiveBeam

/-! ## The breadth-first loop -/

namespace InteractiveBeam

variable {Ctx : Type}

theorem pop_after_enqueue (api : LlamaApi Ctx) (w : World Ctx) (next_token : llama_token)
    (n_past : Int) (text : String) (depth : Int) (prob_sum : ℚ) :
    llama_pop_state api
      (llama_queue_state api (eval_token api (llama_push_state api w n_past) next_token n_past 12)
        (n_past + 1) text depth prob_sum)
      = .ok (enqueue_child api w next_token n_past text depth prob_sum, n_past) := by
  simp [llama_pop_state, llama_queue_state, eval_token, llama_push_state, Heap.read,
    Heap.alloc, Heap.free, enqueue_child]

/-- One unfolding of the candidate loop of `iterate_beam_search`. -/
theorem iterate_candidates_succ (api : LlamaApi Ctx) (candidates_p : List llama_token_data)
    (max_depth : Int) (p_threshold : ℚ) (text : String) (depth : Int) (prob_sum : ℚ)
    (n i : Nat) (w : World Ctx) (n_past : Int) (is_leaf : Bool) (c : llama_token_data)
    (hc : candidates_p[i]? = some c) :
    iterate_candidates api candidates_p max_depth p_threshold text depth prob_sum (n + 1) i w
      n_past is_leaf =
    if c.p < p_threshold then .ok (w, n_past, is_leaf)
    else if depth = max_depth then
      iterate_candidates api candidates_p max_depth p_threshold text depth prob_sum n (i + 1)
        { w with beam_results := w.beam_results ++
            [⟨text ++ api.llama_token_to_str w.ctx c.id, prob_sum + c.p, depth⟩] }
        n_past false
    else
      iterate_candidates api candidates_p max_depth p_threshold text depth prob_sum n (i + 1)
        (enqueue_child api w c.id n_past (text ++ api.llama_token_to_str w.ctx c.id)
          (depth + 1) (prob_sum + c.p))
        n_past false := by
  rw [iterate_candidates]
  simp only [hc, pop_after_enqueue]
  simp

/-- What the candidate loop of one frame does to the queue, the results, the stack and
`n_past`. -/
theorem iterate_candidates_shape (api : LlamaApi Ctx) (candidates_p : List llama_token_data)
    (max_depth : Int) (p_threshold : ℚ) (text : String) (depth : Int) (prob_sum : ℚ) :
    ∀ (n i : Nat) (w : World Ctx) (n_past : Int) (is_leaf : Bool) (w1 : World Ctx)
      (n_past1 : Int) (is_leaf1 : Bool),
      iterate_candidates api candidates_p max_depth p_threshold text depth prob_sum n i w
        n_past is_leaf = .ok (w1, n_past1, is_leaf1) →
      n_past1 = n_past ∧ w1.llama_state_stack = w.llama_state_stack ∧
      (is_leaf = false → is_leaf1 = false) ∧
      ∃ new_frames new_results,
        w1.llama_state_queue = w.llama_state_queue ++ new_frames ∧
        w1.beam_results = w.beam_results ++ new_results ∧
        (∀ e ∈ new_frames, e.depth = depth + 1 ∧ depth ≠ max_depth ∧ e.n_past = n_past + 1) ∧
        (∀ r ∈ new_results, depth = max_depth ∧ ∃ c ∈ candidates_p, ∃ cx : Ctx,
          p_threshold ≤ c.p ∧
          r = ⟨text ++ api.llama_token_to_str cx c.id, prob_sum + c.p, depth⟩) := by
  intro n
  induction n with
  | zero =>
    intro i w n_past is_leaf w1 n_past1 is_leaf1 h
    simp only [iterate_candidates, Except.ok.injEq, Prod.mk.injEq] at h
    obtain ⟨rfl, rfl, rfl⟩ := h
    exact ⟨rfl, rfl, fun h => h, [], [], by simp, by simp, by simp, by simp⟩
  | succ n ih =>
    intro i w n_past is_leaf w1 n_past1 is_leaf1 h
    cases hc : candidates_p[i]? with
    | none => rw [iterate_candidates] at h; simp [hc] at h
    | some c =>
      have hmem : c ∈ candidates_p := List.getElem?_mem hc
      rw [iterate_candidates_succ api _ _ _ _ _ _ _ _ _ _ _ c hc] at h
      by_cases hlt : c.p < p_threshold
      · rw [if_pos hlt] at h
        simp only [Except.ok.injEq, Prod.mk.injEq] at h
        obtain ⟨rfl, rfl, rfl⟩ := h
        exact ⟨rfl, rfl, fun h => h, [], [], by simp, by simp, by simp, by simp⟩
      · rw [if_neg hlt] at h
        by_cases hd : depth = max_depth
        · rw [if_pos hd] at h
          obtain ⟨hn, hs, -, nf, nr, hq, hr, hnf, hnr⟩ := ih _ _ _ _ _ _ _ h
          refine ⟨hn, hs, fun _ => ?_, nf,
            ⟨text ++ api.llama_token_to_str w.ctx c.id, prob_sum + c.p, depth⟩ :: nr,
            hq, ?_, hnf, ?_⟩
          · exact (ih _ _ _ _ _ _ _ h).2.2.1 rfl
          · rw [hr]; simp
          · intro r hr'
            rcases List.mem_cons.1 hr' with rfl | hr'
            · exact ⟨hd, c, hmem, w.ctx, le_of_not_lt hlt, rfl⟩
            · exact hnr r hr'
        · rw [if_neg hd] at h
          obtain ⟨hn, hs, -, nf, nr, hq, hr, hnf, hnr⟩ := ih _ _ _ _ _ _ _ h
          refine ⟨hn, hs, fun _ => ?_,
            (⟨w.heap.next + 1,
              api.llama_get_state_size (api.llama_eval w.ctx [c.id] n_past 12).1, n_past + 1,
              text ++ api.llama_token_to_str w.ctx c.id, depth + 1, prob_sum + c.p⟩ :
                state_stack_entry) :: nf, nr, ?_, hr, ?_, hnr⟩
          · exact (ih _ _ _ _ _ _ _ h).2.2.1 rfl
          · rw [hq]; simp [enqueue_child]
          · intro e he
            rcases List.mem_cons.1 he with rfl | he
            · exact ⟨rfl, hd, rfl⟩
            · exact hnf e he

theorem queue_trim_results (w : World Ctx) (max_width : Int) :
    (llama_queue_trim w max_width).beam_results = w.beam_results := by
  unfold llama_queue_trim; split <;> rfl

theorem queue_trim_mem (w : World Ctx) (max_width : Int) (e : state_stack_entry)
    (he : e ∈ (llama_queue_trim w max_width).llama_state_queue) : e ∈ w.llama_state_queue := by
  unfold llama_queue_trim at he
  split at he
  · exact (std_sort_perm queue_comp w.llama_state_queue).mem_iff.1 (List.mem_of_mem_take he)
  · exact he

theorem iterate_trim_results (beam_width : Int) (s : IterState Ctx) :
    (iterate_trim beam_width s).beam_results = s.w.beam_results := by
  unfold iterate_trim; split
  · exact queue_trim_results _ _
  · rfl

theorem iterate_trim_mem (beam_width : Int) (s : IterState Ctx) (e : state_stack_entry)
    (he : e ∈ (iterate_trim beam_width s).llama_state_queue) : e ∈ s.w.llama_state_queue := by
  unfold iterate_trim at he
  split at he
  · exact queue_trim_mem _ _ _ he
  · exact he

/-- What a successful `llama_dequeue_state` returns. -/
theorem dequeue_shape (api : LlamaApi Ctx) (w0 w1 : World Ctx) (n_past : Int) (text : String)
    (depth : Int) (prob_sum : ℚ)
    (h : llama_dequeue_state api w0 = .ok (w1, n_past, text, depth, prob_sum)) :
    ∃ e rest, w0.llama_state_queue = e :: rest ∧ w1.llama_state_queue = rest ∧
      w1.beam_results = w0.beam_results ∧ w1.llama_state_stack = w0.llama_state_stack ∧
      w1.evals = w0.evals ∧
      n_past = e.n_past ∧ text = e.text ∧ depth = e.depth ∧ prob_sum = e.prob_sum := by
  unfold llama_dequeue_state at h
  split at h
  · simp at h
  · rename_i e rest hq
    split at h
    · simp at h
    · simp only [Except.ok.injEq, Prod.mk.injEq] at h
      obtain ⟨rfl, rfl, rfl, rfl, rfl⟩ := h
      exact ⟨e, rest, hq, rfl, rfl, rfl, rfl, rfl, rfl, rfl, rfl⟩

/-- What one pass of the `while` body does to the queue and the results: the front frame
`e` of the (possibly trimmed) queue leaves, new frames one level deeper may be appended,
and every result appended carries the depth of `e`. -/
theorem iterate_frame_shape (api : LlamaApi Ctx) (beam_width max_depth : Int)
    (p_threshold : ℚ) (s s1 : IterState Ctx)
    (h : iterate_frame api beam_width max_depth p_threshold s = .ok s1) :
    ∃ e rest new_frames new_results,
      (iterate_trim beam_width s).llama_state_queue = e :: rest ∧
      s1.w.llama_state_queue = rest ++ new_frames ∧
      s1.w.beam_results = s.w.beam_results ++ new_results ∧
      s1.w.llama_state_stack = s.w.llama_state_stack ∧
      s1.depth = e.depth ∧ s1.n_past = e.n_past ∧
      (∀ f ∈ new_frames, f.depth = e.depth + 1 ∧ e.depth ≠ max_depth ∧
        f.n_past = e.n_past + 1) ∧
      (∀ r ∈ new_results, r.n_tokens = e.depth) := by
  unfold iterate_frame at h
  split at h
  · simp at h
  · rename_i w1 n_past text depth prob_sum hdq
    obtain ⟨e, rest, hq0, hq1, hr1, hs1, -, rfl, rfl, rfl, rfl⟩ :=
      dequeue_shape api _ _ _ _ _ _ hdq
    dsimp only at h
    split at h
    · simp at h
    · rename_i w2 n_past1 is_leaf hcand
      obtain ⟨hn, hs2, -, nf, nr, hq2, hr2, hnf, hnr⟩ :=
        iterate_candidates_shape api _ _ _ _ _ _ _ _ _ _ _ _ _ _ hcand
      simp only [Except.ok.injEq] at h
      subst h
      have hst : (iterate_trim beam_width s).llama_state_stack = s.w.llama_state_stack := by
        unfold iterate_trim llama_queue_trim; split
        · split <;> rfl
        · rfl
      have hnr1 : ∀ r ∈ nr, r.n_tokens = e.depth := by
        intro r hr
        obtain ⟨-, c, -, cx, -, rfl⟩ := hnr r hr
        rfl
      by_cases hl : is_leaf = true
      · refine ⟨e, rest, nf, nr ++ [⟨e.text, e.prob_sum, e.depth⟩], hq0, ?_, ?_, ?_, rfl, hn,
          hnf, ?_⟩
        · simp [hl, hq2, hq1]
        · simp [hl, hr2, hr1, iterate_trim_results]
        · simp [hl, hs2, hs1, hst]
        · intro r hr
          rcases List.mem_append.1 hr with hr | hr
          · exact hnr1 r hr
          · simp at hr; subst hr; rfl
      · refine ⟨e, rest, nf, nr, hq0, ?_, ?_, ?_, rfl, hn, hnf, hnr1⟩
        · simp [hl, hq2, hq1]
        · simp [hl, hr2, hr1, iterate_trim_results]
        · simp [hl, hs2, hs1, hst]

theorem iterate_loop_done (api : LlamaApi Ctx) (beam_width max_depth : Int) (p_threshold : ℚ)
    (fuel : Nat) (s : IterState Ctx) (hq : s.w.llama_state_queue = []) :
    iterate_loop api beam_width max_depth p_threshold fuel s = .ok s := by
  unfold iterate_loop
  rw [if_pos hq]

theorem iterate_loop_step (api : LlamaApi Ctx) (beam_width max_depth : Int) (p_threshold : ℚ)
    (fuel : Nat) (s s1 : IterState Ctx) (hq : s.w.llama_state_queue ≠ [])
    (hstep : iterate_frame api beam_width max_depth p_threshold s = .ok s1) :
    iterate_loop api beam_width max_depth p_threshold (fuel + 1) s
      = iterate_loop api beam_width max_depth p_threshold fuel s1 := by
  rw [iterate_loop, if_neg hq]
  simp only [hstep]

/-- A pass of the `while` body when no trim is due, the queue front is `e` and its
buffer is live. -/
theorem iterate_frame_of_front (api : LlamaApi Ctx) (beam_width max_depth : Int)
    (p_threshold : ℚ) (s : IterState Ctx) (e : state_stack_entry)
    (rest : List state_stack_entry) (buf : List Nat) (w2 : World Ctx) (n_past1 : Int)
    (is_leaf : Bool) (hd : s.depth ≤ 10) (hq : s.w.llama_state_queue = e :: rest)
    (hread : s.w.heap.read e.state_mem = some buf)
    (hc : iterate_candidates api
        (ranked_candidates api (api.llama_set_state_data s.w.ctx buf)) max_depth p_threshold
        e.text e.depth e.prob_sum beam_width.toNat 0
        { s.w with
          ctx := api.llama_set_state_data s.w.ctx buf
          llama_state_queue := rest
          heap := s.w.heap.free e.state_mem } e.n_past true = .ok (w2, n_past1, is_leaf)) :
    iterate_frame api beam_width max_depth p_threshold s
      = .ok ⟨if is_leaf = true then
            { w2 with beam_results := w2.beam_results ++ [⟨e.text, e.prob_sum, e.depth⟩] }
          else w2, n_past1, e.text, e.depth, e.prob_sum⟩ := by
  have htrim : iterate_trim beam_width s = s.w := by
    unfold iterate_trim
    rw [if_neg (by omega)]
  have hdq : llama_dequeue_state api s.w = .ok ({ s.w with
      ctx := api.llama_set_state_data s.w.ctx buf
      llama_state_queue := rest
      heap := s.w.heap.free e.state_mem }, e.n_past, e.text, e.depth, e.prob_sum) := by
    simp only [llama_dequeue_state, hq, hread]
  simp only [iterate_frame, htrim, hdq, hc]

end InteractiveBeam

namespace InteractiveBeam

theorem scenario_ranked_descending : scenario_api.RankedDescending := by
  intro c
  have h : ranked_candidates scenario_api c
      = [⟨0, 0, 6 / 10⟩, ⟨1, -1, 3 / 10⟩, ⟨2, -2, 8 / 100⟩, ⟨3, -3, 2 / 100⟩] := by
    change ranked_candidates scenario_api [] = _
    decide!
  rw [h]
  simp only [List.pairwise_cons, List.mem_cons, List.mem_singleton, forall_eq_or_imp,
    forall_eq, List.not_mem_nil, IsEmpty.forall_iff, implies_true, List.Pairwise.nil, and_true]
  norm_num

theorem scenario_ranking (c : List Nat) :
    (ranked_candidates scenario_api c).map (fun d => (d.id, d.p))
      = [((0 : Int), (6 / 10 : ℚ)), (1, 3 / 10), (2, 8 / 100), (3, 2 / 100)] := by
  change (ranked_candidates scenario_api []).map (fun d => (d.id, d.p)) = _
  decide!

theorem scenario_vocabulary :
    ∀ c : List Nat, (2 : Int).toNat ≤ (ranked_candidates scenario_api c).length := by
  intro c
  change (2 : Int).toNat ≤ (ranked_candidates scenario_api []).length
  decide

end InteractiveBeam

namespace SaveLoadState

open InteractiveBeam

variable {Ctx : Type}

/-- The value of `llama_pop_state` of save-load-state.cpp on a non-empty stack whose top
buffer is live. -/
theorem save_load_pop_eq (api : LlamaApi Ctx) (w3 : World Ctx) (K : List state_stack_entry)
    (e : state_stack_entry) (buf : List Nat)
    (hstack : w3.llama_state_stack = K ++ [e])
    (hread : w3.heap.read e.state_mem = some buf) :
    llama_pop_state api w3 = .ok ({ w3 with
      ctx := api.llama_set_state_data w3.ctx buf
      llama_state_stack := K
      heap := w3.heap.free e.state_mem }, e.n_past) := by
  simp [llama_pop_state, hstack, hread]

end SaveLoadState

namespace InteractiveBeam

variable {Ctx : Type}

theorem toy_round_trip (probs : List ℚ) : (toy_api probs).RoundTrip :=
  fun _ _ => rfl

/-- C1. Snapshot round trip, for the push/pop pair of both example files: after
`llama_push_state(ctx, n)` in a world with model state `S = w.ctx` and stack
`K = w.llama_state_stack`, any world `w2` reached by steps that leave the stack as `K`
plus the pushed entry and leave the captured buffer in place is popped successfully;
the pop puts the model back in state `S` (so every next evaluation and ranking is the
same), writes `n` to `n_past`, and leaves the stack equal to `K`. -/
theorem snapshot_round_trip (api : LlamaApi Ctx) (hrt : api.RoundTrip) :
    (∀ (w : World Ctx) (n : Int) (w2 : World Ctx),
      w2.llama_state_stack = (llama_push_state api w n).llama_state_stack →
      w2.heap.read w.heap.next = (llama_push_state api w n).heap.read w.heap.next →
      ∃ w3, llama_pop_state api w2 = .ok (w3, n) ∧ w3.ctx = w.ctx ∧
        w3.llama_state_stack = w.llama_state_stack ∧
        (∀ tokens n_past n_threads, api.llama_eval w3.ctx tokens n_past n_threads
          = api.llama_eval w.ctx tokens n_past n_threads) ∧
        ranked_candidates api w3.ctx = ranked_candidates api w.ctx) ∧
    (∀ (w : SaveLoadState.World Ctx) (n : Int) (w2 : SaveLoadState.World Ctx),
      w2.llama_state_stack = (SaveLoadState.llama_push_state api w n).llama_state_stack →
      w2.heap.read w.heap.next
        = (SaveLoadState.llama_push_state api w n).heap.read w.heap.next →
      ∃ w3, SaveLoadState.llama_pop_state api w2 = .ok (w3, n) ∧ w3.ctx = w.ctx ∧
        w3.llama_state_stack = w.llama_state_stack ∧
        (∀ tokens n_past n_threads, api.llama_eval w3.ctx tokens n_past n_threads
          = api.llama_eval w.ctx tokens n_past n_threads)) := by
  constructor
  · intro w n w2 hstack hbuf
    have hread : w2.heap.read w.heap.next = some (api.llama_copy_state_data w.ctx) := by
      rw [hbuf]; simp [llama_push_state, Heap.read, Heap.alloc]
    have hctx : api.llama_set_state_data w2.ctx (api.llama_copy_state_data w.ctx) = w.ctx :=
      hrt _ _
    refine ⟨_, pop_eq api w2 w.llama_state_stack
      ⟨w.heap.next, api.llama_get_state_size w.ctx, n, "", 0, 0⟩ _ hstack hread, ?_⟩
    simp [hctx]
  · intro w n w2 hstack hbuf
    have hread : w2.heap.read w.heap.next = some (api.llama_copy_state_data w.ctx) := by
      rw [hbuf]; simp [SaveLoadState.llama_push_state, Heap.read, Heap.alloc]
    have hctx : api.llama_set_state_data w2.ctx (api.llama_copy_state_data w.ctx) = w.ctx :=
      hrt _ _
    refine ⟨_, SaveLoadState.save_load_pop_eq api w2 w.llama_state_stack
      ⟨w.heap.next, api.llama_get_state_size w.ctx, n⟩ _ hstack hread, ?_⟩
    simp [hctx]

/-- Witness of C1: in both files, a push at position 5 on a world with one snapshot on
the stack, one model step, then the pop. -/
theorem snapshot_round_trip_witness :
    scenario_api.RoundTrip ∧
    (∃ w3, llama_pop_state scenario_api
        (eval_token scenario_api (llama_push_state scenario_api sample_world 5) 3 5 1)
          = .ok (w3, 5) ∧ w3.ctx = sample_world.ctx ∧
        w3.llama_state_stack = sample_world.llama_state_stack ∧
        (∀ tokens n_past n_threads, scenario_api.llama_eval w3.ctx tokens n_past n_threads
          = scenario_api.llama_eval sample_world.ctx tokens n_past n_threads) ∧
        ranked_candidates scenario_api w3.ctx
          = ranked_candidates scenario_api sample_world.ctx) ∧
    (∃ w3, SaveLoadState.llama_pop_state scenario_api
        { SaveLoadState.llama_push_state scenario_api SaveLoadState.sample_world 5 with
          ctx := [7, 2, 3] } = .ok (w3, 5) ∧ w3.ctx = SaveLoadState.sample_world.ctx ∧
        w3.llama_state_stack = SaveLoadState.sample_world.llama_state_stack ∧
        (∀ tokens n_past n_threads, scenario_api.llama_eval w3.ctx tokens n_past n_threads
          = scenario_api.llama_eval SaveLoadState.sample_world.ctx tokens n_past n_threads)) :=
  ⟨toy_round_trip _,
   (snapshot_round_trip scenario_api (toy_round_trip _)).1 sample_world 5
     (eval_token scenario_api (llama_push_state scenario_api sample_world 5) 3 5 1) rfl rfl,
   (snapshot_round_trip scenario_api (toy_round_trip _)).2 SaveLoadState.sample_world 5
     { SaveLoadState.llama_push_state scenario_api SaveLoadState.sample_world 5 with
       ctx := [7, 2, 3] } rfl rfl⟩

end InteractiveBeam

namespace InteractiveBeam

variable {Ctx : Type}

/-- The second loop of `recurse_beam_search` run for `a + b` iterations is the loop run
for `a` iterations followed by the loop run for `b` more. -/
theorem expand_candidates_split (api : LlamaApi Ctx)
    (self : World Ctx → Int → ℚ → Int → String → Except Fault (World Ctx))
    (candidates_p : List llama_token_data) (beam_width : Int) (prob_sum : ℚ)
    (current_depth max_depth : Int) (text : String) (b : Nat) :
    ∀ (a i : Nat) (w : World Ctx) (n_past : Int),
      expand_candidates api self candidates_p beam_width prob_sum current_depth max_depth text
        (a + b) i w n_past =
      match expand_candidates api self candidates_p beam_width prob_sum current_depth
          max_depth text a i w n_past with
      | .error e => .error e
      | .ok (wa, n_past_a) =>
        expand_candidates api self candidates_p beam_width prob_sum current_depth max_depth
          text b (i + a) wa n_past_a := by
  intro a
  induction a with
  | zero => intro i w n_past; simp [expand_candidates]
  | succ a ih =>
    intro i w n_past
    have hab : a + 1 + b = (a + b) + 1 := by omega
    have hia : i + (a + 1) = (i + 1) + a := by omega
    rw [hab, hia, expand_candidates, expand_candidates]
    cases hc : candidates_p[i]? with
    | none => rfl
    | some c =>
      simp only []
      by_cases hleaf : current_depth = max_depth ∨ beam_width = 1
      · rw [if_pos hleaf, if_pos hleaf]; exact ih _ _ _
      · rw [if_neg hleaf, if_neg hleaf]
        cases self (eval_token api (llama_push_state api w n_past) c.id n_past 1) (n_past + 1)
            (prob_sum + c.p) (current_depth + 1) (text ++ api.llama_token_to_str w.ctx c.id) with
        | error e => rfl
        | ok w3 =>
          simp only []
          cases llama_pop_state api w3 with
          | error e => rfl
          | ok r => exact ih _ _ _

/-- C2. Sibling isolation of the depth-first search: a call of `recurse_beam_search`
that returns leaves the model state and the snapshot stack as they were at entry; and
inside the frame, the world in which each candidate `a` of the second loop is expanded
(the world after the `a` preceding siblings were expanded) has the model state, the
stack and the position `n_past` of the frame entry, whatever those siblings were. -/
theorem sibling_isolation (api : LlamaApi Ctx) (hrt : api.RoundTrip) (fuel : Nat)
    (w : World Ctx) (n_past beam_width : Int) (prob_sum : ℚ) (current_depth max_depth : Int)
    (text : String) (w1 : World Ctx)
    (hrun : recurse_beam_search api (fuel + 1) w n_past beam_width prob_sum current_depth
      max_depth text = .ok w1) :
    (w1.ctx = w.ctx ∧ w1.llama_state_stack = w.llama_state_stack) ∧
    ∃ max_width, scan_width (ranked_candidates api w.ctx) beam_width.toNat 0 = .ok max_width ∧
      ∀ a, a ≤ max_width → ∃ wa,
        expand_candidates api
          (fun w1 n_past1 prob_sum1 depth1 text1 =>
            recurse_beam_search api fuel w1 n_past1 beam_width prob_sum1 depth1 max_depth text1)
          (ranked_candidates api w.ctx) beam_width prob_sum current_depth max_depth text
          a 0 w n_past = .ok (wa, n_past) ∧
        wa.ctx = w.ctx ∧ wa.llama_state_stack = w.llama_state_stack := by
  have hframe := recurse_beam_search_frame api hrt (fuel + 1) w n_past beam_width prob_sum
    current_depth max_depth text w1 hrun
  refine ⟨⟨hframe.1, hframe.2.1⟩, ?_⟩
  rw [recurse_beam_search] at hrun
  cases hsc : scan_width (ranked_candidates api w.ctx) beam_width.toNat 0 with
  | error e => simp [hsc] at hrun
  | ok max_width =>
    simp only [hsc] at hrun
    refine ⟨max_width, rfl, ?_⟩
    intro a ha
    split at hrun
    · simp at hrun
    · rename_i w2 np2 hex
      obtain ⟨b, rfl⟩ : ∃ b, max_width = a + b := ⟨max_width - a, by omega⟩
      rw [expand_candidates_split] at hex
      split at hex
      · simp at hex
      · rename_i wa npa hexa
        obtain ⟨hf, hn⟩ := expand_candidates_frame api hrt _
          (fun w a b c d w1 hh =>
            recurse_beam_search_frame api hrt fuel w a beam_width b c max_depth d w1 hh)
          _ _ _ _ _ _ _ _ _ _ _ _ hexa
        subst hn
        exact ⟨wa, hexa, hf.1, hf.2.1⟩

/-- Witness of C2: a two-level depth-first run of the toy model from a world with one
snapshot on the stack. -/
theorem sibling_isolation_witness :
    scenario_api.RoundTrip ∧
    recurse_beam_search scenario_api (1 + 1) sample_world 5 3 0 0 1 ""
      = .ok sibling_sample_result ∧
    ((sibling_sample_result.ctx = sample_world.ctx ∧
      sibling_sample_result.llama_state_stack = sample_world.llama_state_stack) ∧
    ∃ max_width, scan_width (ranked_candidates scenario_api sample_world.ctx) (3 : Int).toNat 0
        = .ok max_width ∧
      ∀ a, a ≤ max_width → ∃ wa,
        expand_candidates scenario_api
          (fun w1 n_past1 prob_sum1 depth1 text1 =>
            recurse_beam_search scenario_api 1 w1 n_past1 3 prob_sum1 depth1 1 text1)
          (ranked_candidates scenario_api sample_world.ctx) 3 0 0 1 ""
          a 0 sample_world 5 = .ok (wa, 5) ∧
        wa.ctx = sample_world.ctx ∧ wa.llama_state_stack = sample_world.llama_state_stack) :=
  ⟨toy_round_trip _, by decide!,
   sibling_isolation scenario_api (toy_round_trip _) 1 sample_world 5 3 0 0 1 ""
     sibling_sample_result (by decide!)⟩

end InteractiveBeam

namespace InteractiveBeam

variable {Ctx : Type}

/-- C3, counterexample. With `max_width = -1` the unsigned comparison
`size() > max_width` is false, the queue of two entries is left alone, and it holds more
than `max_width` entries. -/
theorem queue_trim_negative_width :
    ¬ (((llama_queue_trim trim_sample_world (-1)).llama_state_queue.length : Int) ≤ -1) := by
  with_unfolding_all decide

/-- C3, amended. Width bound for `max_width ≥ 0`: after `llama_queue_trim(max_width)`
the queue holds at most `max_width` entries, every retained entry is an entry of the
original queue, and the original queue is a rearrangement of the retained entries
followed by a list of discarded entries none of which has a `prob_sum` above that of a
retained entry. -/
theorem queue_trim_width_bound (w : World Ctx) (max_width : Int) (hw : 0 ≤ max_width) :
    ((llama_queue_trim w max_width).llama_state_queue.length : Int) ≤ max_width ∧
    (∀ e ∈ (llama_queue_trim w max_width).llama_state_queue, e ∈ w.llama_state_queue) ∧
    ∃ discarded : List state_stack_entry,
      w.llama_state_queue.Perm ((llama_queue_trim w max_width).llama_state_queue ++ discarded) ∧
      ∀ r ∈ (llama_queue_trim w max_width).llama_state_queue, ∀ d ∈ discarded,
        d.prob_sum ≤ r.prob_sum := by
  have h64 : (2 : Int) ^ 64 = 18446744073709551616 := by norm_num
  unfold llama_queue_trim
  split
  · have hperm := std_sort_perm queue_comp w.llama_state_queue
    have hord := std_sort_ordered (fun e : state_stack_entry => e.prob_sum) queue_comp
      queue_comp_iff w.llama_state_queue
    refine ⟨?_, ?_, (std_sort queue_comp w.llama_state_queue).drop max_width.toNat, ?_, ?_⟩
    · have hlen := List.length_take_le max_width.toNat (std_sort queue_comp w.llama_state_queue)
      simp only []
      omega
    · intro e he
      exact hperm.mem_iff.1 (List.mem_of_mem_take he)
    · simp only [List.take_append_drop]
      exact hperm.symm
    · intro r hr d hd
      have hsplit := List.take_append_drop max_width.toNat
        (std_sort queue_comp w.llama_state_queue)
      rw [← hsplit, List.pairwise_append] at hord
      exact hord.2.2 r hr d hd
  · rename_i hsize
    refine ⟨?_, fun e he => he, [], by simp, by simp⟩
    rw [h64] at hsize
    omega

/-- Witness of C3: a queue of two entries trimmed to width 1. -/
theorem queue_trim_width_bound_witness :
    (0 : Int) ≤ 1 ∧
    (((llama_queue_trim trim_sample_world 1).llama_state_queue.length : Int) ≤ 1 ∧
    (∀ e ∈ (llama_queue_trim trim_sample_world 1).llama_state_queue,
      e ∈ trim_sample_world.llama_state_queue) ∧
    ∃ discarded : List state_stack_entry,
      trim_sample_world.llama_state_queue.Perm
        ((llama_queue_trim trim_sample_world 1).llama_state_queue ++ discarded) ∧
      ∀ r ∈ (llama_queue_trim trim_sample_world 1).llama_state_queue, ∀ d ∈ discarded,
        d.prob_sum ≤ r.prob_sum) :=
  ⟨by decide, queue_trim_width_bound trim_sample_world 1 (by decide)⟩

end InteractiveBeam

namespace InteractiveBeam

variable {Ctx : Type}

/-- The invariant behind the depth bound: no queued frame is deeper than `max_depth`,
and the results are `base` followed by results of depth at most `max_depth`. -/
theorem iterate_frame_depth (api : LlamaApi Ctx) (beam_width max_depth : Int)
    (p_threshold : ℚ) (base : List beam_result) (s s1 : IterState Ctx)
    (hq : ∀ e ∈ s.w.llama_state_queue, e.depth ≤ max_depth)
    (hr : ∃ recorded, s.w.beam_results = base ++ recorded ∧
      ∀ r ∈ recorded, r.n_tokens ≤ max_depth)
    (h : iterate_frame api beam_width max_depth p_threshold s = .ok s1) :
    (∀ e ∈ s1.w.llama_state_queue, e.depth ≤ max_depth) ∧
    ∃ recorded, s1.w.beam_results = base ++ recorded ∧
      ∀ r ∈ recorded, r.n_tokens ≤ max_depth := by
  obtain ⟨e, rest, nf, nr, hq0, hq1, hr1, -, -, -, hnf, hnr⟩ :=
    iterate_frame_shape api beam_width max_depth p_threshold s s1 h
  have hmem : ∀ f ∈ e :: rest, f.depth ≤ max_depth := by
    intro f hf
    rw [← hq0] at hf
    exact hq f (iterate_trim_mem _ _ _ hf)
  have he : e.depth ≤ max_depth := hmem e (List.mem_cons_self _ _)
  constructor
  · intro f hf
    rw [hq1] at hf
    rcases List.mem_append.1 hf with hf | hf
    · exact hmem f (List.mem_cons_of_mem _ hf)
    · obtain ⟨h1, h2, -⟩ := hnf f hf
      omega
  · obtain ⟨rec0, hrec0, hb0⟩ := hr
    refine ⟨rec0 ++ nr, by rw [hr1, hrec0, List.append_assoc], ?_⟩
    intro r hr'
    rcases List.mem_append.1 hr' with hr' | hr'
    · exact hb0 r hr'
    · rw [hnr r hr']; exact he

theorem iterate_loop_depth (api : LlamaApi Ctx) (beam_width max_depth : Int)
    (p_threshold : ℚ) (base : List beam_result) :
    ∀ (fuel : Nat) (s s1 : IterState Ctx),
      (∀ e ∈ s.w.llama_state_queue, e.depth ≤ max_depth) →
      (∃ recorded, s.w.beam_results = base ++ recorded ∧
        ∀ r ∈ recorded, r.n_tokens ≤ max_depth) →
      iterate_loop api beam_width max_depth p_threshold fuel s = .ok s1 →
      ∃ recorded, s1.w.beam_results = base ++ recorded ∧
        ∀ r ∈ recorded, r.n_tokens ≤ max_depth := by
  intro fuel
  induction fuel with
  | zero =>
    intro s s1 hq hr h
    unfold iterate_loop at h
    split at h
    · simp only [Except.ok.injEq] at h; subst h; exact hr
    · simp at h
  | succ fuel ih =>
    intro s s1 hq hr h
    unfold iterate_loop at h
    split at h
    · simp only [Except.ok.injEq] at h; subst h; exact hr
    · dsimp only at h
      split at h
      · simp at h
      · rename_i s2 hstep
        obtain ⟨hq2, hr2⟩ := iterate_frame_depth api beam_width max_depth p_threshold base
          s s2 hq hr hstep
        exact ih s2 s1 hq2 hr2 h

/-- C4, counterexample. With `max_depth = 0` and a first frame none of whose candidates
reaches the threshold, the search records the start frame at depth 1. -/
theorem depth_bound_fails_at_zero :
    ∃ w1, iterate_beam_search scenario_api 1 (empty_world []) 5 2 0 "abc" (7 / 10) = .ok w1 ∧
      ∃ r ∈ w1.beam_results, ¬ (r.n_tokens ≤ 0) :=
  ⟨⟨[], ⟨1, []⟩, [], [], [⟨"abc", 0, 1⟩], [], 0⟩, by decide!,
    ⟨"abc", 0, 1⟩, List.mem_singleton.2 rfl, by decide⟩

/-- C4, amended. Depth bound for `max_depth ≥ 1`: when `iterate_beam_search` is entered
with no queued frame deeper than `max_depth` (in particular with an empty queue) and
returns, the results are those present at entry followed by the recorded ones, and no
recorded result has `n_tokens` greater than `max_depth`. -/
theorem depth_bound (api : LlamaApi Ctx) (fuel : Nat) (w : World Ctx) (n_past : Int)
    (beam_width max_depth : Int) (text : String) (p_threshold : ℚ) (w1 : World Ctx)
    (hmd : 1 ≤ max_depth)
    (hq : ∀ e ∈ w.llama_state_queue, e.depth ≤ max_depth)
    (hrun : iterate_beam_search api fuel w n_past beam_width max_depth text p_threshold
      = .ok w1) :
    ∃ recorded, w1.beam_results = w.beam_results ++ recorded ∧
      ∀ r ∈ recorded, r.n_tokens ≤ max_depth := by
  unfold iterate_beam_search at hrun
  split at hrun
  · simp at hrun
  · rename_i s hloop
    simp only [Except.ok.injEq] at hrun
    subst hrun
    refine iterate_loop_depth api beam_width max_depth p_threshold w.beam_results fuel
      (iterate_init api w n_past text) s ?_ ⟨[], by simp [iterate_init, llama_queue_state], by simp⟩
      hloop
    intro e he
    simp only [iterate_init, llama_queue_state, List.mem_append, List.mem_singleton] at he
    rcases he with he | rfl
    · exact hq e he
    · exact hmd

/-- Witness of C4: the scenario of section 8 of the spec, run to completion. -/
theorem depth_bound_witness :
    (1 : Int) ≤ 2 ∧ (∀ e ∈ (empty_world ([] : List Nat)).llama_state_queue, e.depth ≤ 2) ∧
    iterate_beam_search scenario_api 3 (empty_world []) 5 2 2 "" (1 / 10)
      = .ok scenario_result ∧
    ∃ recorded, scenario_result.beam_results
        = (empty_world ([] : List Nat)).beam_results ++ recorded ∧
      ∀ r ∈ recorded, r.n_tokens ≤ 2 :=
  ⟨by decide, by simp [empty_world], by decide!,
   depth_bound scenario_api 3 (empty_world []) 5 2 2 "" (1 / 10) scenario_result (by decide)
     (by simp [empty_world]) (by decide!)⟩

end InteractiveBeam

namespace InteractiveBeam

variable {Ctx : Type}

/-- The first candidate of a probability-descending ranking has the largest probability. -/
theorem ranked_head_max (l : List llama_token_data) (c0 c : llama_token_data)
    (hl : l.Pairwise (fun a b => b.p ≤ a.p)) (h0 : l[0]? = some c0) (hc : c ∈ l) :
    c.p ≤ c0.p := by
  cases l with
  | nil => simp at hc
  | cons x xs =>
    simp only [List.getElem?_cons_zero, Option.some.injEq] at h0
    subst h0
    rcases List.mem_cons.1 hc with rfl | hc
    · exact le_refl _
    · exact (List.pairwise_cons.1 hl).1 c hc

/-- C5, counterexample. With `beam_width = 0` the candidate loop does not run, so the
start frame is recorded as a leaf although its best candidate (probability 0.6) reaches
the threshold 0.1. -/
theorem leaf_recorded_at_zero_width :
    iterate_beam_search scenario_api 1 (empty_world []) 5 0 2 "abc" (1 / 10)
      = .ok ⟨[], ⟨1, []⟩, [], [], [⟨"abc", 0, 1⟩], [], 0⟩ ∧
    ∃ c ∈ ranked_candidates scenario_api [], (1 / 10 : ℚ) ≤ c.p :=
  ⟨by decide!, ⟨0, 0, 6 / 10⟩, by decide!, by decide!⟩

/-- C5, amended. Leaf completeness for `beam_width ≥ 1` and a probability-descending
ranking. Let a pass of the `while` body dequeue a frame `(text, prob_sum, depth)`,
leaving the model in world `w1`. If no ranked candidate reaches `p_threshold`, the pass
appends exactly one result, the frame's own triple, and enqueues nothing. If some ranked
candidate reaches `p_threshold`, every result the pass appends is the extension of the
frame by a candidate that reaches the threshold; the frame's own triple is not appended
(for a positive threshold it does not even occur among the appended values). -/
theorem leaf_completeness (api : LlamaApi Ctx) (hdesc : api.RankedDescending)
    (beam_width max_depth : Int) (p_threshold : ℚ) (s s1 : IterState Ctx) (w1 : World Ctx)
    (n_past : Int) (text : String) (depth : Int) (prob_sum : ℚ)
    (hbw : 1 ≤ beam_width)
    (hdq : llama_dequeue_state api (iterate_trim beam_width s)
      = .ok (w1, n_past, text, depth, prob_sum))
    (hstep : iterate_frame api beam_width max_depth p_threshold s = .ok s1) :
    ((∀ c ∈ ranked_candidates api w1.ctx, c.p < p_threshold) →
      s1.w.beam_results = s.w.beam_results ++ [⟨text, prob_sum, depth⟩] ∧
      s1.w.llama_state_queue = w1.llama_state_queue) ∧
    ((∃ c ∈ ranked_candidates api w1.ctx, p_threshold ≤ c.p) →
      ∃ recorded, s1.w.beam_results = s.w.beam_results ++ recorded ∧
        (∀ r ∈ recorded, ∃ c ∈ ranked_candidates api w1.ctx, ∃ cx : Ctx,
          p_threshold ≤ c.p ∧
          r = ⟨text ++ api.llama_token_to_str cx c.id, prob_sum + c.p, depth⟩) ∧
        (0 < p_threshold → (⟨text, prob_sum, depth⟩ : beam_result) ∉ recorded)) := by
  obtain ⟨k, hk⟩ : ∃ k, beam_width.toNat = k + 1 := ⟨beam_width.toNat - 1, by omega⟩
  have hres1 : w1.beam_results = s.w.beam_results := by
    obtain ⟨e, rest, -, -, hr, -⟩ := dequeue_shape api _ _ _ _ _ _ hdq
    rw [hr, iterate_trim_results]
  unfold iterate_frame at hstep
  rw [hdq] at hstep
  dsimp only at hstep
  rw [hk] at hstep
  cases hc0 : (ranked_candidates api w1.ctx)[0]? with
  | none => rw [iterate_candidates] at hstep; simp [hc0] at hstep
  | some c0 =>
    have hmem0 : c0 ∈ ranked_candidates api w1.ctx := List.getElem?_mem hc0
    rw [iterate_candidates_succ api _ _ _ _ _ _ _ _ _ _ _ c0 hc0] at hstep
    constructor
    · intro hnone
      rw [if_pos (hnone c0 hmem0)] at hstep
      simp only [if_true, Except.ok.injEq] at hstep
      subst hstep
      exact ⟨by simp [hres1], rfl⟩
    · rintro ⟨c, hc, hge⟩
      have hge0 : p_threshold ≤ c0.p :=
        le_trans hge (ranked_head_max _ c0 c (hdesc w1.ctx) hc0 hc)
      rw [if_neg (not_lt.2 hge0)] at hstep
      have key : ∀ (wa : World Ctx) (pre : List beam_result),
          wa.beam_results = s.w.beam_results ++ pre →
          (∀ r ∈ pre, ∃ c ∈ ranked_candidates api w1.ctx, ∃ cx : Ctx, p_threshold ≤ c.p ∧
            r = ⟨text ++ api.llama_token_to_str cx c.id, prob_sum + c.p, depth⟩) →
          (match iterate_candidates api (ranked_candidates api w1.ctx) max_depth p_threshold
              text depth prob_sum k (0 + 1) wa n_past false with
            | Except.error e => (Except.error e : Except Fault (IterState Ctx))
            | Except.ok (w2, n_past1, is_leaf) =>
              Except.ok (⟨if is_leaf = true then
                  { w2 with beam_results := w2.beam_results ++ [⟨text, prob_sum, depth⟩] }
                else w2, n_past1, text, depth, prob_sum⟩ : IterState Ctx)) = Except.ok s1 →
          ∃ recorded, s1.w.beam_results = s.w.beam_results ++ recorded ∧
            (∀ r ∈ recorded, ∃ c ∈ ranked_candidates api w1.ctx, ∃ cx : Ctx,
              p_threshold ≤ c.p ∧
              r = ⟨text ++ api.llama_token_to_str cx c.id, prob_sum + c.p, depth⟩) := by
        intro wa pre hpre hprop hrun
        split at hrun
        · simp at hrun
        · rename_i w2 n_past1 is_leaf hcand
          obtain ⟨-, -, hleaf, nf, nr, -, hr2, -, hnr⟩ :=
            iterate_candidates_shape api _ _ _ _ _ _ _ _ _ _ _ _ _ _ hcand
          have hl : is_leaf = false := hleaf rfl
          subst hl
          simp only [Bool.false_eq_true, if_false, Except.ok.injEq] at hrun
          subst hrun
          refine ⟨pre ++ nr, by simp [hr2, hpre], ?_⟩
          intro r hr
          rcases List.mem_append.1 hr with hr | hr
          · exact hprop r hr
          · exact (hnr r hr).2
      have hfinal : ∃ recorded, s1.w.beam_results = s.w.beam_results ++ recorded ∧
          (∀ r ∈ recorded, ∃ c ∈ ranked_candidates api w1.ctx, ∃ cx : Ctx,
            p_threshold ≤ c.p ∧
            r = ⟨text ++ api.llama_token_to_str cx c.id, prob_sum + c.p, depth⟩) := by
        by_cases hd : depth = max_depth
        · rw [if_pos hd] at hstep
          refine key _ [⟨text ++ api.llama_token_to_str w1.ctx c0.id, prob_sum + c0.p, depth⟩]
            (by simp [hres1]) ?_ hstep
          intro r hr
          simp only [List.mem_singleton] at hr
          exact ⟨c0, hmem0, w1.ctx, hge0, hr⟩
        · rw [if_neg hd] at hstep
          exact key _ [] (by simp [enqueue_child, hres1]) (by simp) hstep
      obtain ⟨recorded, hrec, hall⟩ := hfinal
      refine ⟨recorded, hrec, hall, ?_⟩
      intro hpos hown
      obtain ⟨c1, -, cx, hc1, heq⟩ := hall _ hown
      have hps : prob_sum = prob_sum + c1.p := congrArg beam_result.prob_sum heq
      have : c1.p = 0 := by linarith
      linarith

/-- Witness of C5: the first frame of the scenario of section 8 of the spec. -/
theorem leaf_completeness_witness :
    scenario_api.RankedDescending ∧ (1 : Int) ≤ 2 ∧
    llama_dequeue_state scenario_api
        (iterate_trim 2 (iterate_init scenario_api (empty_world []) 5 ""))
      = .ok (⟨[], ⟨1, []⟩, [], [], [], [], 0⟩, 5, "", 1, 0) ∧
    iterate_frame scenario_api 2 2 (1 / 10) (iterate_init scenario_api (empty_world []) 5 "")
      = .ok scenario_first_frame ∧
    (((∀ c ∈ ranked_candidates scenario_api
          (⟨[], ⟨1, []⟩, [], [], [], [], 0⟩ : World (List Nat)).ctx, c.p < 1 / 10) →
      scenario_first_frame.w.beam_results
        = (iterate_init scenario_api (empty_world []) 5 "").w.beam_results ++ [⟨"", 0, 1⟩] ∧
      scenario_first_frame.w.llama_state_queue
        = (⟨[], ⟨1, []⟩, [], [], [], [], 0⟩ : World (List Nat)).llama_state_queue) ∧
    ((∃ c ∈ ranked_candidates scenario_api
          (⟨[], ⟨1, []⟩, [], [], [], [], 0⟩ : World (List Nat)).ctx, (1 / 10 : ℚ) ≤ c.p) →
      ∃ recorded, scenario_first_frame.w.beam_results
          = (iterate_init scenario_api (empty_world []) 5 "").w.beam_results ++ recorded ∧
        (∀ r ∈ recorded, ∃ c ∈ ranked_candidates scenario_api
            (⟨[], ⟨1, []⟩, [], [], [], [], 0⟩ : World (List Nat)).ctx, ∃ cx : List Nat,
          (1 / 10 : ℚ) ≤ c.p ∧
          r = ⟨"" ++ scenario_api.llama_token_to_str cx c.id, 0 + c.p, 1⟩) ∧
        ((0 : ℚ) < 1 / 10 → (⟨"", 0, 1⟩ : beam_result) ∉ recorded))) :=
  ⟨scenario_ranked_descending, by decide, by decide!, by decide!,
   leaf_completeness scenario_api scenario_ranked_descending 2 2 (1 / 10)
     (iterate_init scenario_api (empty_world []) 5 "") scenario_first_frame
     ⟨[], ⟨1, []⟩, [], [], [], [], 0⟩ 5 "" 1 0 (by decide) (by decide!) (by decide!)⟩

end InteractiveBeam

namespace InteractiveBeam

variable {Ctx : Type}

/-- A ranking whose ids and probabilities are those of the scenario has four entries. -/
theorem scenario_ranking_shape (l : List llama_token_data)
    (h : l.map (fun d => (d.id, d.p))
      = [((0 : Int), (6 / 10 : ℚ)), (1, 3 / 10), (2, 8 / 100), (3, 2 / 100)]) :
    ∃ x0 x1 x2 x3 : llama_token_data, l = [x0, x1, x2, x3] ∧
      x0.id = 0 ∧ x0.p = 6 / 10 ∧ x1.id = 1 ∧ x1.p = 3 / 10 ∧ x2.p = 8 / 100 := by
  have hlen : l.length = 4 := by
    have := congrArg List.length h
    simpa using this
  rcases l with _ | ⟨x0, _ | ⟨x1, _ | ⟨x2, _ | ⟨x3, _ | ⟨x4, t⟩⟩⟩⟩⟩ <;>
    simp only [List.length_nil, List.length_cons] at hlen <;> try omega
  simp only [List.map_cons, List.map_nil, List.cons.injEq, Prod.mk.injEq, and_true] at h
  exact ⟨x0, x1, x2, x3, rfl, h.1.1, h.1.2, h.2.1.1, h.2.1.2, h.2.2.1.2⟩

/-- The candidate loop of the scenario on a frame above the maximal depth: the two
candidates that reach the threshold are enqueued, the loop stops at `beam_width`. -/
theorem scenario_inner_frame (api : LlamaApi Ctx) (tok : llama_token → String)
    (hstr : ∀ c t, api.llama_token_to_str c t = tok t)
    (l : List llama_token_data)
    (h : l.map (fun d => (d.id, d.p))
      = [((0 : Int), (6 / 10 : ℚ)), (1, 3 / 10), (2, 8 / 100), (3, 2 / 100)])
    (text : String) (prob_sum : ℚ) (w : World Ctx) (n_past : Int) :
    iterate_candidates api l 2 (1 / 10) text 1 prob_sum 2 0 w n_past true
      = .ok (enqueue_child api
          (enqueue_child api w 0 n_past (text ++ tok 0) 2 (prob_sum + 6 / 10))
          1 n_past (text ++ tok 1) 2 (prob_sum + 3 / 10), n_past, false) := by
  obtain ⟨x0, x1, x2, x3, rfl, h0, hp0, h1, hp1, -⟩ := scenario_ranking_shape l h
  rw [iterate_candidates_succ api _ _ _ _ _ _ _ _ _ _ _ x0 rfl,
    if_neg (by rw [hp0]; norm_num), if_neg (by decide),
    iterate_candidates_succ api _ _ _ _ _ _ _ _ _ _ _ x1 rfl,
    if_neg (by rw [hp1]; norm_num), if_neg (by decide), iterate_candidates]
  simp only [hstr, h0, hp0, h1, hp1]
  rfl

/-- The candidate loop of the scenario on a frame at the maximal depth: the two
candidates that reach the threshold are recorded. -/
theorem scenario_last_frame (api : LlamaApi Ctx) (tok : llama_token → String)
    (hstr : ∀ c t, api.llama_token_to_str c t = tok t)
    (l : List llama_token_data)
    (h : l.map (fun d => (d.id, d.p))
      = [((0 : Int), (6 / 10 : ℚ)), (1, 3 / 10), (2, 8 / 100), (3, 2 / 100)])
    (text : String) (prob_sum : ℚ) (w : World Ctx) (n_past : Int) :
    iterate_candidates api l 2 (1 / 10) text 2 prob_sum 2 0 w n_past true
      = .ok ({ w with beam_results := w.beam_results ++
          [⟨text ++ tok 0, prob_sum + 6 / 10, 2⟩, ⟨text ++ tok 1, prob_sum + 3 / 10, 2⟩] },
        n_past, false) := by
  obtain ⟨x0, x1, x2, x3, rfl, h0, hp0, h1, hp1, -⟩ := scenario_ranking_shape l h
  rw [iterate_candidates_succ api _ _ _ _ _ _ _ _ _ _ _ x0 rfl,
    if_neg (by rw [hp0]; norm_num), if_pos rfl,
    iterate_candidates_succ api _ _ _ _ _ _ _ _ _ _ _ x1 rfl,
    if_neg (by rw [hp1]; norm_num), if_pos rfl, iterate_candidates]
  simp only [hstr, h0, hp0, h1, hp1, List.append_assoc, List.singleton_append]

/-- In the scenario, a pass of the `while` body over a front frame at depth 1 records
nothing and appends two frames at depth 2, for token 0 and for token 1. -/
theorem scenario_inner_pass (api : LlamaApi Ctx) (tok : llama_token → String)
    (hstr : ∀ c t, api.llama_token_to_str c t = tok t)
    (hrank : ∀ c, (ranked_candidates api c).map (fun d => (d.id, d.p))
      = [((0 : Int), (6 / 10 : ℚ)), (1, 3 / 10), (2, 8 / 100), (3, 2 / 100)])
    (s : IterState Ctx) (e : state_stack_entry) (rest : List state_stack_entry)
    (buf : List Nat) (hd : s.depth ≤ 10) (hq : s.w.llama_state_queue = e :: rest)
    (he : e.depth = 1) (hread : s.w.heap.read e.state_mem = some buf) :
    ∃ s1 size0 size1 buf0 buf1,
      iterate_frame api 2 2 (1 / 10) s = .ok s1 ∧ s1.depth = 1 ∧
      s1.w.beam_results = s.w.beam_results ∧
      s1.w.llama_state_queue = rest ++
        [⟨s.w.heap.next + 1, size0, e.n_past + 1, e.text ++ tok 0, 2, e.prob_sum + 6 / 10⟩,
         ⟨s.w.heap.next + 3, size1, e.n_past + 1, e.text ++ tok 1, 2, e.prob_sum + 3 / 10⟩] ∧
      s1.w.heap.cells = (s.w.heap.next + 3, buf1) :: (s.w.heap.next + 1, buf0) ::
        (s.w.heap.free e.state_mem).cells := by
  have hc := scenario_inner_frame api tok hstr _ (hrank (api.llama_set_state_data s.w.ctx buf))
    e.text e.prob_sum
    { s.w with
      ctx := api.llama_set_state_data s.w.ctx buf
      llama_state_queue := rest
      heap := s.w.heap.free e.state_mem } e.n_past
  have hf := iterate_frame_of_front api 2 2 (1 / 10) s e rest buf _ _ _ hd hq hread
    (by rw [he]; exact hc)
  let c0 := api.llama_set_state_data s.w.ctx buf
  let r0 := (api.llama_eval c0 [0] e.n_past 12).1
  let c1 := api.llama_set_state_data r0 (api.llama_copy_state_data c0)
  let r1 := (api.llama_eval c1 [1] e.n_past 12).1
  refine ⟨_, api.llama_get_state_size r0, api.llama_get_state_size r1,
    api.llama_copy_state_data r0, api.llama_copy_state_data r1, hf, ?_, ?_, ?_, ?_⟩
  · simp [he]
  · simp [enqueue_child]
  · simp [enqueue_child, Heap.free, c0, r0, c1, r1]
  · simp [enqueue_child, Heap.free, c0, r0, c1, r1]

/-- In the scenario, a pass of the `while` body over a front frame at depth 2 records the
two continuations by token 0 and by token 1 and enqueues nothing. -/
theorem scenario_last_pass (api : LlamaApi Ctx) (tok : llama_token → String)
    (hstr : ∀ c t, api.llama_token_to_str c t = tok t)
    (hrank : ∀ c, (ranked_candidates api c).map (fun d => (d.id, d.p))
      = [((0 : Int), (6 / 10 : ℚ)), (1, 3 / 10), (2, 8 / 100), (3, 2 / 100)])
    (s : IterState Ctx) (e : state_stack_entry) (rest : List state_stack_entry)
    (buf : List Nat) (hd : s.depth ≤ 10) (hq : s.w.llama_state_queue = e :: rest)
    (he : e.depth = 2) (hread : s.w.heap.read e.state_mem = some buf) :
    ∃ s1, iterate_frame api 2 2 (1 / 10) s = .ok s1 ∧ s1.depth = 2 ∧
      s1.w.beam_results = s.w.beam_results ++
        [⟨e.text ++ tok 0, e.prob_sum + 6 / 10, 2⟩, ⟨e.text ++ tok 1, e.prob_sum + 3 / 10, 2⟩] ∧
      s1.w.llama_state_queue = rest ∧
      s1.w.heap.cells = (s.w.heap.free e.state_mem).cells := by
  have hc := scenario_last_frame api tok hstr _ (hrank (api.llama_set_state_data s.w.ctx buf))
    e.text e.prob_sum
    { s.w with
      ctx := api.llama_set_state_data s.w.ctx buf
      llama_state_queue := rest
      heap := s.w.heap.free e.state_mem } e.n_past
  have hf := iterate_frame_of_front api 2 2 (1 / 10) s e rest buf _ _ _ hd hq hread
    (by rw [he]; exact hc)
  exact ⟨_, hf, by simp [he], by simp, by simp, by simp⟩

/-- C6. The scenario of section 8 of the spec, for every model whose ranking is
tokens 0..3 with probabilities 0.6, 0.3, 0.08, 0.02 in every state and whose token
strings are `tok`: started with an empty queue and an empty result collection, with
`beam_width = 2`, `max_depth = 2`, `p_threshold = 0.1` and fuel for three passes,
`iterate_beam_search` returns, and has recorded exactly the four results
token0+token0, token0+token1, token1+token0, token1+token1 appended to the start text,
with `prob_sum` 1.2, 0.9, 0.9, 0.6; `get_best_beam_result` then returns the
token0+token0 text. -/
theorem scenario_search (api : LlamaApi Ctx) (tok : llama_token → String)
    (hstr : ∀ c t, api.llama_token_to_str c t = tok t)
    (hrank : ∀ c, (ranked_candidates api c).map (fun d => (d.id, d.p))
      = [((0 : Int), (6 / 10 : ℚ)), (1, 3 / 10), (2, 8 / 100), (3, 2 / 100)])
    (w : World Ctx) (n_past : Int) (text : String) (fuel : Nat)
    (hq : w.llama_state_queue = []) (hr : w.beam_results = []) (hfuel : 3 ≤ fuel) :
    ∃ w1, iterate_beam_search api fuel w n_past 2 2 text (1 / 10) = .ok w1 ∧
      w1.beam_results =
        [⟨text ++ tok 0 ++ tok 0, 12 / 10, 2⟩, ⟨text ++ tok 0 ++ tok 1, 9 / 10, 2⟩,
         ⟨text ++ tok 1 ++ tok 0, 9 / 10, 2⟩, ⟨text ++ tok 1 ++ tok 1, 6 / 10, 2⟩] ∧
      get_best_beam_result w1.beam_results = text ++ tok 0 ++ tok 0 := by
  obtain ⟨f, rfl⟩ : ∃ f, fuel = f + 3 := ⟨fuel - 3, by omega⟩
  -- first pass: the start frame at depth 1
  obtain ⟨s1, z0, z1, b0, b1, hf1, hd1, hr1, hq1, hc1⟩ :=
    scenario_inner_pass api tok hstr hrank (iterate_init api w n_past text)
      ⟨w.heap.next, api.llama_get_state_size w.ctx, n_past, text, 1, 0⟩ []
      (api.llama_copy_state_data w.ctx) (by simp [iterate_init])
      (by simp [iterate_init, llama_queue_state, hq]) rfl
      (by simp [iterate_init, llama_queue_state, Heap.read, Heap.alloc])
  simp only [iterate_init, llama_queue_state, Heap.alloc, Heap.free, List.nil_append,
    List.eraseP_cons_of_pos, beq_self_eq_true] at hq1 hc1 hr1
  -- second pass: the frame of token 0 at depth 2
  obtain ⟨s2, hf2, hd2, hr2, hq2, hc2⟩ :=
    scenario_last_pass api tok hstr hrank s1 _ _ b0 (by omega) hq1 rfl
      (by simp [Heap.read, hc1])
  simp only [Heap.free, hc1] at hc2
  -- third pass: the frame of token 1 at depth 2
  obtain ⟨s3, hf3, hd3, hr3, hq3, hc3⟩ :=
    scenario_last_pass api tok hstr hrank s2 _ _ b1 (by omega) hq2 rfl
      (by simp [Heap.read, hc2])
  have hres : s3.w.beam_results =
      [⟨text ++ tok 0 ++ tok 0, 12 / 10, 2⟩, ⟨text ++ tok 0 ++ tok 1, 9 / 10, 2⟩,
       ⟨text ++ tok 1 ++ tok 0, 9 / 10, 2⟩, ⟨text ++ tok 1 ++ tok 1, 6 / 10, 2⟩] := by
    rw [hr3, hr2, hr1, hr]
    simp only [List.nil_append, List.cons_append, List.cons.injEq, beam_result.mk.injEq,
      and_true, true_and]
    norm_num
  refine ⟨s3.w, ?_, hres, ?_⟩
  · have hloop : iterate_loop api 2 2 (1 / 10) (f + 3) (iterate_init api w n_past text)
        = .ok s3 := by
      rw [iterate_loop_step api 2 2 (1 / 10) (f + 2) _ s1
          (by simp [iterate_init, llama_queue_state]) hf1,
        iterate_loop_step api 2 2 (1 / 10) (f + 1) _ s2 (by simp [hq1]) hf2,
        iterate_loop_step api 2 2 (1 / 10) f _ s3 (by simp [hq2]) hf3,
        iterate_loop_done api 2 2 (1 / 10) f s3 hq3]
    simp only [iterate_beam_search, hloop]
  · rw [hres]
    simp only [get_best_beam_result, best_scan]
    norm_num

/-- Witness of C6: the toy model of the scenario, started at position 5 with an empty
text. -/
theorem scenario_search_witness :
    (∀ (c : List Nat) (t : llama_token), scenario_api.llama_token_to_str c t
      = String.singleton (Char.ofNat (97 + t.toNat))) ∧
    (∀ c, (ranked_candidates scenario_api c).map (fun d => (d.id, d.p))
      = [((0 : Int), (6 / 10 : ℚ)), (1, 3 / 10), (2, 8 / 100), (3, 2 / 100)]) ∧
    (empty_world ([] : List Nat)).llama_state_queue = [] ∧
    (empty_world ([] : List Nat)).beam_results = [] ∧ 3 ≤ 3 ∧
    ∃ w1, iterate_beam_search scenario_api 3 (empty_world []) 5 2 2 "" (1 / 10) = .ok w1 ∧
      w1.beam_results =
        [⟨"" ++ String.singleton (Char.ofNat (97 + (0 : Int).toNat))
            ++ String.singleton (Char.ofNat (97 + (0 : Int).toNat)), 12 / 10, 2⟩,
         ⟨"" ++ String.singleton (Char.ofNat (97 + (0 : Int).toNat))
            ++ String.singleton (Char.ofNat (97 + (1 : Int).toNat)), 9 / 10, 2⟩,
         ⟨"" ++ String.singleton (Char.ofNat (97 + (1 : Int).toNat))
            ++ String.singleton (Char.ofNat (97 + (0 : Int).toNat)), 9 / 10, 2⟩,
         ⟨"" ++ String.singleton (Char.ofNat (97 + (1 : Int).toNat))
            ++ String.singleton (Char.ofNat (97 + (1 : Int).toNat)), 6 / 10, 2⟩] ∧
      get_best_beam_result w1.beam_results
        = "" ++ String.singleton (Char.ofNat (97 + (0 : Int).toNat))
            ++ String.singleton (Char.ofNat (97 + (0 : Int).toNat)) :=
  ⟨fun _ _ => rfl, scenario_ranking, rfl, rfl, le_refl 3,
   scenario_search scenario_api (fun t => String.singleton (Char.ofNat (97 + t.toNat)))
     (fun _ _ => rfl) scenario_ranking (empty_world []) 5 "" 3 rfl rfl (le_refl 3)⟩

end InteractiveBeam

namespace InteractiveBeam

variable {Ctx : Type}

/-- The scan of `get_best_beam_result` started with a running best `(best_text,
best_prob_sum)`: either no result exceeds the running best and the running text is
returned, or the text returned is that of the first result of maximal `prob_sum`. -/
theorem best_scan_spec : ∀ (rs : List beam_result) (best_text : String) (best_prob_sum : ℚ),
    ((∀ r ∈ rs, r.prob_sum ≤ best_prob_sum) ∧
      best_scan rs best_text best_prob_sum = best_text) ∨
    (∃ before r after, rs = before ++ r :: after ∧
      best_scan rs best_text best_prob_sum = r.text ∧ best_prob_sum < r.prob_sum ∧
      (∀ x ∈ before, x.prob_sum < r.prob_sum) ∧ (∀ x ∈ after, x.prob_sum ≤ r.prob_sum)) := by
  intro rs
  induction rs with
  | nil => intro bt bp; exact Or.inl ⟨by simp, rfl⟩
  | cons r rs ih =>
    intro bt bp
    unfold best_scan
    by_cases hgt : r.prob_sum > bp
    · rw [if_pos hgt]
      rcases ih r.text r.prob_sum with ⟨hall, hres⟩ | ⟨pre, r1, post, hrs, hres, hlt, hpre, hpost⟩
      · exact Or.inr ⟨[], r, rs, rfl, hres, hgt, by simp, hall⟩
      · refine Or.inr ⟨r :: pre, r1, post, by rw [hrs]; rfl, hres, lt_trans hgt hlt, ?_, hpost⟩
        intro x hx
        rcases List.mem_cons.1 hx with rfl | hx
        · exact hlt
        · exact hpre x hx
    · rw [if_neg hgt]
      have hle : r.prob_sum ≤ bp := not_lt.1 hgt
      rcases ih bt bp with ⟨hall, hres⟩ | ⟨pre, r1, post, hrs, hres, hlt, hpre, hpost⟩
      · refine Or.inl ⟨?_, hres⟩
        intro x hx
        rcases List.mem_cons.1 hx with rfl | hx
        · exact hle
        · exact hall x hx
      · refine Or.inr ⟨r :: pre, r1, post, by rw [hrs]; rfl, hres, hlt, ?_, hpost⟩
        intro x hx
        rcases List.mem_cons.1 hx with rfl | hx
        · exact lt_of_le_of_lt hle hlt
        · exact hpre x hx

/-- On a collection with a result of positive `prob_sum`, `get_best_beam_result` returns
the text of the first result of maximal `prob_sum`. -/
theorem best_of_positive (rs : List beam_result) (hpos : ∃ r ∈ rs, 0 < r.prob_sum) :
    ∃ before r after, rs = before ++ r :: after ∧ get_best_beam_result rs = r.text ∧
      (∀ x ∈ before, x.prob_sum < r.prob_sum) ∧ (∀ x ∈ after, x.prob_sum ≤ r.prob_sum) := by
  rcases best_scan_spec rs "" 0 with ⟨hall, -⟩ | ⟨pre, r, post, hrs, hres, -, hpre, hpost⟩
  · obtain ⟨r, hr, hp⟩ := hpos
    exact absurd (hall r hr) (not_le.2 hp)
  · exact ⟨pre, r, post, hrs, hres, hpre, hpost⟩

/-- C7, the code at the failing input. A breadth-first search whose start frame has no
candidate at the threshold records the single result `("abc", 0, 1)`; on this non-empty
collection `get_best_beam_result` returns the empty string, which is not the text of
the result of maximal `prob_sum`. -/
theorem best_of_zero_prob_sum :
    iterate_beam_search scenario_api 1 (empty_world []) 5 8 200 "abc" (7 / 10)
      = .ok ⟨[], ⟨1, []⟩, [], [], [⟨"abc", 0, 1⟩], [], 0⟩ ∧
    get_best_beam_result [⟨"abc", 0, 1⟩] = "" ∧
    ∀ r ∈ [(⟨"abc", 0, 1⟩ : beam_result)], get_best_beam_result [⟨"abc", 0, 1⟩] ≠ r.text := by
  refine ⟨by decide!, by decide!, ?_⟩
  intro r hr
  rw [List.mem_singleton.1 hr]
  decide!

/-- C8, counterexample. On the empty collection `get_best_beam_result` returns a
string, and the non-empty collection `[("", 1, 1)]` produces the same return value. -/
theorem best_of_empty_not_distinguishable :
    get_best_beam_result [] = get_best_beam_result [⟨"", 1, 1⟩] ∧
    ([(⟨"", 1, 1⟩ : beam_result)] ≠ []) :=
  ⟨by decide!, by simp⟩

/-- C8, amended. `get_best_beam_result` has no error path: on the empty collection it
returns the empty string. A return value other than the empty string tells the caller
that a result was recorded: it is then the text of the first result of maximal
`prob_sum` in the collection. -/
theorem best_of_empty :
    get_best_beam_result [] = "" ∧
    ∀ rs : List beam_result, get_best_beam_result rs ≠ "" →
      ∃ before r after, rs = before ++ r :: after ∧ get_best_beam_result rs = r.text ∧
        (∀ x ∈ before, x.prob_sum < r.prob_sum) ∧ (∀ x ∈ after, x.prob_sum ≤ r.prob_sum) := by
  refine ⟨rfl, ?_⟩
  intro rs hne
  rcases best_scan_spec rs "" 0 with ⟨-, hres⟩ | ⟨pre, r, post, hrs, hres, -, hpre, hpost⟩
  · exact absurd hres hne
  · exact ⟨pre, r, post, hrs, hres, hpre, hpost⟩

/-- Witness of C8: the collection with the two-token results "ab" at 0.9 and "aa" at 1.2. -/
theorem best_of_empty_witness :
    get_best_beam_result [⟨"ab", 9 / 10, 2⟩, ⟨"aa", 12 / 10, 2⟩] ≠ "" ∧
    ∃ before r after,
      [(⟨"ab", 9 / 10, 2⟩ : beam_result), ⟨"aa", 12 / 10, 2⟩] = before ++ r :: after ∧
      get_best_beam_result [⟨"ab", 9 / 10, 2⟩, ⟨"aa", 12 / 10, 2⟩] = r.text ∧
      (∀ x ∈ before, x.prob_sum < r.prob_sum) ∧ (∀ x ∈ after, x.prob_sum ≤ r.prob_sum) :=
  ⟨by decide!, best_of_empty.2 [⟨"ab", 9 / 10, 2⟩, ⟨"aa", 12 / 10, 2⟩] (by decide!)⟩

/-- C9. Ranked view: after `sort_beam_results` the collection is a rearrangement of the
collection before the call, and every result's `prob_sum` is at least that of every
result after it (in particular of the next one); nothing else in the world changes. -/
theorem sort_beam_results_ranked (w : World Ctx) :
    (sort_beam_results w).beam_results.Perm w.beam_results ∧
    (sort_beam_results w).beam_results.Pairwise (fun a b => b.prob_sum ≤ a.prob_sum) ∧
    (sort_beam_results w).beam_results.Chain' (fun a b => b.prob_sum ≤ a.prob_sum) ∧
    (sort_beam_results w).ctx = w.ctx ∧
    (sort_beam_results w).llama_state_stack = w.llama_state_stack ∧
    (sort_beam_results w).llama_state_queue = w.llama_state_queue := by
  have hord := std_sort_ordered (fun r : beam_result => r.prob_sum) result_comp
    result_comp_iff w.beam_results
  exact ⟨std_sort_perm result_comp w.beam_results, hord, List.Pairwise.chain' hord,
    rfl, rfl, rfl⟩

end InteractiveBeam

namespace InteractiveBeam

variable {Ctx : Type}

/-- The first loop of `recurse_beam_search` when the first candidate below the cutoff
0.1 at or after index `i` sits at index `i + d`, within the remaining `n` iterations. -/
theorem scan_width_stop (candidates_p : List llama_token_data) :
    ∀ (d n i : Nat) (c : llama_token_data), d < n →
      candidates_p[i + d]? = some c → c.p < 1 / 10 →
      (∀ j, i ≤ j → j < i + d → ∃ cj, candidates_p[j]? = some cj ∧ 1 / 10 ≤ cj.p) →
      scan_width candidates_p n i = .ok (max (i + d) 2) := by
  intro d
  induction d with
  | zero =>
    intro n i c hn hc hlow _
    obtain ⟨m, rfl⟩ : ∃ m, n = m + 1 := ⟨n - 1, by omega⟩
    rw [scan_width]
    simp only [Nat.add_zero] at hc
    simp only [hc, if_pos hlow, Nat.add_zero]
    by_cases h2 : i > 2
    · rw [if_pos h2, max_eq_left (by omega)]
    · rw [if_neg h2, max_eq_right (by omega)]
  | succ d ih =>
    intro n i c hn hc hlow hhigh
    obtain ⟨m, rfl⟩ : ∃ m, n = m + 1 := ⟨n - 1, by omega⟩
    obtain ⟨ci, hci, hpi⟩ := hhigh i (le_refl i) (by omega)
    rw [scan_width]
    simp only [hci, if_neg (not_lt.2 hpi)]
    have hidx : i + (d + 1) = (i + 1) + d := by omega
    rw [hidx] at hc ⊢
    exact ih m (i + 1) c (by omega) hc hlow
      (fun j hj1 hj2 => hhigh j (by omega) (by omega))

/-- The second loop of `recurse_beam_search` at a terminal frame records one result per
candidate it visits, in rank order, and evaluates nothing. -/
theorem expand_candidates_leaf (api : LlamaApi Ctx)
    (self : World Ctx → Int → ℚ → Int → String → Except Fault (World Ctx))
    (candidates_p : List llama_token_data) (beam_width : Int) (prob_sum : ℚ)
    (current_depth max_depth : Int) (text : String)
    (hleaf : current_depth = max_depth ∨ beam_width = 1) :
    ∀ (n i : Nat) (w : World Ctx) (n_past : Int), i + n ≤ candidates_p.length →
      expand_candidates api self candidates_p beam_width prob_sum current_depth max_depth text
        n i w n_past =
      .ok ({ w with beam_results := w.beam_results ++
          ((candidates_p.drop i).take n).map (fun c =>
            (⟨text ++ api.llama_token_to_str w.ctx c.id, prob_sum + c.p, current_depth⟩ :
              beam_result)) }, n_past) := by
  intro n
  induction n with
  | zero => intro i w n_past _; simp [expand_candidates]
  | succ n ih =>
    intro i w n_past hlen
    have hi : i < candidates_p.length := by omega
    rw [expand_candidates]
    simp only [List.getElem?_eq_getElem hi, if_pos hleaf]
    rw [ih (i + 1) _ n_past (by omega)]
    rw [List.drop_eq_getElem_cons hi]
    simp only [List.take_succ_cons, List.map_cons, List.append_assoc, List.singleton_append]

/-- Popping a world whose stack top is `e` and whose newest live buffer is that of `e`:
the stack and the live buffers lose exactly that entry, the log is untouched. -/
theorem pop_of_top_stack (api : LlamaApi Ctx) (w3 : World Ctx)
    (K : List state_stack_entry) (e : state_stack_entry) (buf : List Nat)
    (cells : List (Nat × List Nat))
    (hstack : w3.llama_state_stack = K ++ [e])
    (hcells : w3.heap.cells = (e.state_mem, buf) :: cells) :
    ∃ w4, llama_pop_state api w3 = .ok (w4, e.n_past) ∧
      w4.llama_state_stack = K ∧ w4.heap.cells = cells ∧ w4.evals = w3.evals ∧
      w4.beam_results = w3.beam_results := by
  have hread : w3.heap.read e.state_mem = some buf := by
    simp [Heap.read, hcells]
  refine ⟨_, pop_eq api w3 K e _ hstack hread, ?_⟩
  simp [Heap.free, hcells]

/-- The `llama_eval` calls of the second loop of `recurse_beam_search`: the loop leaves
the stack, the live buffers and `n_past` as they were; every call it adds to the log is
at position `n_past` or deeper; and at a frame that recurses, the calls at position
`n_past` are one per visited candidate, in rank order. -/
theorem expand_candidates_evals (api : LlamaApi Ctx)
    (self : World Ctx → Int → ℚ → Int → String → Except Fault (World Ctx))
    (hself : ∀ w a b c d w1, self w a b c d = .ok w1 →
      w1.llama_state_stack = w.llama_state_stack ∧ w1.heap.cells = w.heap.cells ∧
      ∃ added, w1.evals = w.evals ++ added ∧ ∀ x ∈ added, a ≤ x.2.1)
    (candidates_p : List llama_token_data) (beam_width : Int) (prob_sum : ℚ)
    (current_depth max_depth : Int) (text : String) :
    ∀ (n i : Nat) (w : World Ctx) (n_past : Int) (w1 : World Ctx) (n_past1 : Int),
      expand_candidates api self candidates_p beam_width prob_sum current_depth max_depth text
        n i w n_past = .ok (w1, n_past1) →
      w1.llama_state_stack = w.llama_state_stack ∧ w1.heap.cells = w.heap.cells ∧
      n_past1 = n_past ∧
      ∃ added, w1.evals = w.evals ++ added ∧ (∀ x ∈ added, n_past ≤ x.2.1) ∧
        (¬ (current_depth = max_depth ∨ beam_width = 1) →
          (added.filter (fun x => decide (x.2.1 = n_past))).map (fun x => x.1)
            = ((candidates_p.drop i).take n).map (fun c => [c.id])) := by
  intro n
  induction n with
  | zero =>
    intro i w n_past w1 n_past1 h
    simp only [expand_candidates, Except.ok.injEq, Prod.mk.injEq] at h
    obtain ⟨rfl, rfl⟩ := h
    exact ⟨rfl, rfl, rfl, [], by simp, by simp, by simp⟩
  | succ n ih =>
    intro i w n_past w1 n_past1 h
    rw [expand_candidates] at h
    cases hc : candidates_p[i]? with
    | none => simp [hc] at h
    | some c =>
      obtain ⟨hi, hci⟩ := List.getElem?_eq_some.1 hc
      have htake : (candidates_p.drop i).take (n + 1)
          = c :: (candidates_p.drop (i + 1)).take n := by
        rw [List.drop_eq_getElem_cons hi, List.take_succ_cons, hci]
      simp only [hc] at h
      by_cases hleaf : current_depth = max_depth ∨ beam_width = 1
      · rw [if_pos hleaf] at h
        obtain ⟨hs1, hh1, hn, added, hev, hpos, -⟩ := ih _ _ _ _ _ h
        exact ⟨hs1, hh1, hn, added, hev, hpos, fun hnl => absurd hleaf hnl⟩
      · rw [if_neg hleaf] at h
        generalize hw2 : eval_token api (llama_push_state api w n_past) c.id n_past 1 = w2 at h
        cases hs : self w2 (n_past + 1) (prob_sum + c.p) (current_depth + 1)
            (text ++ api.llama_token_to_str w.ctx c.id) with
        | error e => simp [hs] at h
        | ok w3 =>
          simp only [hs] at h
          obtain ⟨hst, hcells, nested, hev3, hnested⟩ := hself _ _ _ _ _ _ hs
          have hst3 : w3.llama_state_stack = w.llama_state_stack ++
              [⟨w.heap.next, api.llama_get_state_size w.ctx, n_past, "", 0, 0⟩] := by
            rw [hst, ← hw2]; rfl
          have hcells3 : w3.heap.cells =
              (w.heap.next, api.llama_copy_state_data w.ctx) :: w.heap.cells := by
            rw [hcells, ← hw2]; rfl
          have hev2 : w2.evals = w.evals ++
              [([c.id], n_past, (api.llama_eval w.ctx [c.id] n_past 1).2)] := by
            rw [← hw2]; rfl
          obtain ⟨w4, hpop, h4s, h4h, h4e, -⟩ :=
            pop_of_top_stack api w3 w.llama_state_stack _ _ w.heap.cells hst3 hcells3
          simp only [hpop] at h
          obtain ⟨hs1, hh1, hn, added, hev, hpos, hfil⟩ := ih _ _ _ _ _ h
          refine ⟨hs1.trans h4s, hh1.trans h4h, hn,
            ([c.id], n_past, (api.llama_eval w.ctx [c.id] n_past 1).2) :: (nested ++ added),
            ?_, ?_, ?_⟩
          · rw [hev, h4e, hev3, hev2]; simp
          · intro x hx
            rcases List.mem_cons.1 hx with rfl | hx
            · exact le_refl _
            · rcases List.mem_append.1 hx with hx | hx
              · have := hnested x hx
                omega
              · exact hpos x hx
          · intro hnl
            have hnone : nested.filter (fun x => decide (x.2.1 = n_past)) = [] := by
              rw [List.filter_eq_nil_iff]
              intro x hx
              have := hnested x hx
              simp only [decide_eq_true_eq]
              omega
            rw [htake, List.filter_cons_of_pos (by simp), List.filter_append, hnone,
              List.nil_append, List.map_cons, List.map_cons, hfil hnl]

/-- Every returning call of `recurse_beam_search` leaves the stack and the live buffers
as they were and logs `llama_eval` calls at position `n_past` or deeper only. -/
theorem recurse_beam_search_evals (api : LlamaApi Ctx) :
    ∀ (fuel : Nat) (w : World Ctx) (n_past beam_width : Int) (prob_sum : ℚ)
      (current_depth max_depth : Int) (text : String) (w1 : World Ctx),
      recurse_beam_search api fuel w n_past beam_width prob_sum current_depth max_depth text
        = .ok w1 →
      w1.llama_state_stack = w.llama_state_stack ∧ w1.heap.cells = w.heap.cells ∧
      ∃ added, w1.evals = w.evals ++ added ∧ ∀ x ∈ added, n_past ≤ x.2.1 := by
  intro fuel
  induction fuel with
  | zero => intro w n_past beam_width prob_sum current_depth max_depth text w1 h
            simp [recurse_beam_search] at h
  | succ fuel ih =>
    intro w n_past beam_width prob_sum current_depth max_depth text w1 h
    rw [recurse_beam_search] at h
    cases hsc : scan_width (ranked_candidates api w.ctx) beam_width.toNat 0 with
    | error e => simp [hsc] at h
    | ok max_width =>
      simp only [hsc] at h
      split at h
      · simp at h
      · rename_i w2 np2 hex
        simp only [Except.ok.injEq] at h
        subst h
        obtain ⟨hs, hh, -, added, hev, hpos, -⟩ := expand_candidates_evals api _
          (fun w a b c d w1 hh => ih w a beam_width b c max_depth d w1 hh)
          _ _ _ _ _ _ _ _ _ _ _ _ hex
        exact ⟨hs, hh, added, hev, hpos⟩

/-- The first loop of `recurse_beam_search` when all `n` candidates it visits reach the
cutoff 0.1: it ends without a `break` and `max_width` keeps its initial value 2. -/
theorem scan_width_through (candidates_p : List llama_token_data) :
    ∀ (n i : Nat),
      (∀ j, i ≤ j → j < i + n → ∃ cj, candidates_p[j]? = some cj ∧ 1 / 10 ≤ cj.p) →
      scan_width candidates_p n i = .ok 2 := by
  intro n
  induction n with
  | zero => intro i _; rfl
  | succ n ih =>
    intro i hhigh
    obtain ⟨ci, hci, hpi⟩ := hhigh i (le_refl i) (by omega)
    rw [scan_width]
    simp only [hci, if_neg (not_lt.2 hpi)]
    exact ih (i + 1) (fun j hj1 hj2 => hhigh j (by omega) (by omega))

/-- A list whose first `k` entries satisfy `p` and whose other entries do not: filtering
by `p` keeps exactly the first `k` entries. -/
theorem filter_eq_take {α : Type} (p : α → Bool) :
    ∀ (k : Nat) (l : List α), (∀ j, j < k → ∃ x, l[j]? = some x ∧ p x = true) →
      (∀ x ∈ l.drop k, p x = false) → l.filter p = l.take k := by
  intro k
  induction k with
  | zero =>
    intro l _ hrest
    rw [List.take_zero, List.filter_eq_nil_iff]
    intro x hx
    rw [hrest x (by simpa using hx)]
    simp
  | succ k ih =>
    intro l hfirst hrest
    cases l with
    | nil =>
      obtain ⟨x, hx, -⟩ := hfirst 0 (by omega)
      simp at hx
    | cons a t =>
      obtain ⟨x, hx, hpx⟩ := hfirst 0 (by omega)
      simp only [List.getElem?_cons_zero, Option.some.injEq] at hx
      subst hx
      rw [List.filter_cons_of_pos hpx, List.take_succ_cons]
      congr 1
      refine ih t ?_ (by simpa using hrest)
      intro j hj
      obtain ⟨y, hy, hpy⟩ := hfirst (j + 1) (by omega)
      exact ⟨y, by simpa using hy, hpy⟩

/-- In a ranking sorted by descending probability whose first `k` of the top `n`
candidates reach the cutoff 0.1 and whose next one, if there is one among the top `n`,
does not, the candidates among the top `n` that reach the cutoff are the first `k`. -/
theorem qualifying_prefix (candidates_p : List llama_token_data)
    (hsorted : candidates_p.Pairwise (fun a b => b.p ≤ a.p)) (n k : Nat) (hk : k ≤ n)
    (hhigh : ∀ j, j < k → ∃ cj, candidates_p[j]? = some cj ∧ 1 / 10 ≤ cj.p)
    (hstop : k < n → ∃ c, candidates_p[k]? = some c ∧ c.p < 1 / 10) :
    (candidates_p.take n).filter (fun c => decide (1 / 10 ≤ c.p)) = candidates_p.take k := by
  have htake : (candidates_p.take n).take k = candidates_p.take k := by
    rw [List.take_take, Nat.min_eq_left hk]
  rw [← htake]
  apply filter_eq_take
  · intro j hj
    obtain ⟨cj, hcj, hp⟩ := hhigh j hj
    refine ⟨cj, ?_, by simpa using hp⟩
    rw [List.getElem?_take_of_lt (by omega)]
    exact hcj
  · intro x hx
    rw [List.drop_take] at hx
    by_cases hlt : k < n
    · obtain ⟨c, hc, hlow⟩ := hstop hlt
      have hx1 : x ∈ candidates_p.drop k := List.mem_of_mem_take hx
      obtain ⟨hlen, hget⟩ := List.getElem?_eq_some_iff.1 hc
      rw [List.drop_eq_getElem_cons hlen, hget] at hx1
      have hpw : (candidates_p.drop k).Pairwise (fun a b => b.p ≤ a.p) :=
        hsorted.sublist (List.drop_sublist k candidates_p)
      rw [List.drop_eq_getElem_cons hlen, hget, List.pairwise_cons] at hpw
      have hxp : x.p < 1 / 10 := by
        rcases List.mem_cons.1 hx1 with rfl | hx2
        · exact hlow
        · exact lt_of_le_of_lt (hpw.1 x hx2) hlow
      simpa using hxp
    · have : n - k = 0 := by omega
      rw [this, List.take_zero] at hx
      simp at hx

/-- C10, counterexample. Ranking 0.9, 0.05, 0.03, 0.02 at a terminal frame: with
`beam_width = 3` the frame records the two top candidates, although only the first has
probability at least 0.1; with `beam_width = 1` it records two candidates as well, more
than `beam_width`. -/
theorem selection_widens_below_cutoff :
    recurse_beam_search peaked_api 1 (empty_world []) 5 3 0 0 0 ""
      = .ok ⟨[], ⟨0, []⟩, [], [], [⟨"a", 9 / 10, 0⟩, ⟨"b", 5 / 100, 0⟩], [], 0⟩ ∧
    ((ranked_candidates peaked_api []).take 3).filter (fun c => decide (1 / 10 ≤ c.p))
      = [⟨0, 0, 9 / 10⟩] ∧
    recurse_beam_search peaked_api 1 (empty_world []) 5 1 0 0 0 ""
      = .ok ⟨[], ⟨0, []⟩, [], [], [⟨"a", 9 / 10, 0⟩, ⟨"b", 5 / 100, 0⟩], [], 0⟩ :=
  ⟨by decide!, by decide!, by decide!⟩

/-- C10, what the amended claim leaves out. Ranking 0.4, 0.3, 0.2, 0.1 with
`beam_width = 3`: the first loop ends without a `break`, `max_width` keeps its initial
value 2, and only two of the three top candidates are expanded although all three
reach 0.1. -/
theorem selection_stays_at_two :
    recurse_beam_search flat_api 1 (empty_world []) 5 3 0 0 0 ""
      = .ok ⟨[], ⟨0, []⟩, [], [], [⟨"a", 4 / 10, 0⟩, ⟨"b", 3 / 10, 0⟩], [], 0⟩ ∧
    (((ranked_candidates flat_api []).take 3).filter (fun c => decide (1 / 10 ≤ c.p))).length
      = 3 :=
  ⟨by decide!, by decide!⟩

/-- C10, amended. Depth-first candidate selection at a frame of which `k` is the number
of leading candidates that reach 0.1 among the top `beam_width` of the ranking (the
next one, if it is among the top `beam_width`, is below 0.1), and where either one of
the top `beam_width` candidates is below 0.1 or `beam_width ≤ 2`. The second loop runs
over exactly the top `max k 2` ranked candidates, never more than `max beam_width 2`.
In a ranking sorted by descending probability the top `k` are exactly the candidates
that reach 0.1 among the top `beam_width`. At a terminal frame
(`current_depth = max_depth` or `beam_width = 1`) with that many candidates the call
returns, having recorded one result for each of them, in rank order. At a frame that
recurses, the `llama_eval` calls made at the frame's own position `n_past` are one for
each of them, in rank order. -/
theorem candidate_selection (api : LlamaApi Ctx) (fuel : Nat) (w : World Ctx)
    (n_past beam_width : Int) (prob_sum : ℚ) (current_depth max_depth : Int) (text : String)
    (k : Nat)
    (hk : k ≤ beam_width.toNat)
    (hhigh : ∀ j, j < k → ∃ cj, (ranked_candidates api w.ctx)[j]? = some cj ∧ 1 / 10 ≤ cj.p)
    (hstop : k < beam_width.toNat →
      ∃ c, (ranked_candidates api w.ctx)[k]? = some c ∧ c.p < 1 / 10)
    (hfull : k = beam_width.toNat → beam_width ≤ 2) :
    scan_width (ranked_candidates api w.ctx) beam_width.toNat 0 = .ok (max k 2) ∧
    max k 2 ≤ max beam_width.toNat 2 ∧
    (api.RankedDescending →
      ((ranked_candidates api w.ctx).take beam_width.toNat).filter
          (fun c => decide (1 / 10 ≤ c.p))
        = (ranked_candidates api w.ctx).take k) ∧
    ((current_depth = max_depth ∨ beam_width = 1) →
      max k 2 ≤ (ranked_candidates api w.ctx).length →
      recurse_beam_search api (fuel + 1) w n_past beam_width prob_sum current_depth
        max_depth text =
      .ok { w with beam_results := w.beam_results ++
        ((ranked_candidates api w.ctx).take (max k 2)).map (fun c =>
          (⟨text ++ api.llama_token_to_str w.ctx c.id, prob_sum + c.p, current_depth⟩ :
            beam_result)) }) ∧
    (¬ (current_depth = max_depth ∨ beam_width = 1) → ∀ w1,
      recurse_beam_search api (fuel + 1) w n_past beam_width prob_sum current_depth
        max_depth text = .ok w1 →
      ∃ added, w1.evals = w.evals ++ added ∧
        (added.filter (fun x => decide (x.2.1 = n_past))).map (fun x => x.1)
          = ((ranked_candidates api w.ctx).take (max k 2)).map (fun c => [c.id])) := by
  have hscan : scan_width (ranked_candidates api w.ctx) beam_width.toNat 0
      = .ok (max k 2) := by
    by_cases hlt : k < beam_width.toNat
    · obtain ⟨c, hck, hlow⟩ := hstop hlt
      have h := scan_width_stop (ranked_candidates api w.ctx) k beam_width.toNat 0 c hlt
        (by rw [Nat.zero_add]; exact hck) hlow
        (fun j _ hj => hhigh j (by omega))
      rw [Nat.zero_add] at h
      exact h
    · have hkn : k = beam_width.toNat := by omega
      have h2 : beam_width ≤ 2 := hfull hkn
      have hk2 : k ≤ 2 := by omega
      rw [max_eq_right hk2]
      exact scan_width_through (ranked_candidates api w.ctx) beam_width.toNat 0
        (fun j _ hj => hhigh j (by omega))
  refine ⟨hscan, by omega, ?_, ?_, ?_⟩
  · intro hsorted
    exact qualifying_prefix _ (hsorted w.ctx) beam_width.toNat k hk hhigh hstop
  · intro hleaf hlen
    rw [recurse_beam_search]
    simp only [hscan]
    rw [expand_candidates_leaf api _ _ _ _ _ _ _ hleaf (max k 2) 0 w n_past (by omega)]
    simp only [List.drop_zero]
  · intro hnl w1 h
    rw [recurse_beam_search] at h
    simp only [hscan] at h
    split at h
    · simp at h
    · rename_i w2 np2 hex
      simp only [Except.ok.injEq] at h
      subst h
      obtain ⟨-, -, -, added, hev, -, hfil⟩ := expand_candidates_evals api _
        (fun w a b c d w1 hh =>
          recurse_beam_search_evals api fuel w a beam_width b c max_depth d w1 hh)
        _ _ _ _ _ _ _ _ _ _ _ _ hex
      refine ⟨added, hev, ?_⟩
      rw [hfil hnl, List.drop_zero]

theorem peaked_top_candidate : ∀ j, j < 1 →
    ∃ cj, (ranked_candidates peaked_api peaked_start.ctx)[j]? = some cj ∧ 1 / 10 ≤ cj.p := by
  intro j hj
  obtain rfl : j = 0 := by omega
  exact ⟨⟨0, 0, 9 / 10⟩, by decide!, by norm_num⟩

theorem peaked_second_candidate : 1 < (3 : Int).toNat →
    ∃ c, (ranked_candidates peaked_api peaked_start.ctx)[1]? = some c ∧ c.p < 1 / 10 :=
  fun _ => ⟨⟨1, -1, 5 / 100⟩, by decide!, by norm_num⟩

/-- Witness of C10: ranking 0.9, 0.05, 0.03, 0.02 with `beam_width = 3`; one leading
candidate reaches 0.1 and the candidate at rank index 1 is below it. -/
theorem candidate_selection_witness :
    (1 ≤ (3 : Int).toNat) ∧
    (∀ j, j < 1 → ∃ cj, (ranked_candidates peaked_api peaked_start.ctx)[j]?
      = some cj ∧ 1 / 10 ≤ cj.p) ∧
    (1 < (3 : Int).toNat →
      ∃ c, (ranked_candidates peaked_api peaked_start.ctx)[1]? = some c ∧ c.p < 1 / 10) ∧
    (1 = (3 : Int).toNat → (3 : Int) ≤ 2) ∧
    (scan_width (ranked_candidates peaked_api peaked_start.ctx)
        (3 : Int).toNat 0 = .ok (max 1 2) ∧
    max 1 2 ≤ max (3 : Int).toNat 2 ∧
    (peaked_api.RankedDescending →
      ((ranked_candidates peaked_api peaked_start.ctx).take (3 : Int).toNat).filter
          (fun c => decide (1 / 10 ≤ c.p))
        = (ranked_candidates peaked_api peaked_start.ctx).take 1) ∧
    (((0 : Int) = 1 ∨ (3 : Int) = 1) →
      max 1 2 ≤ (ranked_candidates peaked_api peaked_start.ctx).length →
      recurse_beam_search peaked_api (1 + 1) peaked_start 5 3 0 0 1 "" =
      .ok { peaked_start with
            beam_results := peaked_start.beam_results ++
              ((ranked_candidates peaked_api peaked_start.ctx).take (max 1 2)).map (fun c =>
                (⟨"" ++ peaked_api.llama_token_to_str peaked_start.ctx c.id, 0 + c.p, 0⟩ :
                  beam_result)) }) ∧
    (¬ ((0 : Int) = 1 ∨ (3 : Int) = 1) → ∀ w1,
      recurse_beam_search peaked_api (1 + 1) peaked_start 5 3 0 0 1 "" = .ok w1 →
      ∃ added, w1.evals = peaked_start.evals ++ added ∧
        (added.filter (fun x => decide (x.2.1 = 5))).map (fun x => x.1)
          = ((ranked_candidates peaked_api peaked_start.ctx).take
              (max 1 2)).map (fun c => [c.id]))) :=
  ⟨by decide, peaked_top_candidate, peaked_second_candidate, by decide,
   candidate_selection peaked_api 1 peaked_start 5 3 0 0 1 "" 1
     (by decide) peaked_top_candidate peaked_second_candidate (by decide)⟩

end InteractiveBeam

namespace InteractiveBeam

variable {Ctx : Type}

/-- `llama_queue_trim` never touches the heap: no buffer is released by a trim. -/
theorem queue_trim_heap (w : World Ctx) (max_width : Int) :
    (llama_queue_trim w max_width).heap = w.heap := by
  unfold llama_queue_trim; split <;> rfl

/-- C12, the code at the failing input. A queue of two frames (buffers 0 and 1, the
second with the higher `prob_sum`) trimmed to width 1 keeps only the second frame; the
buffer 0 of the dropped frame is still live afterwards, and no entry of the queue or of
the stack refers to it any more. -/
theorem trim_leaks_dropped_snapshot :
    trim_sample_world.llama_state_queue
      = [⟨0, 1, 5, "b", 2, 3 / 10⟩, ⟨1, 1, 5, "a", 2, 6 / 10⟩] ∧
    (llama_queue_trim trim_sample_world 1).llama_state_queue = [⟨1, 1, 5, "a", 2, 6 / 10⟩] ∧
    (llama_queue_trim trim_sample_world 1).heap.read 0 = some [7] ∧
    (∀ e ∈ (llama_queue_trim trim_sample_world 1).llama_state_queue ++
        (llama_queue_trim trim_sample_world 1).llama_state_stack, e.state_mem ≠ 0) := by
  decide!

end InteractiveBeam

namespace InteractiveBeam

variable {Ctx : Type}

/-- C13, counterexample. On a model whose every step reports failure, the first pass of
the breadth-first search still enqueues a frame for each of the two candidates that
reach the threshold: both logged `llama_eval` calls returned 1, and the queue holds two
frames at depth 2. -/
theorem frames_enqueued_after_failed_eval :
    iterate_frame failing_api 2 2 (1 / 10) (iterate_init failing_api (empty_world []) 5 "")
      = .ok failing_first_frame ∧
    (∀ x ∈ failing_first_frame.w.evals, x.2.2 ≠ 0) ∧
    failing_first_frame.w.llama_state_queue
      = [⟨2, 0, 6, "a", 2, 6 / 10⟩, ⟨4, 0, 6, "b", 2, 3 / 10⟩] := by
  decide!

theorem same_but_log_refl (w : World Ctx) : SameButLog w w :=
  ⟨rfl, rfl, rfl, rfl, rfl, rfl⟩

theorem forget_log_eq (w w1 : World Ctx) (h : SameButLog w w1) :
    forget_log w = forget_log w1 := by
  obtain ⟨h1, h2, h3, h4, h5, h6⟩ := h
  cases w
  cases w1
  simp only [forget_log] at *
  simp [h1, h2, h3, h4, h5, h6]

/-- The candidate loop of one frame does not depend on the return codes of `llama_eval`
nor on the log: it faults alike or yields worlds that differ at most in the log. -/
theorem iterate_candidates_code (api : LlamaApi Ctx)
    (code : Ctx → List llama_token → Int → Int → Int)
    (candidates_p : List llama_token_data)
    (max_depth : Int) (p_threshold : ℚ) (text : String) (depth : Int) (prob_sum : ℚ) :
    ∀ (n i : Nat) (w w' : World Ctx) (n_past : Int) (is_leaf : Bool), SameButLog w w' →
      (∃ e, iterate_candidates (with_return_code api code) candidates_p max_depth p_threshold
            text depth prob_sum n i w n_past is_leaf = .error e ∧
          iterate_candidates api candidates_p max_depth p_threshold text depth prob_sum n i
            w' n_past is_leaf = .error e) ∨
      (∃ w1 w1' x, iterate_candidates (with_return_code api code) candidates_p max_depth
            p_threshold text depth prob_sum n i w n_past is_leaf = .ok (w1, x) ∧
          iterate_candidates api candidates_p max_depth p_threshold text depth prob_sum n i
            w' n_past is_leaf = .ok (w1', x) ∧ SameButLog w1 w1') := by
  intro n
  induction n with
  | zero =>
    intro i w w' n_past is_leaf h
    exact Or.inr ⟨w, w', (n_past, is_leaf), rfl, rfl, h⟩
  | succ n ih =>
    intro i w w' n_past is_leaf h
    cases hc : candidates_p[i]? with
    | none =>
      refine Or.inl ⟨.out_of_bounds, ?_, ?_⟩
      · rw [iterate_candidates]; simp only [hc]
      · rw [iterate_candidates]; simp only [hc]
    | some c =>
      rw [iterate_candidates_succ (with_return_code api code) _ _ _ _ _ _ _ _ _ _ _ c hc,
        iterate_candidates_succ api _ _ _ _ _ _ _ _ _ _ _ c hc]
      obtain ⟨h1, h2, h3, h4, h5, h6⟩ := h
      by_cases hlow : c.p < p_threshold
      · simp only [if_pos hlow]
        exact Or.inr ⟨w, w', (n_past, is_leaf), rfl, rfl, h1, h2, h3, h4, h5, h6⟩
      · simp only [if_neg hlow]
        by_cases hd : depth = max_depth
        · simp only [if_pos hd]
          apply ih
          refine ⟨h1, h2, h3, h4, ?_, h6⟩
          simp only [h5, h1]
          rfl
        · simp only [if_neg hd]
          apply ih
          refine ⟨?_, ?_, ?_, ?_, ?_, ?_⟩ <;>
            simp [enqueue_child, with_return_code, h1, h2, h3, h4, h5, h6]

theorem queue_trim_code (w w' : World Ctx) (max_width : Int) (h : SameButLog w w') :
    SameButLog (llama_queue_trim w max_width) (llama_queue_trim w' max_width) := by
  obtain ⟨h1, h2, h3, h4, h5, h6⟩ := h
  unfold llama_queue_trim
  rw [h4]
  split
  · exact ⟨h1, h2, h3, by simp [h4], h5, h6⟩
  · exact ⟨h1, h2, h3, h4, h5, h6⟩

theorem dequeue_code (api : LlamaApi Ctx)
    (code : Ctx → List llama_token → Int → Int → Int) (w w' : World Ctx)
    (h : SameButLog w w') :
    (∃ e, llama_dequeue_state (with_return_code api code) w = .error e ∧
        llama_dequeue_state api w' = .error e) ∨
    (∃ w1 w1' x, llama_dequeue_state (with_return_code api code) w = .ok (w1, x) ∧
        llama_dequeue_state api w' = .ok (w1', x) ∧ SameButLog w1 w1') := by
  obtain ⟨h1, h2, h3, h4, h5, h6⟩ := h
  unfold llama_dequeue_state
  rw [h4, h2]
  cases hq : w'.llama_state_queue with
  | nil => exact Or.inl ⟨.empty_container, rfl, rfl⟩
  | cons e rest =>
    simp only
    cases hr : w'.heap.read e.state_mem with
    | none => exact Or.inl ⟨.dangling_buffer, rfl, rfl⟩
    | some buf =>
      simp only
      refine Or.inr ⟨_, _, _, rfl, rfl, ?_⟩
      refine ⟨?_, ?_, ?_, ?_, ?_, ?_⟩ <;> simp [with_return_code, h1, h2, h3, h5, h6]

theorem iterate_frame_code (api : LlamaApi Ctx)
    (code : Ctx → List llama_token → Int → Int → Int) (beam_width max_depth : Int)
    (p_threshold : ℚ) (s s' : IterState Ctx) (h : SameState s s') :
    (∃ e, iterate_frame (with_return_code api code) beam_width max_depth p_threshold s
          = .error e ∧
        iterate_frame api beam_width max_depth p_threshold s' = .error e) ∨
    (∃ s1 s1', iterate_frame (with_return_code api code) beam_width max_depth p_threshold s
          = .ok s1 ∧
        iterate_frame api beam_width max_depth p_threshold s' = .ok s1' ∧
        SameState s1 s1') := by
  obtain ⟨hw, -, -, hdepth, -⟩ := h
  have htrim : SameButLog (iterate_trim beam_width s) (iterate_trim beam_width s') := by
    unfold iterate_trim
    rw [hdepth]
    split
    · exact queue_trim_code _ _ _ hw
    · exact hw
  unfold iterate_frame
  rcases dequeue_code api code _ _ htrim with ⟨e, he1, he2⟩ | ⟨w1, w1', x, hx1, hx2, hsame⟩
  · exact Or.inl ⟨e, by simp only [he1], by simp only [he2]⟩
  · obtain ⟨n_past, text, depth, prob_sum⟩ := x
    simp only [hx1, hx2]
    have hctx : w1.ctx = w1'.ctx := hsame.1
    have hrank : ranked_candidates (with_return_code api code) w1.ctx
        = ranked_candidates api w1'.ctx := by rw [hctx]; rfl
    rw [hrank]
    rcases iterate_candidates_code api code (ranked_candidates api w1'.ctx) max_depth
        p_threshold text depth prob_sum beam_width.toNat 0 w1 w1' n_past true hsame with
      ⟨e, he1, he2⟩ | ⟨w2, w2', y, hy1, hy2, hsame2⟩
    · exact Or.inl ⟨e, by simp only [he1], by simp only [he2]⟩
    · obtain ⟨n_past1, is_leaf⟩ := y
      simp only [hy1, hy2]
      refine Or.inr ⟨_, _, rfl, rfl, ?_, rfl, rfl, rfl, rfl⟩
      obtain ⟨h1, h2, h3, h4, h5, h6⟩ := hsame2
      cases is_leaf
      · exact ⟨h1, h2, h3, h4, h5, h6⟩
      · exact ⟨h1, h2, h3, h4, by simp [h5], h6⟩

theorem iterate_loop_code (api : LlamaApi Ctx)
    (code : Ctx → List llama_token → Int → Int → Int) (beam_width max_depth : Int)
    (p_threshold : ℚ) :
    ∀ (fuel : Nat) (s s' : IterState Ctx), SameState s s' →
      (∃ e, iterate_loop (with_return_code api code) beam_width max_depth p_threshold fuel s
            = .error e ∧
          iterate_loop api beam_width max_depth p_threshold fuel s' = .error e) ∨
      (∃ s1 s1', iterate_loop (with_return_code api code) beam_width max_depth p_threshold
            fuel s = .ok s1 ∧
          iterate_loop api beam_width max_depth p_threshold fuel s' = .ok s1' ∧
          SameState s1 s1') := by
  intro fuel
  induction fuel with
  | zero =>
    intro s s' h
    by_cases hq : s.w.llama_state_queue = []
    · have hq' : s'.w.llama_state_queue = [] := by rw [← h.1.2.2.2.1]; exact hq
      exact Or.inr ⟨s, s', iterate_loop_done _ _ _ _ _ s hq,
        iterate_loop_done _ _ _ _ _ s' hq', h⟩
    · have hq' : s'.w.llama_state_queue ≠ [] := by rw [← h.1.2.2.2.1]; exact hq
      refine Or.inl ⟨.out_of_fuel, ?_, ?_⟩
      · rw [iterate_loop, if_neg hq]
      · rw [iterate_loop, if_neg hq']
  | succ fuel ih =>
    intro s s' h
    by_cases hq : s.w.llama_state_queue = []
    · have hq' : s'.w.llama_state_queue = [] := by rw [← h.1.2.2.2.1]; exact hq
      exact Or.inr ⟨s, s', iterate_loop_done _ _ _ _ _ s hq,
        iterate_loop_done _ _ _ _ _ s' hq', h⟩
    · have hq' : s'.w.llama_state_queue ≠ [] := by rw [← h.1.2.2.2.1]; exact hq
      rcases iterate_frame_code api code beam_width max_depth p_threshold s s' h with
        ⟨e, he1, he2⟩ | ⟨s1, s1', hs1, hs2, hsame⟩
      · refine Or.inl ⟨e, ?_, ?_⟩
        · rw [iterate_loop, if_neg hq]; simp only [he1]
        · rw [iterate_loop, if_neg hq']; simp only [he2]
      · rw [iterate_loop_step _ _ _ _ _ s s1 hq hs1, iterate_loop_step _ _ _ _ _ s' s1' hq' hs2]
        exact ih s1 s1' hsame

/-- The breadth-first search does not depend on the return codes of `llama_eval`: with
any return codes in place of the model's it faults alike or returns a world that
differs at most in the log of the calls. -/
theorem iterate_beam_search_code (api : LlamaApi Ctx)
    (code : Ctx → List llama_token → Int → Int → Int) (fuel : Nat) (w : World Ctx)
    (n_past beam_width max_depth : Int) (text : String) (p_threshold : ℚ) :
    (iterate_beam_search (with_return_code api code) fuel w n_past beam_width max_depth text
      p_threshold).map forget_log =
    (iterate_beam_search api fuel w n_past beam_width max_depth text p_threshold).map
      forget_log := by
  have hinit : SameState (iterate_init (with_return_code api code) w n_past text)
      (iterate_init api w n_past text) :=
    ⟨same_but_log_refl _, rfl, rfl, rfl, rfl⟩
  unfold iterate_beam_search
  rcases iterate_loop_code api code beam_width max_depth p_threshold fuel _ _ hinit with
    ⟨e, he1, he2⟩ | ⟨s1, s1', hs1, hs2, hsame⟩
  · simp only [he1, he2]
  · simp only [hs1, hs2, Except.map]
    rw [forget_log_eq _ _ hsame.1]

/-- A returning breadth-first search leaves the queue empty. -/
theorem iterate_loop_drains (api : LlamaApi Ctx) (beam_width max_depth : Int)
    (p_threshold : ℚ) :
    ∀ (fuel : Nat) (s s1 : IterState Ctx),
      iterate_loop api beam_width max_depth p_threshold fuel s = .ok s1 →
      s1.w.llama_state_queue = [] := by
  intro fuel
  induction fuel with
  | zero =>
    intro s s1 h
    by_cases hq : s.w.llama_state_queue = []
    · rw [iterate_loop_done _ _ _ _ _ s hq] at h
      simp only [Except.ok.injEq] at h
      rw [← h]; exact hq
    · rw [iterate_loop, if_neg hq] at h
      simp at h
  | succ fuel ih =>
    intro s s1 h
    by_cases hq : s.w.llama_state_queue = []
    · rw [iterate_loop_done _ _ _ _ _ s hq] at h
      simp only [Except.ok.injEq] at h
      rw [← h]; exact hq
    · rw [iterate_loop, if_neg hq] at h
      cases hf : iterate_frame api beam_width max_depth p_threshold s with
      | error e => simp [hf] at h
      | ok s2 =>
        simp only [hf] at h
        exact ih s2 s1 h

/-- C13, amended. `iterate_beam_search` never inspects the return code of `llama_eval`.
Whatever codes the model steps return: the search faults or returns as it does when
every step returns the model's own code, with the same world apart from the log of the
calls; for a candidate that reaches the threshold at a frame above the maximal depth a
frame is appended behind the frames already queued, holding a capture of the state the
step left, the next position, the extended text and the raised `prob_sum`, and the loop
goes on with the next candidate; and a search that returns has emptied the queue. -/
theorem eval_return_code_ignored (api : LlamaApi Ctx)
    (code : Ctx → List llama_token → Int → Int → Int) :
    (∀ (fuel : Nat) (w : World Ctx) (n_past beam_width max_depth : Int) (text : String)
      (p_threshold : ℚ),
      (iterate_beam_search (with_return_code api code) fuel w n_past beam_width max_depth
        text p_threshold).map forget_log =
      (iterate_beam_search api fuel w n_past beam_width max_depth text p_threshold).map
        forget_log) ∧
    (∀ (candidates_p : List llama_token_data) (max_depth : Int) (p_threshold : ℚ)
      (text : String) (depth : Int) (prob_sum : ℚ) (n i : Nat) (w : World Ctx)
      (n_past : Int) (is_leaf : Bool) (c : llama_token_data),
      candidates_p[i]? = some c → p_threshold ≤ c.p → depth ≠ max_depth →
      ∃ w1 state_mem,
        iterate_candidates (with_return_code api code) candidates_p max_depth p_threshold
          text depth prob_sum (n + 1) i w n_past is_leaf =
        iterate_candidates (with_return_code api code) candidates_p max_depth p_threshold
          text depth prob_sum n (i + 1) w1 n_past false ∧
        w1.llama_state_queue = w.llama_state_queue ++
          [⟨state_mem, api.llama_get_state_size (api.llama_eval w.ctx [c.id] n_past 12).1,
            n_past + 1, text ++ api.llama_token_to_str w.ctx c.id, depth + 1,
            prob_sum + c.p⟩] ∧
        w1.heap.read state_mem
          = some (api.llama_copy_state_data (api.llama_eval w.ctx [c.id] n_past 12).1) ∧
        w1.evals = w.evals ++ [([c.id], n_past, code w.ctx [c.id] n_past 12)]) ∧
    (∀ (fuel : Nat) (w : World Ctx) (n_past beam_width max_depth : Int) (text : String)
      (p_threshold : ℚ) (w1 : World Ctx),
      iterate_beam_search (with_return_code api code) fuel w n_past beam_width max_depth
        text p_threshold = .ok w1 →
      w1.llama_state_queue = []) := by
  refine ⟨?_, ?_, ?_⟩
  · intro fuel w n_past beam_width max_depth text p_threshold
    exact iterate_beam_search_code api code fuel w n_past beam_width max_depth text
      p_threshold
  · intro candidates_p max_depth p_threshold text depth prob_sum n i w n_past is_leaf c
      hc hge hd
    refine ⟨enqueue_child (with_return_code api code) w c.id n_past
      (text ++ api.llama_token_to_str w.ctx c.id) (depth + 1) (prob_sum + c.p),
      w.heap.next + 1, ?_, rfl, ?_, rfl⟩
    · rw [iterate_candidates_succ (with_return_code api code) _ _ _ _ _ _ _ _ _ _ _ c hc,
        if_neg (not_lt.2 hge), if_neg hd]
      rfl
    · simp [enqueue_child, with_return_code, Heap.read]
  · intro fuel w n_past beam_width max_depth text p_threshold w1 h
    unfold iterate_beam_search at h
    split at h
    · simp at h
    · rename_i s1 hloop
      simp only [Except.ok.injEq] at h
      rw [← h]
      exact iterate_loop_drains _ beam_width max_depth p_threshold fuel _ s1 hloop

/-- Witness of C13: the scenario of section 8 of the spec on a model whose every step
reports failure. -/
theorem eval_return_code_ignored_witness :
    ((iterate_beam_search (with_return_code scenario_api always_fails) 3 (empty_world []) 5
        2 2 "" (1 / 10)).map forget_log =
      (iterate_beam_search scenario_api 3 (empty_world []) 5 2 2 "" (1 / 10)).map
        forget_log) ∧
    (ranked_candidates scenario_api (empty_world ([] : List Nat)).ctx)[0]?
      = some ⟨0, 0, 6 / 10⟩ ∧
    ((1 / 10 : ℚ) ≤ (⟨0, 0, 6 / 10⟩ : llama_token_data).p) ∧ ((1 : Int) ≠ 2) ∧
    (∃ w1 state_mem,
      iterate_candidates (with_return_code scenario_api always_fails)
        (ranked_candidates scenario_api (empty_world ([] : List Nat)).ctx) 2 (1 / 10) "" 1 0
        (1 + 1) 0 (empty_world []) 5 true =
      iterate_candidates (with_return_code scenario_api always_fails)
        (ranked_candidates scenario_api (empty_world ([] : List Nat)).ctx) 2 (1 / 10) "" 1 0
        1 (0 + 1) w1 5 false ∧
      w1.llama_state_queue = (empty_world ([] : List Nat)).llama_state_queue ++
        [⟨state_mem,
          scenario_api.llama_get_state_size
            (scenario_api.llama_eval (empty_world ([] : List Nat)).ctx
              [(⟨0, 0, 6 / 10⟩ : llama_token_data).id] 5 12).1,
          5 + 1,
          "" ++ scenario_api.llama_token_to_str (empty_world ([] : List Nat)).ctx
            (⟨0, 0, 6 / 10⟩ : llama_token_data).id,
          1 + 1, 0 + (⟨0, 0, 6 / 10⟩ : llama_token_data).p⟩] ∧
      w1.heap.read state_mem
        = some (scenario_api.llama_copy_state_data
            (scenario_api.llama_eval (empty_world ([] : List Nat)).ctx
              [(⟨0, 0, 6 / 10⟩ : llama_token_data).id] 5 12).1) ∧
      w1.evals = (empty_world ([] : List Nat)).evals ++
        [([(⟨0, 0, 6 / 10⟩ : llama_token_data).id], 5,
          always_fails (empty_world ([] : List Nat)).ctx
            [(⟨0, 0, 6 / 10⟩ : llama_token_data).id] 5 12)]) ∧
    iterate_beam_search (with_return_code scenario_api always_fails) 3 (empty_world []) 5
      2 2 "" (1 / 10) = .ok scenario_failing_result ∧
    scenario_failing_result.llama_state_queue = [] :=
  ⟨(eval_return_code_ignored scenario_api always_fails).1 3 (empty_world []) 5 2 2 ""
     (1 / 10),
   by decide!, by norm_num, by decide,
   (eval_return_code_ignored scenario_api always_fails).2.1 _ 2 (1 / 10) "" 1 0 1 0
     (empty_world []) 5 true ⟨0, 0, 6 / 10⟩ (by decide!) (by norm_num) (by decide),
   by decide!,
   (eval_return_code_ignored scenario_api always_fails).2.2 3 (empty_world []) 5 2 2 ""
     (1 / 10) scenario_failing_result (by decide!)⟩

end InteractiveBeam

namespace InteractiveBeam

variable {Ctx : Type}

/-- The candidate loop of `iterate_beam_search` can only fault by reading past the end
of the candidate array. -/
theorem iterate_candidates_fault (api : LlamaApi Ctx) (candidates_p : List llama_token_data)
    (max_depth : Int) (p_threshold : ℚ) (text : String) (depth : Int) (prob_sum : ℚ) :
    ∀ (n i : Nat) (w : World Ctx) (n_past : Int) (is_leaf : Bool) (e : Fault),
      iterate_candidates api candidates_p max_depth p_threshold text depth prob_sum n i w
        n_past is_leaf = .error e → e = .out_of_bounds := by
  intro n
  induction n with
  | zero => intro i w n_past is_leaf e h; simp [iterate_candidates] at h
  | succ n ih =>
    intro i w n_past is_leaf e h
    cases hc : candidates_p[i]? with
    | none =>
      rw [iterate_candidates] at h
      simp only [hc, Except.error.injEq] at h
      exact h.symm
    | some c =>
      rw [iterate_candidates_succ api _ _ _ _ _ _ _ _ _ _ _ c hc] at h
      split at h
      · simp at h
      · split at h
        · exact ih _ _ _ _ _ h
        · exact ih _ _ _ _ _ h

/-- A trim to a positive width leaves a non-empty queue non-empty. -/
theorem queue_trim_nonempty (w : World Ctx) (max_width : Int) (hw : 1 ≤ max_width)
    (hq : w.llama_state_queue ≠ []) : (llama_queue_trim w max_width).llama_state_queue ≠ [] := by
  unfold llama_queue_trim
  split
  · intro h
    have hlen := (std_sort_perm queue_comp w.llama_state_queue).length_eq
    have h0 := congrArg List.length h
    simp only [List.length_take, List.length_nil] at h0
    have hpos : 0 < w.llama_state_queue.length := List.length_pos.2 hq
    omega
  · exact hq

/-- The condition under which a pass of the `while` body cannot meet an empty queue:
the width is positive, or no trim is due now or for any queued frame and at most one
frame is queued. -/
theorem iterate_frame_no_empty (api : LlamaApi Ctx) (beam_width max_depth : Int)
    (p_threshold : ℚ) (s : IterState Ctx)
    (hk : 1 ≤ beam_width ∨ (s.depth ≤ 10 ∧ s.w.llama_state_queue.length ≤ 1 ∧
      ∀ e ∈ s.w.llama_state_queue, e.depth ≤ 10))
    (hq : s.w.llama_state_queue ≠ []) :
    iterate_frame api beam_width max_depth p_threshold s ≠ .error .empty_container ∧
    ∀ s1, iterate_frame api beam_width max_depth p_threshold s = .ok s1 →
      (1 ≤ beam_width ∨ (s1.depth ≤ 10 ∧ s1.w.llama_state_queue.length ≤ 1 ∧
        ∀ e ∈ s1.w.llama_state_queue, e.depth ≤ 10)) := by
  have htq : (iterate_trim beam_width s).llama_state_queue ≠ [] := by
    rcases hk with hk | ⟨hd, -, -⟩
    · unfold iterate_trim
      split
      · exact queue_trim_nonempty _ _ hk hq
      · exact hq
    · unfold iterate_trim
      rw [if_neg (by omega)]
      exact hq
  constructor
  · intro h
    unfold iterate_frame at h
    split at h
    · rename_i e hdq
      simp only [Except.error.injEq] at h
      subst h
      unfold llama_dequeue_state at hdq
      split at hdq
      · rename_i hnil; exact htq hnil
      · split at hdq <;> simp at hdq
    · dsimp only at h
      split at h
      · rename_i e hcand
        simp only [Except.error.injEq] at h
        subst h
        have := iterate_candidates_fault api _ _ _ _ _ _ _ _ _ _ _ _ hcand
        simp at this
      · simp at h
  · intro s1 h
    rcases hk with hk | ⟨hd, hlen, hdepth⟩
    · exact Or.inl hk
    · by_cases hb : 1 ≤ beam_width
      · exact Or.inl hb
      · right
        have hb0 : beam_width.toNat = 0 := by omega
        have htrim : iterate_trim beam_width s = s.w := by
          unfold iterate_trim
          rw [if_neg (by omega)]
        obtain ⟨e, rest, nf, nr, hq0, hq1, -, -, hd1, -, hnf, -⟩ :=
          iterate_frame_shape api beam_width max_depth p_threshold s s1 h
        rw [htrim] at hq0
        have hrest : rest = [] := by
          rw [hq0] at hlen
          simp only [List.length_cons] at hlen
          exact List.length_eq_zero.1 (by omega)
        have he : e.depth ≤ 10 := hdepth e (by rw [hq0]; exact List.mem_cons_self _ _)
        unfold iterate_frame at h
        rw [htrim] at h
        split at h
        · simp at h
        · rename_i w1 n_past text depth prob_sum hdq
          obtain ⟨e', rest', hq0', hq1', -⟩ := dequeue_shape api _ _ _ _ _ _ hdq
          rw [hq0] at hq0'
          simp only [List.cons.injEq] at hq0'
          rw [hb0] at h
          simp only [iterate_candidates, if_true, Except.ok.injEq] at h
          subst h
          refine ⟨by rw [← hd1] at he; exact he, ?_, ?_⟩
          · simp [hq1', ← hq0'.2, hrest]
          · simp [hq1', ← hq0'.2, hrest]

theorem iterate_loop_no_empty (api : LlamaApi Ctx) (beam_width max_depth : Int)
    (p_threshold : ℚ) :
    ∀ (fuel : Nat) (s : IterState Ctx),
      (1 ≤ beam_width ∨ (s.depth ≤ 10 ∧ s.w.llama_state_queue.length ≤ 1 ∧
        ∀ e ∈ s.w.llama_state_queue, e.depth ≤ 10)) →
      iterate_loop api beam_width max_depth p_threshold fuel s ≠ .error .empty_container := by
  intro fuel
  induction fuel with
  | zero =>
    intro s _ h
    unfold iterate_loop at h
    split at h <;> simp at h
  | succ fuel ih =>
    intro s hk h
    unfold iterate_loop at h
    split at h
    · simp at h
    · rename_i hq
      obtain ⟨hne, hnext⟩ := iterate_frame_no_empty api beam_width max_depth p_threshold s hk hq
      dsimp only at h
      split at h
      · rename_i e hstep
        simp only [Except.error.injEq] at h
        subst h
        exact hne hstep
      · rename_i s1 hstep
        exact ih s1 (hnext s1 hstep) h

/-- C18. No restore from an empty container: started with an empty queue, for every
`beam_width` (zero and negative ones included), `max_depth`, `p_threshold`, model and
number of passes, `iterate_beam_search` never faults on an empty container: neither
`llama_dequeue_state` meets an empty queue nor `llama_pop_state` an empty stack. -/
theorem no_restore_from_empty (api : LlamaApi Ctx) (fuel : Nat) (w : World Ctx)
    (n_past beam_width max_depth : Int) (text : String) (p_threshold : ℚ)
    (hq : w.llama_state_queue = []) :
    iterate_beam_search api fuel w n_past beam_width max_depth text p_threshold
      ≠ .error .empty_container := by
  intro h
  unfold iterate_beam_search at h
  split at h
  · rename_i e hloop
    simp only [Except.error.injEq] at h
    subst h
    refine iterate_loop_no_empty api beam_width max_depth p_threshold fuel _ ?_ hloop
    right
    simp [iterate_init, llama_queue_state, hq]
  · simp at h

/-- Witness of C18: the scenario with `beam_width = 0`. -/
theorem no_restore_from_empty_witness :
    (empty_world ([] : List Nat)).llama_state_queue = [] ∧
    iterate_beam_search scenario_api 3 (empty_world []) 5 0 2 "" (1 / 10)
      ≠ .error .empty_container :=
  ⟨rfl, no_restore_from_empty scenario_api 3 (empty_world []) 5 0 2 "" (1 / 10) rfl⟩

end InteractiveBeam

namespace InteractiveBeam

variable {Ctx : Type}

/-- Every `llama_eval` call of the candidate loop of one frame is made at the frame's
position `n_past`. -/
theorem iterate_candidates_positions (api : LlamaApi Ctx)
    (candidates_p : List llama_token_data) (max_depth : Int) (p_threshold : ℚ) (text : String)
    (depth : Int) (prob_sum : ℚ) :
    ∀ (n i : Nat) (w : World Ctx) (n_past : Int) (is_leaf : Bool) (w1 : World Ctx)
      (n_past1 : Int) (is_leaf1 : Bool),
      iterate_candidates api candidates_p max_depth p_threshold text depth prob_sum n i w
        n_past is_leaf = .ok (w1, n_past1, is_leaf1) →
      ∃ added, w1.evals = w.evals ++ added ∧ ∀ x ∈ added, x.2.1 = n_past := by
  intro n
  induction n with
  | zero =>
    intro i w n_past is_leaf w1 n_past1 is_leaf1 h
    simp only [iterate_candidates, Except.ok.injEq, Prod.mk.injEq] at h
    obtain ⟨rfl, -, -⟩ := h
    exact ⟨[], by simp, by simp⟩
  | succ n ih =>
    intro i w n_past is_leaf w1 n_past1 is_leaf1 h
    cases hc : candidates_p[i]? with
    | none => rw [iterate_candidates] at h; simp [hc] at h
    | some c =>
      rw [iterate_candidates_succ api _ _ _ _ _ _ _ _ _ _ _ c hc] at h
      split at h
      · simp only [Except.ok.injEq, Prod.mk.injEq] at h
        obtain ⟨rfl, -, -⟩ := h
        exact ⟨[], by simp, by simp⟩
      · split at h
        · obtain ⟨added, hev, hpos⟩ := ih _ _ _ _ _ _ _ h
          exact ⟨added, hev, hpos⟩
        · obtain ⟨added, hev, hpos⟩ := ih _ _ _ _ _ _ _ h
          refine ⟨([c.id], n_past, (api.llama_eval w.ctx [c.id] n_past 12).2) :: added, ?_, ?_⟩
          · rw [hev]; simp [enqueue_child]
          · intro x hx
            rcases List.mem_cons.1 hx with rfl | hx
            · rfl
            · exact hpos x hx

/-- Every `llama_eval` call of one pass of the `while` body is made at the position
carried by the frame the pass dequeues. -/
theorem iterate_frame_positions (api : LlamaApi Ctx) (beam_width max_depth : Int)
    (p_threshold : ℚ) (s s1 : IterState Ctx)
    (h : iterate_frame api beam_width max_depth p_threshold s = .ok s1) :
    ∃ added, s1.w.evals = s.w.evals ++ added ∧ ∀ x ∈ added, x.2.1 = s1.n_past := by
  have hev0 : (iterate_trim beam_width s).evals = s.w.evals := by
    unfold iterate_trim llama_queue_trim; split
    · split <;> rfl
    · rfl
  unfold iterate_frame at h
  split at h
  · simp at h
  · rename_i w1 n_past text depth prob_sum hdq
    obtain ⟨e, rest, -, -, -, -, hev1, -⟩ := dequeue_shape api _ _ _ _ _ _ hdq
    dsimp only at h
    split at h
    · simp at h
    · rename_i w2 n_past1 is_leaf hcand
      obtain ⟨hn, -⟩ := iterate_candidates_shape api _ _ _ _ _ _ _ _ _ _ _ _ _ _ hcand
      obtain ⟨added, hev2, hpos⟩ :=
        iterate_candidates_positions api _ _ _ _ _ _ _ _ _ _ _ _ _ _ hcand
      simp only [Except.ok.injEq] at h
      subst h
      refine ⟨added, ?_, ?_⟩
      · by_cases hl : is_leaf = true <;> simp [hl, hev2, hev1, hev0]
      · intro x hx
        rw [hpos x hx, hn]

theorem iterate_passes_positions (api : LlamaApi Ctx) (beam_width max_depth : Int)
    (p_threshold : ℚ) (n0 : Int) :
    ∀ (k : Nat) (s0 s : IterState Ctx),
      (∀ e ∈ s0.w.llama_state_queue, e.n_past = n0 + e.depth - 1) →
      iterate_passes api beam_width max_depth p_threshold k s0 = .ok s →
      ∀ e ∈ s.w.llama_state_queue, e.n_past = n0 + e.depth - 1 := by
  intro k
  induction k with
  | zero =>
    intro s0 s hinv h
    simp only [iterate_passes, Except.ok.injEq] at h
    subst h; exact hinv
  | succ k ih =>
    intro s0 s hinv h
    unfold iterate_passes at h
    split at h
    · simp only [Except.ok.injEq] at h
      subst h; exact hinv
    · split at h
      · simp at h
      · rename_i s1 hstep
        refine ih s1 s ?_ h
        obtain ⟨e, rest, nf, nr, hq0, hq1, -, -, -, -, hnf, -⟩ :=
          iterate_frame_shape api beam_width max_depth p_threshold s0 s1 hstep
        have hmem : ∀ f ∈ e :: rest, f.n_past = n0 + f.depth - 1 := by
          intro f hf
          rw [← hq0] at hf
          exact hinv f (iterate_trim_mem _ _ _ hf)
        intro f hf
        rw [hq1] at hf
        rcases List.mem_append.1 hf with hf | hf
        · exact hmem f (List.mem_cons_of_mem _ hf)
        · obtain ⟨h1, -, h3⟩ := hnf f hf
          have he := hmem e (List.mem_cons_self _ _)
          omega

/-- C19. Position counter invariant of the breadth-first search started at position `n0`
with an empty queue. At every instant between two passes of the `while` loop, every
queued frame of depth `d` carries `n_past = n0 + d - 1`; and in the pass that follows,
the frame dequeued (its depth and position are those of the loop state after the pass)
carries `n_past = n0 + d - 1`, and every `llama_eval` call the pass logs is made at
position `n0 + d - 1`. -/
theorem position_counter (api : LlamaApi Ctx) (w : World Ctx) (n0 beam_width max_depth : Int)
    (text : String) (p_threshold : ℚ) (k : Nat) (s : IterState Ctx)
    (hq : w.llama_state_queue = [])
    (hk : iterate_passes api beam_width max_depth p_threshold k (iterate_init api w n0 text)
      = .ok s) :
    (∀ e ∈ s.w.llama_state_queue, e.n_past = n0 + e.depth - 1) ∧
    ∀ s1, iterate_frame api beam_width max_depth p_threshold s = .ok s1 →
      s1.n_past = n0 + s1.depth - 1 ∧
      ∃ added, s1.w.evals = s.w.evals ++ added ∧ ∀ x ∈ added, x.2.1 = n0 + s1.depth - 1 := by
  have hinv : ∀ e ∈ s.w.llama_state_queue, e.n_past = n0 + e.depth - 1 := by
    refine iterate_passes_positions api beam_width max_depth p_threshold n0 k _ s ?_ hk
    intro e he
    simp only [iterate_init, llama_queue_state, hq, List.nil_append, List.mem_singleton] at he
    subst he
    simp
  refine ⟨hinv, ?_⟩
  intro s1 hstep
  obtain ⟨e, rest, nf, nr, hq0, -, -, -, hd, hn, -, -⟩ :=
    iterate_frame_shape api beam_width max_depth p_threshold s s1 hstep
  have he : e.n_past = n0 + e.depth - 1 :=
    hinv e (iterate_trim_mem _ _ _ (by rw [hq0]; exact List.mem_cons_self _ _))
  have hpos1 : s1.n_past = n0 + s1.depth - 1 := by rw [hn, hd]; exact he
  obtain ⟨added, hev, hpos⟩ :=
    iterate_frame_positions api beam_width max_depth p_threshold s s1 hstep
  exact ⟨hpos1, added, hev, fun x hx => by rw [hpos x hx]; exact hpos1⟩

/-- Witness of C19: the scenario after its first pass. -/
theorem position_counter_witness :
    (empty_world ([] : List Nat)).llama_state_queue = [] ∧
    iterate_passes scenario_api 2 2 (1 / 10) 1 (iterate_init scenario_api (empty_world []) 5 "")
      = .ok scenario_first_frame ∧
    ((∀ e ∈ scenario_first_frame.w.llama_state_queue, e.n_past = 5 + e.depth - 1) ∧
    ∀ s1, iterate_frame scenario_api 2 2 (1 / 10) scenario_first_frame = .ok s1 →
      s1.n_past = 5 + s1.depth - 1 ∧
      ∃ added, s1.w.evals = scenario_first_frame.w.evals ++ added ∧
        ∀ x ∈ added, x.2.1 = 5 + s1.depth - 1) :=
  ⟨rfl, by decide!,
   position_counter scenario_api (empty_world []) 5 2 2 "" (1 / 10) 1 scenario_first_frame rfl
     (by decide!)⟩

end InteractiveBeam

namespace InteractiveBeam

variable {Ctx : Type}

theorem heap_read_cons_ne (next next1 : Nat) (cells : List (Nat × List Nat)) (a b : Nat)
    (d : List Nat) (hab : b ≠ a) :
    Heap.read ⟨next1, (b, d) :: cells⟩ a = Heap.read ⟨next, cells⟩ a := by
  simp [Heap.read, List.find?_cons, hab]

theorem heap_read_free_ne (h : Heap) (a b : Nat) (hab : b ≠ a) :
    (h.free b).read a = h.read a := by
  unfold Heap.free Heap.read
  simp only
  congr 1
  induction h.cells with
  | nil => rfl
  | cons c cs ih =>
    by_cases hcb : c.1 = b
    · have hca : c.1 ≠ a := by rw [hcb]; exact hab
      rw [List.eraseP_cons_of_pos (by simp [hcb])]
      simp [List.find?_cons, hca]
    · rw [List.eraseP_cons_of_neg (by simp [hcb])]
      simp only [List.find?_cons]
      split
      · rfl
      · exact ih

/-- The candidate loop appends at most one frame per iteration. -/
theorem iterate_candidates_count (api : LlamaApi Ctx) (candidates_p : List llama_token_data)
    (max_depth : Int) (p_threshold : ℚ) (text : String) (depth : Int) (prob_sum : ℚ) :
    ∀ (n i : Nat) (w : World Ctx) (n_past : Int) (is_leaf : Bool) (w1 : World Ctx)
      (n_past1 : Int) (is_leaf1 : Bool),
      iterate_candidates api candidates_p max_depth p_threshold text depth prob_sum n i w
        n_past is_leaf = .ok (w1, n_past1, is_leaf1) →
      w1.llama_state_queue.length ≤ w.llama_state_queue.length + n := by
  intro n
  induction n with
  | zero =>
    intro i w n_past is_leaf w1 n_past1 is_leaf1 h
    simp only [iterate_candidates, Except.ok.injEq, Prod.mk.injEq] at h
    obtain ⟨rfl, -, -⟩ := h
    omega
  | succ n ih =>
    intro i w n_past is_leaf w1 n_past1 is_leaf1 h
    cases hc : candidates_p[i]? with
    | none => rw [iterate_candidates] at h; simp [hc] at h
    | some c =>
      rw [iterate_candidates_succ api _ _ _ _ _ _ _ _ _ _ _ c hc] at h
      split at h
      · simp only [Except.ok.injEq, Prod.mk.injEq] at h
        obtain ⟨rfl, -, -⟩ := h
        omega
      · split at h
        · have := ih _ _ _ _ _ _ _ h
          simp only at this
          omega
        · have := ih _ _ _ _ _ _ _ h
          simp only [enqueue_child, List.length_append, List.length_singleton] at this
          omega

/-- The candidate loop keeps every queued frame's buffer live and leaves the buffers
allocated before it untouched. -/
theorem iterate_candidates_live (api : LlamaApi Ctx) (candidates_p : List llama_token_data)
    (max_depth : Int) (p_threshold : ℚ) (text : String) (depth : Int) (prob_sum : ℚ) :
    ∀ (n i : Nat) (w : World Ctx) (n_past : Int) (is_leaf : Bool) (w1 : World Ctx)
      (n_past1 : Int) (is_leaf1 : Bool),
      iterate_candidates api candidates_p max_depth p_threshold text depth prob_sum n i w
        n_past is_leaf = .ok (w1, n_past1, is_leaf1) →
      w.heap.next ≤ w1.heap.next ∧
      (∀ a, a < w.heap.next → w1.heap.read a = w.heap.read a) ∧
      (QueueLive w → QueueLive w1) := by
  intro n
  induction n with
  | zero =>
    intro i w n_past is_leaf w1 n_past1 is_leaf1 h
    simp only [iterate_candidates, Except.ok.injEq, Prod.mk.injEq] at h
    obtain ⟨rfl, -, -⟩ := h
    exact ⟨le_refl _, fun _ _ => rfl, fun h => h⟩
  | succ n ih =>
    intro i w n_past is_leaf w1 n_past1 is_leaf1 h
    cases hc : candidates_p[i]? with
    | none => rw [iterate_candidates] at h; simp [hc] at h
    | some c =>
      rw [iterate_candidates_succ api _ _ _ _ _ _ _ _ _ _ _ c hc] at h
      split at h
      · simp only [Except.ok.injEq, Prod.mk.injEq] at h
        obtain ⟨rfl, -, -⟩ := h
        exact ⟨le_refl _, fun _ _ => rfl, fun h => h⟩
      · split at h
        · obtain ⟨h1, h2, h3⟩ := ih _ _ _ _ _ _ _ h
          exact ⟨h1, h2, fun hl => h3 hl⟩
        · obtain ⟨h1, h2, h3⟩ := ih _ _ _ _ _ _ _ h
          have hread : ∀ a, a < w.heap.next →
              (enqueue_child api w c.id n_past (text ++ api.llama_token_to_str w.ctx c.id)
                (depth + 1) (prob_sum + c.p)).heap.read a = w.heap.read a := by
            intro a ha
            exact heap_read_cons_ne w.heap.next _ _ a _ _ (by omega)
          refine ⟨?_, ?_, ?_⟩
          · simp only [enqueue_child] at h1; omega
          · intro a ha
            rw [h2 a (by simp only [enqueue_child]; omega), hread a ha]
          · intro hl
            apply h3
            obtain ⟨hpw, hall⟩ := hl
            constructor
            · simp only [enqueue_child]
              rw [List.pairwise_append]
              refine ⟨hpw, List.pairwise_singleton _ _, ?_⟩
              intro a ha b hb
              simp only [List.mem_singleton] at hb
              subst hb
              have := (hall a ha).1
              simp only
              omega
            · intro e he
              simp only [enqueue_child, List.mem_append, List.mem_singleton] at he
              rcases he with he | rfl
              · obtain ⟨hlt, hsome⟩ := hall e he
                refine ⟨by simp only [enqueue_child]; omega, ?_⟩
                rw [hread e.state_mem hlt]; exact hsome
              · refine ⟨by simp only [enqueue_child]; omega, ?_⟩
                simp [enqueue_child, Heap.read]

/-- With at least `i + n` ranked candidates the candidate loop does not fault. -/
theorem iterate_candidates_ok (api : LlamaApi Ctx) (candidates_p : List llama_token_data)
    (max_depth : Int) (p_threshold : ℚ) (text : String) (depth : Int) (prob_sum : ℚ) :
    ∀ (n i : Nat) (w : World Ctx) (n_past : Int) (is_leaf : Bool),
      i + n ≤ candidates_p.length →
      ∃ r, iterate_candidates api candidates_p max_depth p_threshold text depth prob_sum n i w
        n_past is_leaf = .ok r := by
  intro n
  induction n with
  | zero => intro i w n_past is_leaf _; exact ⟨(w, n_past, is_leaf), by simp [iterate_candidates]⟩
  | succ n ih =>
    intro i w n_past is_leaf hlen
    have hi : i < candidates_p.length := by omega
    rw [iterate_candidates_succ api _ _ _ _ _ _ _ _ _ _ _ _ (List.getElem?_eq_getElem hi)]
    split
    · exact ⟨_, rfl⟩
    · split
      · exact ih _ _ _ _ (by omega)
      · exact ih _ _ _ _ (by omega)

theorem pass_bound_pos (width levels : Nat) : 1 ≤ pass_bound width levels := by
  cases levels with
  | zero => simp [pass_bound]
  | succ n => simp only [pass_bound]; omega

theorem queue_bound_cons (width : Nat) (max_depth : Int) (e : state_stack_entry)
    (rest : List state_stack_entry) :
    queue_bound width max_depth (e :: rest)
      = pass_bound width (max_depth - e.depth).toNat + queue_bound width max_depth rest := by
  simp [queue_bound]

theorem queue_bound_append (width : Nat) (max_depth : Int) (l1 l2 : List state_stack_entry) :
    queue_bound width max_depth (l1 ++ l2)
      = queue_bound width max_depth l1 + queue_bound width max_depth l2 := by
  simp [queue_bound]

theorem queue_bound_const (width : Nat) (max_depth : Int) (d : Int) :
    ∀ l : List state_stack_entry, (∀ e ∈ l, e.depth = d) →
      queue_bound width max_depth l = l.length * pass_bound width (max_depth - d).toNat := by
  intro l
  induction l with
  | nil => intro _; simp [queue_bound]
  | cons x xs ih =>
    intro h
    rw [queue_bound_cons, ih (fun e he => h e (List.mem_cons_of_mem _ he)),
      h x (List.mem_cons_self _ _), List.length_cons]
    ring

theorem queue_bound_trim (width : Nat) (max_depth : Int) (w : World Ctx) (max_width : Int) :
    queue_bound width max_depth (llama_queue_trim w max_width).llama_state_queue
      ≤ queue_bound width max_depth w.llama_state_queue := by
  unfold llama_queue_trim
  split
  · have hperm := std_sort_perm queue_comp w.llama_state_queue
    have hsum : queue_bound width max_depth (std_sort queue_comp w.llama_state_queue)
        = queue_bound width max_depth w.llama_state_queue := by
      unfold queue_bound
      exact (hperm.map _).sum_eq
    have hsplit := List.sum_take_add_sum_drop
      ((std_sort queue_comp w.llama_state_queue).map
        (fun e => pass_bound width (max_depth - e.depth).toNat)) max_width.toNat
    rw [← hsum]
    unfold queue_bound
    simp only [List.map_take]
    omega
  · exact le_refl _

theorem queue_trim_live (w : World Ctx) (max_width : Int) (h : QueueLive w) :
    QueueLive (llama_queue_trim w max_width) := by
  obtain ⟨hpw, hall⟩ := h
  refine ⟨?_, ?_⟩
  · unfold llama_queue_trim
    split
    · have hperm := std_sort_perm queue_comp w.llama_state_queue
      have hs : (std_sort queue_comp w.llama_state_queue).Pairwise
          (fun a b => a.state_mem ≠ b.state_mem) :=
        (hperm.pairwise_iff (fun h => Ne.symm h)).2 hpw
      exact hs.sublist (List.take_sublist _ _)
    · exact hpw
  · intro e he
    rw [queue_trim_heap]
    exact hall e (queue_trim_mem _ _ _ he)

theorem iterate_trim_live (beam_width : Int) (s : IterState Ctx) (h : QueueLive s.w) :
    QueueLive (iterate_trim beam_width s) := by
  unfold iterate_trim
  split
  · exact queue_trim_live _ _ h
  · exact h

theorem iterate_trim_bound (width : Nat) (max_depth beam_width : Int) (s : IterState Ctx) :
    queue_bound width max_depth (iterate_trim beam_width s).llama_state_queue
      ≤ queue_bound width max_depth s.w.llama_state_queue := by
  unfold iterate_trim
  split
  · exact queue_bound_trim _ _ _ _
  · exact le_refl _

theorem iterate_trim_stack (beam_width : Int) (s : IterState Ctx) :
    (iterate_trim beam_width s).llama_state_stack = s.w.llama_state_stack := by
  unfold iterate_trim llama_queue_trim; split
  · split <;> rfl
  · rfl

theorem iterate_trim_nonempty (beam_width : Int) (s : IterState Ctx)
    (hk : 1 ≤ beam_width ∨ s.depth ≤ 10) (hq : s.w.llama_state_queue ≠ []) :
    (iterate_trim beam_width s).llama_state_queue ≠ [] := by
  rcases hk with hk | hd
  · unfold iterate_trim
    split
    · exact queue_trim_nonempty _ _ hk hq
    · exact hq
  · unfold iterate_trim
    rw [if_neg (by omega)]
    exact hq

/-- Dequeuing from a queue whose frames own live buffers succeeds and keeps the buffers
of the remaining frames live. -/
theorem dequeue_live (api : LlamaApi Ctx) (w0 : World Ctx) (e : state_stack_entry)
    (rest : List state_stack_entry) (hl : QueueLive w0)
    (hq : w0.llama_state_queue = e :: rest) :
    ∃ w1, llama_dequeue_state api w0 = .ok (w1, e.n_past, e.text, e.depth, e.prob_sum) ∧
      QueueLive w1 ∧ w1.llama_state_queue = rest ∧
      w1.llama_state_stack = w0.llama_state_stack := by
  obtain ⟨hpw, hall⟩ := hl
  rw [hq] at hpw hall
  obtain ⟨-, hsome⟩ := hall e (List.mem_cons_self _ _)
  obtain ⟨buf, hbuf⟩ := Option.isSome_iff_exists.1 hsome
  refine ⟨{ w0 with
      ctx := api.llama_set_state_data w0.ctx buf
      llama_state_queue := rest
      heap := w0.heap.free e.state_mem }, ?_, ?_, rfl, rfl⟩
  · simp only [llama_dequeue_state, hq, hbuf]
  · rw [List.pairwise_cons] at hpw
    refine ⟨hpw.2, ?_⟩
    intro r hr
    obtain ⟨hlt, hrs⟩ := hall r (List.mem_cons_of_mem _ hr)
    refine ⟨hlt, ?_⟩
    show ((w0.heap.free e.state_mem).read r.state_mem).isSome = true
    rw [heap_read_free_ne _ _ _ (hpw.1 r hr)]
    exact hrs

/-- The invariant of the `while` loop behind termination: a trim cannot empty the queue,
every queued frame owns a live buffer, and every queued frame has a depth between 1 and
`max_depth`. -/
theorem iterate_frame_progress (api : LlamaApi Ctx) (beam_width max_depth : Int)
    (p_threshold : ℚ) (s : IterState Ctx)
    (hk : 1 ≤ beam_width ∨ (s.depth ≤ 10 ∧ s.w.llama_state_queue.length ≤ 1 ∧
      ∀ e ∈ s.w.llama_state_queue, e.depth ≤ 10))
    (hl : QueueLive s.w)
    (hd : ∀ e ∈ s.w.llama_state_queue, 1 ≤ e.depth ∧ e.depth ≤ max_depth)
    (hq : s.w.llama_state_queue ≠ []) :
    (∀ e, iterate_frame api beam_width max_depth p_threshold s = .error e →
      e = .out_of_bounds) ∧
    ((∀ c, beam_width.toNat ≤ (ranked_candidates api c).length) →
      ∃ s1, iterate_frame api beam_width max_depth p_threshold s = .ok s1) ∧
    ∀ s1, iterate_frame api beam_width max_depth p_threshold s = .ok s1 →
      (1 ≤ beam_width ∨ (s1.depth ≤ 10 ∧ s1.w.llama_state_queue.length ≤ 1 ∧
        ∀ e ∈ s1.w.llama_state_queue, e.depth ≤ 10)) ∧
      QueueLive s1.w ∧
      (∀ e ∈ s1.w.llama_state_queue, 1 ≤ e.depth ∧ e.depth ≤ max_depth) ∧
      queue_bound beam_width.toNat max_depth s1.w.llama_state_queue + 1
        ≤ queue_bound beam_width.toNat max_depth s.w.llama_state_queue ∧
      s1.w.llama_state_stack = s.w.llama_state_stack := by
  have htq : (iterate_trim beam_width s).llama_state_queue ≠ [] :=
    iterate_trim_nonempty beam_width s (hk.imp id (fun h => h.1)) hq
  obtain ⟨e, rest, hq0⟩ := List.exists_cons_of_ne_nil htq
  obtain ⟨w1, hdq, hl1, hq1, hs1⟩ :=
    dequeue_live api _ e rest (iterate_trim_live beam_width s hl) hq0
  have hpass : iterate_frame api beam_width max_depth p_threshold s =
      match iterate_candidates api (ranked_candidates api w1.ctx) max_depth p_threshold
          e.text e.depth e.prob_sum beam_width.toNat 0 w1 e.n_past true with
      | .error e => .error e
      | .ok (w2, n_past1, is_leaf) =>
        .ok ⟨if is_leaf = true then
            { w2 with beam_results := w2.beam_results ++ [⟨e.text, e.prob_sum, e.depth⟩] }
          else w2, n_past1, e.text, e.depth, e.prob_sum⟩ := by
    simp only [iterate_frame, hdq]
  refine ⟨?_, ?_, ?_⟩
  · intro e1 h
    rw [hpass] at h
    split at h
    · rename_i e2 hcand
      simp only [Except.error.injEq] at h
      subst h
      exact iterate_candidates_fault api _ _ _ _ _ _ _ _ _ _ _ _ hcand
    · simp at h
  · intro hvocab
    obtain ⟨r, hr⟩ := iterate_candidates_ok api (ranked_candidates api w1.ctx) max_depth
      p_threshold e.text e.depth e.prob_sum beam_width.toNat 0 w1 e.n_past true
      (by rw [Nat.zero_add]; exact hvocab _)
    rw [hpass, hr]
    exact ⟨_, rfl⟩
  · intro s1 hstep
    have hk1 := (iterate_frame_no_empty api beam_width max_depth p_threshold s hk hq).2 s1 hstep
    rw [hpass] at hstep
    split at hstep
    · simp at hstep
    · rename_i w2 n_past1 is_leaf hcand
      obtain ⟨-, hs2, -, nf, nr, hq2, -, hnf, -⟩ :=
        iterate_candidates_shape api _ _ _ _ _ _ _ _ _ _ _ _ _ _ hcand
      have hcount := iterate_candidates_count api _ _ _ _ _ _ _ _ _ _ _ _ _ _ hcand
      obtain ⟨-, -, hlive⟩ := iterate_candidates_live api _ _ _ _ _ _ _ _ _ _ _ _ _ _ hcand
      have hl2 : QueueLive w2 := hlive hl1
      have hmem : ∀ f ∈ e :: rest, 1 ≤ f.depth ∧ f.depth ≤ max_depth := by
        intro f hf
        rw [← hq0] at hf
        exact hd f (iterate_trim_mem _ _ _ hf)
      have he := hmem e (List.mem_cons_self _ _)
      have hnflen : nf.length ≤ beam_width.toNat := by
        have : w2.llama_state_queue.length = rest.length + nf.length := by
          rw [hq2, hq1, List.length_append]
        rw [hq1] at hcount
        omega
      have hdepth : ∀ f ∈ rest ++ nf, 1 ≤ f.depth ∧ f.depth ≤ max_depth := by
        intro f hf
        rcases List.mem_append.1 hf with hf | hf
        · exact hmem f (List.mem_cons_of_mem _ hf)
        · obtain ⟨h1, h2, -⟩ := hnf f hf
          omega
      have hbound : queue_bound beam_width.toNat max_depth (rest ++ nf) + 1
          ≤ queue_bound beam_width.toNat max_depth s.w.llama_state_queue := by
        rw [queue_bound_append]
        have htrim := iterate_trim_bound beam_width.toNat max_depth beam_width s
        rw [hq0, queue_bound_cons] at htrim
        by_cases hnil : nf = []
        · subst hnil
          have hpos := pass_bound_pos beam_width.toNat (max_depth - e.depth).toNat
          have h0 : queue_bound beam_width.toNat max_depth [] = 0 := rfl
          omega
        · obtain ⟨f0, hf0⟩ := List.exists_mem_of_ne_nil nf hnil
          have hne : e.depth ≠ max_depth := (hnf f0 hf0).2.1
          have hconst := queue_bound_const beam_width.toNat max_depth (e.depth + 1) nf
            (fun f hf => (hnf f hf).1)
          obtain ⟨j, hj⟩ : ∃ j, (max_depth - e.depth).toNat = j + 1 :=
            ⟨(max_depth - e.depth).toNat - 1, by omega⟩
          have hj1 : (max_depth - (e.depth + 1)).toNat = j := by omega
          rw [hconst, hj1]
          rw [hj] at htrim
          simp only [pass_bound] at htrim
          have hmul : nf.length * pass_bound beam_width.toNat j
              ≤ beam_width.toNat * pass_bound beam_width.toNat j :=
            Nat.mul_le_mul_right _ hnflen
          omega
      have hq2' : w2.llama_state_queue = rest ++ nf := by rw [hq2, hq1]
      have hs2' : w2.llama_state_stack = s.w.llama_state_stack := by
        rw [hs2, hs1, iterate_trim_stack]
      simp only [Except.ok.injEq] at hstep
      subst hstep
      cases is_leaf
      · simp only [Bool.false_eq_true, if_false] at hk1 ⊢
        exact ⟨hk1, hl2, by rw [hq2']; exact hdepth, by rw [hq2']; exact hbound, hs2'⟩
      · simp only [if_true] at hk1 ⊢
        exact ⟨hk1, hl2, by rw [hq2']; exact hdepth, by rw [hq2']; exact hbound, hs2'⟩

end InteractiveBeam

namespace InteractiveBeam

variable {Ctx : Type}

theorem iterate_loop_terminates (api : LlamaApi Ctx) (beam_width max_depth : Int)
    (p_threshold : ℚ) :
    ∀ (fuel : Nat) (s : IterState Ctx),
      (1 ≤ beam_width ∨ (s.depth ≤ 10 ∧ s.w.llama_state_queue.length ≤ 1 ∧
        ∀ e ∈ s.w.llama_state_queue, e.depth ≤ 10)) →
      QueueLive s.w →
      (∀ e ∈ s.w.llama_state_queue, 1 ≤ e.depth ∧ e.depth ≤ max_depth) →
      queue_bound beam_width.toNat max_depth s.w.llama_state_queue ≤ fuel →
      (∀ e, iterate_loop api beam_width max_depth p_threshold fuel s = .error e →
        e = .out_of_bounds) ∧
      ((∀ c, beam_width.toNat ≤ (ranked_candidates api c).length) →
        ∃ s1, iterate_loop api beam_width max_depth p_threshold fuel s = .ok s1) ∧
      ∀ s1, iterate_loop api beam_width max_depth p_threshold fuel s = .ok s1 →
        s1.w.llama_state_queue = [] ∧ s1.w.llama_state_stack = s.w.llama_state_stack := by
  intro fuel
  induction fuel with
  | zero =>
    intro s _ _ _ hb
    have hq : s.w.llama_state_queue = [] := by
      by_contra hne
      obtain ⟨e, rest, hq0⟩ := List.exists_cons_of_ne_nil hne
      rw [hq0, queue_bound_cons] at hb
      have := pass_bound_pos beam_width.toNat (max_depth - e.depth).toNat
      omega
    rw [iterate_loop_done api _ _ _ _ s hq]
    refine ⟨fun e h => by simp at h, fun _ => ⟨s, rfl⟩, ?_⟩
    intro s1 h
    simp only [Except.ok.injEq] at h
    subst h
    exact ⟨hq, rfl⟩
  | succ fuel ih =>
    intro s hk hl hd hb
    by_cases hq : s.w.llama_state_queue = []
    · rw [iterate_loop_done api _ _ _ _ s hq]
      refine ⟨fun e h => by simp at h, fun _ => ⟨s, rfl⟩, ?_⟩
      intro s1 h
      simp only [Except.ok.injEq] at h
      subst h
      exact ⟨hq, rfl⟩
    · obtain ⟨hfault, hok, hnext⟩ :=
        iterate_frame_progress api beam_width max_depth p_threshold s hk hl hd hq
      cases hstep : iterate_frame api beam_width max_depth p_threshold s with
      | error e =>
        have hloop : iterate_loop api beam_width max_depth p_threshold (fuel + 1) s
            = .error e := by
          rw [iterate_loop, if_neg hq]
          simp only [hstep]
        rw [hloop]
        refine ⟨?_, ?_, fun s1 h => by simp at h⟩
        · intro e1 h
          simp only [Except.error.injEq] at h
          subst h
          exact hfault e hstep
        · intro hvocab
          obtain ⟨s1, h1⟩ := hok hvocab
          rw [hstep] at h1
          simp at h1
      | ok s1 =>
        obtain ⟨hk1, hl1, hd1, hb1, hs1⟩ := hnext s1 hstep
        rw [iterate_loop_step api _ _ _ fuel s s1 hq hstep]
        obtain ⟨h1, h2, h3⟩ := ih s1 hk1 hl1 hd1 (by omega)
        refine ⟨h1, h2, ?_⟩
        intro s2 h
        obtain ⟨hq2, hs2⟩ := h3 s2 h
        exact ⟨hq2, hs2.trans hs1⟩

theorem iterate_passes_depth (api : LlamaApi Ctx) (beam_width max_depth : Int)
    (p_threshold : ℚ) :
    ∀ (k : Nat) (s0 s : IterState Ctx),
      (∀ e ∈ s0.w.llama_state_queue, 1 ≤ e.depth ∧ e.depth ≤ max_depth) →
      iterate_passes api beam_width max_depth p_threshold k s0 = .ok s →
      ∀ e ∈ s.w.llama_state_queue, 1 ≤ e.depth ∧ e.depth ≤ max_depth := by
  intro k
  induction k with
  | zero =>
    intro s0 s hinv h
    simp only [iterate_passes, Except.ok.injEq] at h
    subst h; exact hinv
  | succ k ih =>
    intro s0 s hinv h
    unfold iterate_passes at h
    split at h
    · simp only [Except.ok.injEq] at h
      subst h; exact hinv
    · split at h
      · simp at h
      · rename_i s1 hstep
        refine ih s1 s ?_ h
        obtain ⟨e, rest, nf, nr, hq0, hq1, -, -, -, -, hnf, -⟩ :=
          iterate_frame_shape api beam_width max_depth p_threshold s0 s1 hstep
        have hmem : ∀ f ∈ e :: rest, 1 ≤ f.depth ∧ f.depth ≤ max_depth := by
          intro f hf
          rw [← hq0] at hf
          exact hinv f (iterate_trim_mem _ _ _ hf)
        intro f hf
        rw [hq1] at hf
        rcases List.mem_append.1 hf with hf | hf
        · exact hmem f (List.mem_cons_of_mem _ hf)
        · obtain ⟨h1, h2, -⟩ := hnf f hf
          have he := hmem e (List.mem_cons_self _ _)
          omega

/-- C16, counterexample. A model with four tokens, each of probability 0.25, searched
with `beam_width = 8`: the first pass enqueues the four candidates and then reads the
fifth entry of a ranking that has four; no amount of fuel makes the search return. -/
theorem breadth_first_reads_past_ranking :
    ranked_candidates uniform_api (empty_world ([] : List Nat)).ctx
      = [⟨0, 0, 1 / 4⟩, ⟨1, -1, 1 / 4⟩, ⟨2, -2, 1 / 4⟩, ⟨3, -3, 1 / 4⟩] ∧
    iterate_frame uniform_api 8 2 (1 / 10) (iterate_init uniform_api (empty_world []) 5 "")
      = .error .out_of_bounds ∧
    ∀ fuel w1, iterate_beam_search uniform_api fuel (empty_world []) 5 8 2 "" (1 / 10)
      ≠ .ok w1 := by
  have hframe : iterate_frame uniform_api 8 2 (1 / 10)
      (iterate_init uniform_api (empty_world []) 5 "") = .error .out_of_bounds := by decide!
  have hqueue : (iterate_init uniform_api (empty_world ([] : List Nat)) 5 "").w.llama_state_queue
      ≠ [] := by decide
  refine ⟨by decide!, hframe, ?_⟩
  intro fuel w1 h
  unfold iterate_beam_search at h
  cases fuel with
  | zero => rw [iterate_loop, if_neg hqueue] at h; simp at h
  | succ fuel => rw [iterate_loop, if_neg hqueue] at h; simp only [hframe] at h; simp at h

/-- C16, amended. Breadth-first termination for `max_depth ≥ 1` on a model whose every
ranking has at least `beam_width` candidates, started with an empty queue: with fuel for
`pass_bound beam_width (max_depth - 1)` passes of the `while` loop the search returns,
the queue is empty and the snapshot stack equals the stack at entry; and at every
instant between two passes every queued frame, hence every frame ever enqueued, has a
depth between 1 and `max_depth`. -/
theorem breadth_first_terminates (api : LlamaApi Ctx) (w : World Ctx)
    (n_past beam_width max_depth : Int) (text : String) (p_threshold : ℚ) (fuel : Nat)
    (hmd : 1 ≤ max_depth) (hq : w.llama_state_queue = [])
    (hvocab : ∀ c, beam_width.toNat ≤ (ranked_candidates api c).length)
    (hfuel : pass_bound beam_width.toNat (max_depth - 1).toNat ≤ fuel) :
    (∃ w1, iterate_beam_search api fuel w n_past beam_width max_depth text p_threshold
        = .ok w1 ∧
      w1.llama_state_queue = [] ∧ w1.llama_state_stack = w.llama_state_stack) ∧
    (∀ k s, iterate_passes api beam_width max_depth p_threshold k
        (iterate_init api w n_past text) = .ok s →
      ∀ e ∈ s.w.llama_state_queue, 1 ≤ e.depth ∧ e.depth ≤ max_depth) := by
  have hinit : (iterate_init api w n_past text).w.llama_state_queue
      = [⟨w.heap.next, api.llama_get_state_size w.ctx, n_past, text, 1, 0⟩] := by
    simp [iterate_init, llama_queue_state, hq]
  have hdepth : ∀ e ∈ (iterate_init api w n_past text).w.llama_state_queue,
      1 ≤ e.depth ∧ e.depth ≤ max_depth := by
    intro e he
    rw [hinit, List.mem_singleton] at he
    subst he
    exact ⟨le_refl _, hmd⟩
  obtain ⟨-, h2, h3⟩ := iterate_loop_terminates api beam_width max_depth p_threshold fuel
    (iterate_init api w n_past text)
    (Or.inr ⟨by simp [iterate_init], by rw [hinit]; simp, by rw [hinit]; simp⟩)
    ⟨by rw [hinit]; exact List.pairwise_singleton _ _, by
      intro e he
      rw [hinit, List.mem_singleton] at he
      subst he
      simp [iterate_init, llama_queue_state, Heap.read, Heap.alloc]⟩
    hdepth (by rw [hinit, queue_bound_cons]; simpa [queue_bound] using hfuel)
  refine ⟨?_, ?_⟩
  · obtain ⟨s1, hs1⟩ := h2 hvocab
    obtain ⟨ha, hb⟩ := h3 s1 hs1
    exact ⟨s1.w, by simp only [iterate_beam_search, hs1], ha,
      by rw [hb]; simp [iterate_init, llama_queue_state]⟩
  · intro k s hk
    exact iterate_passes_depth api beam_width max_depth p_threshold k _ s hdepth hk

/-- Witness of C16: the scenario of section 8 of the spec, with fuel for three passes. -/
theorem breadth_first_terminates_witness :
    (1 : Int) ≤ 2 ∧ (empty_world ([] : List Nat)).llama_state_queue = [] ∧
    (∀ c, (2 : Int).toNat ≤ (ranked_candidates scenario_api c).length) ∧
    pass_bound (2 : Int).toNat ((2 : Int) - 1).toNat ≤ 3 ∧
    ((∃ w1, iterate_beam_search scenario_api 3 (empty_world []) 5 2 2 "" (1 / 10) = .ok w1 ∧
      w1.llama_state_queue = [] ∧
      w1.llama_state_stack = (empty_world ([] : List Nat)).llama_state_stack) ∧
    (∀ k s, iterate_passes scenario_api 2 2 (1 / 10) k
        (iterate_init scenario_api (empty_world []) 5 "") = .ok s →
      ∀ e ∈ s.w.llama_state_queue, 1 ≤ e.depth ∧ e.depth ≤ 2)) :=
  ⟨by decide, rfl, scenario_vocabulary, by decide,
   breadth_first_terminates scenario_api (empty_world []) 5 2 2 "" (1 / 10) 3 (by decide) rfl
     scenario_vocabulary (by decide)⟩

end InteractiveBeam

namespace InteractiveBeam

variable {Ctx : Type}

/-- With enough candidates the first loop of `recurse_beam_search` does not fault, and
the width it computes is 2 or the index at which it stopped. -/
theorem scan_width_ok (candidates_p : List llama_token_data) :
    ∀ (n i : Nat), i + n ≤ candidates_p.length →
      ∃ m, scan_width candidates_p n i = .ok m ∧ m ≤ max (i + n) 2 := by
  intro n
  induction n with
  | zero => intro i _; exact ⟨2, rfl, le_max_right _ _⟩
  | succ n ih =>
    intro i hlen
    have hi : i < candidates_p.length := by omega
    rw [scan_width]
    simp only [List.getElem?_eq_getElem hi]
    split
    · split
      · exact ⟨i, rfl, by omega⟩
      · exact ⟨2, rfl, le_max_right _ _⟩
    · obtain ⟨m, hm, hle⟩ := ih (i + 1) (by omega)
      exact ⟨m, hm, by omega⟩

/-- The first loop of `recurse_beam_search` can only fault by reading past the end of
the candidate array. -/
theorem scan_width_fault (candidates_p : List llama_token_data) :
    ∀ (n i : Nat) (e : Fault), scan_width candidates_p n i = .error e → e = .out_of_bounds := by
  intro n
  induction n with
  | zero => intro i e h; simp [scan_width] at h
  | succ n ih =>
    intro i e h
    rw [scan_width] at h
    split at h
    · simp only [Except.error.injEq] at h
      exact h.symm
    · split at h
      · simp at h
      · exact ih _ _ h

/-- Popping a world whose stack top is `e` and whose newest live buffer is that of `e`:
the pop succeeds and does not move the high-water mark of the stack. -/
theorem pop_of_top_peak (api : LlamaApi Ctx) (w3 : World Ctx)
    (K : List state_stack_entry) (e : state_stack_entry) (buf : List Nat)
    (cells : List (Nat × List Nat))
    (hstack : w3.llama_state_stack = K ++ [e])
    (hcells : w3.heap.cells = (e.state_mem, buf) :: cells) :
    ∃ w4, llama_pop_state api w3 = .ok (w4, e.n_past) ∧
      w4.llama_state_stack = K ∧ w4.heap.cells = cells ∧ w4.stack_peak = w3.stack_peak := by
  have hread : w3.heap.read e.state_mem = some buf := by
    simp [Heap.read, hcells]
  refine ⟨_, pop_eq api w3 K e _ hstack hread, ?_⟩
  simp [Heap.free, hcells]

/-- The second loop of `recurse_beam_search`, when the recursive call restores the stack
and the live buffers: it can fault only as the recursive call does or by reading past
the candidate array, and it returns when there are enough candidates and the recursive
call returns. -/
theorem expand_candidates_returns (api : LlamaApi Ctx)
    (self : World Ctx → Int → ℚ → Int → String → Except Fault (World Ctx))
    (hself : ∀ w a b c d w1, self w a b c d = .ok w1 →
      w1.llama_state_stack = w.llama_state_stack ∧ w1.heap.cells = w.heap.cells)
    (candidates_p : List llama_token_data) (beam_width : Int) (prob_sum : ℚ)
    (current_depth max_depth : Int) (text : String) :
    ∀ (n i : Nat) (w : World Ctx) (n_past : Int),
      (((current_depth = max_depth ∨ beam_width = 1) ∨
          ∀ w a b d e, self w a b (current_depth + 1) d = .error e → e = .out_of_bounds) →
        ∀ e, expand_candidates api self candidates_p beam_width prob_sum current_depth
          max_depth text n i w n_past = .error e → e = .out_of_bounds) ∧
      (i + n ≤ candidates_p.length →
        ((current_depth = max_depth ∨ beam_width = 1) ∨
          ∀ w a b d, ∃ w1, self w a b (current_depth + 1) d = .ok w1) →
        ∃ r, expand_candidates api self candidates_p beam_width prob_sum current_depth
          max_depth text n i w n_past = .ok r) := by
  intro n
  induction n with
  | zero =>
    intro i w n_past
    exact ⟨fun _ e h => by simp [expand_candidates] at h,
      fun _ _ => ⟨(w, n_past), by simp [expand_candidates]⟩⟩
  | succ n ih =>
    intro i w n_past
    rw [expand_candidates]
    cases hc : candidates_p[i]? with
    | none =>
      refine ⟨fun _ e h => ?_, fun hlen _ => ?_⟩
      · simp only [Except.error.injEq] at h
        exact h.symm
      · have hi : i < candidates_p.length := by omega
        rw [List.getElem?_eq_getElem hi] at hc
        simp at hc
    | some c =>
      simp only []
      by_cases hleaf : current_depth = max_depth ∨ beam_width = 1
      · rw [if_pos hleaf]
        exact ⟨fun h1 e h => (ih _ _ _).1 h1 e h, fun hlen h2 => (ih _ _ _).2 (by omega) h2⟩
      · rw [if_neg hleaf]
        generalize hw2 : eval_token api (llama_push_state api w n_past) c.id n_past 1 = w2
        cases hs : self w2 (n_past + 1) (prob_sum + c.p) (current_depth + 1)
            (text ++ api.llama_token_to_str w.ctx c.id) with
        | error e1 =>
          refine ⟨fun h1 e h => ?_, fun _ h2 => ?_⟩
          · simp only [Except.error.injEq] at h
            subst h
            rcases h1 with h1 | h1
            · exact absurd h1 hleaf
            · exact h1 _ _ _ _ _ hs
          · rcases h2 with h2 | h2
            · exact absurd h2 hleaf
            · obtain ⟨w1, hw1⟩ := h2 w2 (n_past + 1) (prob_sum + c.p)
                (text ++ api.llama_token_to_str w.ctx c.id)
              rw [hs] at hw1
              simp at hw1
        | ok w3 =>
          simp only []
          obtain ⟨hst, hcells⟩ := hself _ _ _ _ _ _ hs
          have hst3 : w3.llama_state_stack = w.llama_state_stack ++
              [⟨w.heap.next, api.llama_get_state_size w.ctx, n_past, "", 0, 0⟩] := by
            rw [hst, ← hw2]; rfl
          have hcells3 : w3.heap.cells =
              (w.heap.next, api.llama_copy_state_data w.ctx) :: w.heap.cells := by
            rw [hcells, ← hw2]; rfl
          obtain ⟨w4, hpop, -⟩ :=
            pop_of_top_peak api w3 w.llama_state_stack _ _ w.heap.cells hst3 hcells3
          simp only [hpop]
          exact ⟨fun h1 e h => (ih _ _ _).1 h1 e h, fun hlen h2 => (ih _ _ _).2 (by omega) h2⟩

/-- `recurse_beam_search` with fuel for `max_depth - current_depth + 1` nested calls (or
for one call when `beam_width = 1`) does not run out of fuel, and returns when every
ranking has at least `max beam_width 2` candidates. -/
theorem recurse_beam_search_returns (api : LlamaApi Ctx) (beam_width max_depth : Int) :
    ∀ (fuel : Nat) (w : World Ctx) (n_past : Int) (prob_sum : ℚ) (current_depth : Int)
      (text : String),
      ((current_depth ≤ max_depth ∧ (max_depth - current_depth).toNat + 1 ≤ fuel) ∨
        (beam_width = 1 ∧ 1 ≤ fuel)) →
      (∀ e, recurse_beam_search api fuel w n_past beam_width prob_sum current_depth max_depth
        text = .error e → e = .out_of_bounds) ∧
      ((∀ c, 2 ≤ (ranked_candidates api c).length ∧
          beam_width.toNat ≤ (ranked_candidates api c).length) →
        ∃ w1, recurse_beam_search api fuel w n_past beam_width prob_sum current_depth
          max_depth text = .ok w1) := by
  intro fuel
  induction fuel with
  | zero =>
    intro w n_past prob_sum current_depth text hcond
    rcases hcond with ⟨-, h⟩ | ⟨-, h⟩ <;> omega
  | succ fuel ih =>
    intro w n_past prob_sum current_depth text hcond
    have hframe : ∀ w a b c d w1,
        (fun w1 n_past1 prob_sum1 depth1 text1 =>
          recurse_beam_search api fuel w1 n_past1 beam_width prob_sum1 depth1 max_depth text1)
          w a b c d = .ok w1 →
        w1.llama_state_stack = w.llama_state_stack ∧ w1.heap.cells = w.heap.cells := by
      intro w a b c d w1 h
      obtain ⟨h1, h2, -⟩ := recurse_beam_search_evals api fuel w a beam_width b c max_depth d w1 h
      exact ⟨h1, h2⟩
    have hchild : ¬ (current_depth = max_depth ∨ beam_width = 1) →
        (current_depth + 1 ≤ max_depth ∧ (max_depth - (current_depth + 1)).toNat + 1 ≤ fuel) := by
      intro hnl
      rcases hcond with ⟨h1, h2⟩ | ⟨h1, -⟩
      · have : current_depth ≠ max_depth := fun h => hnl (Or.inl h)
        omega
      · exact absurd (Or.inr h1) hnl
    rw [recurse_beam_search]
    constructor
    · intro e h
      cases hsc : scan_width (ranked_candidates api w.ctx) beam_width.toNat 0 with
      | error e1 =>
        simp only [hsc, Except.error.injEq] at h
        subst h
        exact scan_width_fault _ _ _ _ hsc
      | ok max_width =>
        simp only [hsc] at h
        split at h
        · rename_i e1 hex
          simp only [Except.error.injEq] at h
          subst h
          refine (expand_candidates_returns api _ hframe _ _ _ _ _ _ _ _ _ _).1 ?_ _ hex
          by_cases hleaf : current_depth = max_depth ∨ beam_width = 1
          · exact Or.inl hleaf
          · right
            intro w a b d e2 he2
            exact (ih w a b (current_depth + 1) d (Or.inl (hchild hleaf))).1 e2 he2
        · simp at h
    · intro hvocab
      obtain ⟨hv2, hvb⟩ := hvocab w.ctx
      obtain ⟨m, hm, hle⟩ := scan_width_ok (ranked_candidates api w.ctx) beam_width.toNat 0
        (by omega)
      simp only [hm]
      obtain ⟨r, hr⟩ := (expand_candidates_returns api _ hframe (ranked_candidates api w.ctx)
        beam_width prob_sum current_depth max_depth text m 0 w n_past).2
        (by rw [Nat.zero_add] at hle ⊢; omega)
        (by
          by_cases hleaf : current_depth = max_depth ∨ beam_width = 1
          · exact Or.inl hleaf
          · right
            intro w a b d
            exact (ih w a b (current_depth + 1) d (Or.inl (hchild hleaf))).2 hvocab)
      rw [hr]
      exact ⟨r.1, rfl⟩

end InteractiveBeam

namespace InteractiveBeam

variable {Ctx : Type}

/-- C14, counterexample. With `beam_width = 1`, `current_depth = 2` and `max_depth = 0`
the call returns after one call of the function, while the claimed bound
`max_depth - current_depth + 1` is negative: no recursion depth fits it. -/
theorem recursion_deeper_than_claimed :
    (0 : Int) - 2 + 1 < 0 ∧
    recurse_beam_search peaked_api ((0 : Int) - 2 + 1).toNat peaked_start 5 1 0 2 0 ""
      = .error .out_of_fuel ∧
    recurse_beam_search peaked_api 1 peaked_start 5 1 0 2 0 ""
      = .ok ⟨[], ⟨0, []⟩, [], [], [⟨"a", 9 / 10, 2⟩, ⟨"b", 5 / 100, 2⟩], [], 0⟩ := by
  refine ⟨by decide, by decide!, by decide!⟩

/-- C14, amended. Depth-first termination, for every model, `beam_width`, start world and
accumulated values. When `current_depth ≤ max_depth`, fuel for
`max_depth - current_depth + 1` nested calls is enough, and when `beam_width = 1` fuel
for one call is enough: the call does not run out of fuel (it can stop early only by
reading past the end of the candidate array), and it returns when every ranking has at
least `max beam_width 2` candidates. -/
theorem depth_first_terminates (api : LlamaApi Ctx) (fuel : Nat) (w : World Ctx)
    (n_past beam_width : Int) (prob_sum : ℚ) (current_depth max_depth : Int) (text : String)
    (hcond : (current_depth ≤ max_depth ∧ (max_depth - current_depth).toNat + 1 ≤ fuel) ∨
      (beam_width = 1 ∧ 1 ≤ fuel)) :
    recurse_beam_search api fuel w n_past beam_width prob_sum current_depth max_depth text
      ≠ .error .out_of_fuel ∧
    ((∀ c, 2 ≤ (ranked_candidates api c).length ∧
        beam_width.toNat ≤ (ranked_candidates api c).length) →
      ∃ w1, recurse_beam_search api fuel w n_past beam_width prob_sum current_depth max_depth
        text = .ok w1) := by
  obtain ⟨h1, h2⟩ := recurse_beam_search_returns api beam_width max_depth fuel w n_past
    prob_sum current_depth text hcond
  refine ⟨?_, h2⟩
  intro h
  have := h1 _ h
  simp at this

/-- Witness of C14: a two-level run of the dominant-token model. -/
theorem depth_first_terminates_witness :
    (((0 : Int) ≤ 1 ∧ ((1 : Int) - 0).toNat + 1 ≤ 2) ∨ ((3 : Int) = 1 ∧ 1 ≤ 2)) ∧
    (recurse_beam_search peaked_api 2 peaked_start 5 3 0 0 1 "" ≠ .error .out_of_fuel ∧
    ((∀ c, 2 ≤ (ranked_candidates peaked_api c).length ∧
        (3 : Int).toNat ≤ (ranked_candidates peaked_api c).length) →
      ∃ w1, recurse_beam_search peaked_api 2 peaked_start 5 3 0 0 1 "" = .ok w1)) :=
  ⟨Or.inl ⟨by decide, by decide⟩,
   depth_first_terminates peaked_api 2 peaked_start 5 3 0 0 1 ""
     (Or.inl ⟨by decide, by decide⟩)⟩

/-- The high-water mark of the stack through the second loop of `recurse_beam_search`,
when the recursive call restores the stack and the live buffers and keeps the mark
within `limit`. -/
theorem expand_candidates_peak (api : LlamaApi Ctx)
    (self : World Ctx → Int → ℚ → Int → String → Except Fault (World Ctx))
    (limit : Nat)
    (hself : ∀ w a b c d w1, self w a b c d = .ok w1 →
      w1.llama_state_stack = w.llama_state_stack ∧ w1.heap.cells = w.heap.cells)
    (candidates_p : List llama_token_data) (beam_width : Int) (prob_sum : ℚ)
    (current_depth max_depth : Int) (text : String)
    (stack : List state_stack_entry)
    (hpeak : ¬ (current_depth = max_depth ∨ beam_width = 1) →
      stack.length + 1 ≤ limit ∧
      ∀ w a b d w1, w.llama_state_stack.length = stack.length + 1 → w.stack_peak ≤ limit →
        self w a b (current_depth + 1) d = .ok w1 → w1.stack_peak ≤ limit) :
    ∀ (n i : Nat) (w : World Ctx) (n_past : Int) (w1 : World Ctx) (n_past1 : Int),
      w.llama_state_stack = stack → w.stack_peak ≤ limit →
      expand_candidates api self candidates_p beam_width prob_sum current_depth max_depth text
        n i w n_past = .ok (w1, n_past1) → w1.stack_peak ≤ limit := by
  intro n
  induction n with
  | zero =>
    intro i w n_past w1 n_past1 _ hp h
    simp only [expand_candidates, Except.ok.injEq, Prod.mk.injEq] at h
    obtain ⟨rfl, -⟩ := h
    exact hp
  | succ n ih =>
    intro i w n_past w1 n_past1 hst hp h
    rw [expand_candidates] at h
    cases hc : candidates_p[i]? with
    | none => simp [hc] at h
    | some c =>
      simp only [hc] at h
      by_cases hleaf : current_depth = max_depth ∨ beam_width = 1
      · rw [if_pos hleaf] at h
        exact ih _ { w with beam_results := w.beam_results ++
          [⟨text ++ api.llama_token_to_str w.ctx c.id, prob_sum + c.p, current_depth⟩] }
          _ _ _ hst hp h
      · rw [if_neg hleaf] at h
        obtain ⟨hlim, hchild⟩ := hpeak hleaf
        generalize hw2 : eval_token api (llama_push_state api w n_past) c.id n_past 1 = w2 at h
        have hw2s : w2.llama_state_stack = w.llama_state_stack ++
            [⟨w.heap.next, api.llama_get_state_size w.ctx, n_past, "", 0, 0⟩] := by
          rw [← hw2]; rfl
        have hw2p : w2.stack_peak = max w.stack_peak (w.llama_state_stack.length + 1) := by
          rw [← hw2]; rfl
        cases hs : self w2 (n_past + 1) (prob_sum + c.p) (current_depth + 1)
            (text ++ api.llama_token_to_str w.ctx c.id) with
        | error e => simp [hs] at h
        | ok w3 =>
          simp only [hs] at h
          obtain ⟨hst3, hcells⟩ := hself _ _ _ _ _ _ hs
          have hcells3 : w3.heap.cells =
              (w.heap.next, api.llama_copy_state_data w.ctx) :: w.heap.cells := by
            rw [hcells, ← hw2]; rfl
          have hp3 : w3.stack_peak ≤ limit := by
            refine hchild w2 _ _ _ w3 ?_ ?_ hs
            · rw [hw2s, List.length_append, hst]; rfl
            · rw [hw2p, hst]; exact max_le hp hlim
          obtain ⟨w4, hpop, h4s, -, h4p⟩ :=
            pop_of_top_peak api w3 w.llama_state_stack _ _ w.heap.cells
              (by rw [hst3, hw2s]) hcells3
          simp only [hpop] at h
          exact ih _ _ _ _ _ (by rw [h4s, hst]) (by rw [h4p]; exact hp3) h

/-- A returning call of `recurse_beam_search` at a depth within `max_depth` never lets
the stack grow beyond its size at entry plus `max_depth - current_depth`. -/
theorem recurse_beam_search_peak (api : LlamaApi Ctx) (beam_width max_depth : Int)
    (limit : Nat) :
    ∀ (fuel : Nat) (w : World Ctx) (n_past : Int) (prob_sum : ℚ) (current_depth : Int)
      (text : String) (w1 : World Ctx),
      current_depth ≤ max_depth →
      w.llama_state_stack.length + (max_depth - current_depth).toNat ≤ limit →
      w.stack_peak ≤ limit →
      recurse_beam_search api fuel w n_past beam_width prob_sum current_depth max_depth text
        = .ok w1 → w1.stack_peak ≤ limit := by
  intro fuel
  induction fuel with
  | zero =>
    intro w n_past prob_sum current_depth text w1 _ _ _ h
    simp [recurse_beam_search] at h
  | succ fuel ih =>
    intro w n_past prob_sum current_depth text w1 hcd hlim hp h
    rw [recurse_beam_search] at h
    cases hsc : scan_width (ranked_candidates api w.ctx) beam_width.toNat 0 with
    | error e => simp [hsc] at h
    | ok max_width =>
      simp only [hsc] at h
      split at h
      · simp at h
      · rename_i w2 np2 hex
        simp only [Except.ok.injEq] at h
        subst h
        refine expand_candidates_peak api _ limit ?_ _ _ _ _ _ _ w.llama_state_stack ?_
          _ _ _ _ _ _ rfl hp hex
        · intro w a b c d w1 hh
          obtain ⟨h1, h2, -⟩ :=
            recurse_beam_search_evals api fuel w a beam_width b c max_depth d w1 hh
          exact ⟨h1, h2⟩
        · intro hnl
          have hne : current_depth ≠ max_depth := fun h => hnl (Or.inl h)
          refine ⟨by omega, ?_⟩
          intro w' a b d w1' hlen hp' hh
          exact ih w' a b (current_depth + 1) d w1' (by omega) (by omega) hp' hh

/-- C15. Depth-first snapshot stack bound: when `recurse_beam_search` is started at
`current_depth = 0` with an empty snapshot stack (high-water mark 0) and
`max_depth ≥ 0`, and returns, the largest size the snapshot stack has had at any
instant of the search is at most `max_depth`. -/
theorem snapshot_stack_bound (api : LlamaApi Ctx) (fuel : Nat) (w : World Ctx)
    (n_past beam_width : Int) (prob_sum : ℚ) (max_depth : Int) (text : String)
    (w1 : World Ctx) (hmd : 0 ≤ max_depth) (hstack : w.llama_state_stack = [])
    (hpeak : w.stack_peak = 0)
    (hrun : recurse_beam_search api fuel w n_past beam_width prob_sum 0 max_depth text
      = .ok w1) :
    (w1.stack_peak : Int) ≤ max_depth ∧ w1.llama_state_stack = [] := by
  have h := recurse_beam_search_peak api beam_width max_depth max_depth.toNat fuel w n_past
    prob_sum 0 text w1 hmd (by rw [hstack]; simp) (by omega) hrun
  obtain ⟨hs, -⟩ := recurse_beam_search_evals api fuel w n_past beam_width prob_sum 0
    max_depth text w1 hrun
  exact ⟨by omega, by rw [hs, hstack]⟩

/-- Witness of C15: the two-level run of the dominant-token model with `max_depth = 1`. -/
theorem snapshot_stack_bound_witness :
    (0 : Int) ≤ 1 ∧ peaked_start.llama_state_stack = [] ∧ peaked_start.stack_peak = 0 ∧
    recurse_beam_search peaked_api 2 peaked_start 5 3 0 0 1 "" = .ok peaked_run_result ∧
    ((peaked_run_result.stack_peak : Int) ≤ 1 ∧ peaked_run_result.llama_state_stack = []) :=
  ⟨by decide, rfl, rfl, by decide!,
   snapshot_stack_bound peaked_api 2 peaked_start 5 3 0 1 "" peaked_run_result (by decide)
     rfl rfl (by decide!)⟩

end InteractiveBeam

namespace InteractiveBeam

variable {Ctx : Type}

theorem follow_path_append (api : LlamaApi Ctx) (n_threads : Int) (i : Nat) :
    ∀ (path : List Nat) (c : Ctx) (n : Int) (t : String) (p : ℚ),
      follow_path api n_threads c n t p (path ++ [i]) =
        match follow_path api n_threads c n t p path with
        | none => none
        | some (c1, n1, t1, p1) => follow_path api n_threads c1 n1 t1 p1 [i] := by
  intro path
  induction path with
  | nil => intro c n t p; rfl
  | cons j rest ih =>
    intro c n t p
    simp only [List.cons_append, follow_path]
    cases (ranked_candidates api c)[j]? with
    | none => rfl
    | some d => exact ih _ _ _ _

/-- One more choice at the end of a path. -/
theorem follow_path_step (api : LlamaApi Ctx) (n_threads : Int) (c0 : Ctx) (n0 : Int)
    (t0 : String) (p0 : ℚ) (path : List Nat) (st : Ctx) (n : Int) (t : String) (p : ℚ)
    (i : Nat) (d : llama_token_data)
    (hpath : follow_path api n_threads c0 n0 t0 p0 path = some (st, n, t, p))
    (hd : (ranked_candidates api st)[i]? = some d) :
    follow_path api n_threads c0 n0 t0 p0 (path ++ [i]) =
      some ((api.llama_eval st [d.id] n n_threads).1, n + 1,
        t ++ api.llama_token_to_str st d.id, p + d.p) := by
  rw [follow_path_append, hpath]
  simp only [follow_path, hd]

/-- The candidate loop of one frame keeps the queue and the results on paths from the
start, when the frame itself is on the path `path` and the model is in the state
reached along that path. -/
theorem iterate_candidates_paths (api : LlamaApi Ctx) (hrt : api.RoundTrip)
    (c0 : Ctx) (n0 : Int) (t0 : String) (base : List beam_result)
    (max_depth : Int) (p_threshold : ℚ) (text : String) (depth : Int) (prob_sum : ℚ)
    (path : List Nat) (st : Ctx) (n_past : Int)
    (hpath : follow_path api 12 c0 n0 t0 0 path = some (st, n_past, text, prob_sum)) :
    ∀ (n i : Nat) (w : World Ctx) (is_leaf : Bool) (w1 : World Ctx) (n_past1 : Int)
      (is_leaf1 : Bool),
      w.ctx = st → QueueLive w → QueueOnPath api c0 n0 t0 w →
      (∃ recorded, w.beam_results = base ++ recorded ∧
        ∀ r ∈ recorded, OnPath api 12 c0 n0 t0 0 r.text r.prob_sum) →
      iterate_candidates api (ranked_candidates api st) max_depth p_threshold text depth
        prob_sum n i w n_past is_leaf = .ok (w1, n_past1, is_leaf1) →
      QueueLive w1 ∧ QueueOnPath api c0 n0 t0 w1 ∧
      ∃ recorded, w1.beam_results = base ++ recorded ∧
        ∀ r ∈ recorded, OnPath api 12 c0 n0 t0 0 r.text r.prob_sum := by
  intro n
  induction n with
  | zero =>
    intro i w is_leaf w1 n_past1 is_leaf1 _ hl hqp hres h
    simp only [iterate_candidates, Except.ok.injEq, Prod.mk.injEq] at h
    obtain ⟨rfl, -, -⟩ := h
    exact ⟨hl, hqp, hres⟩
  | succ n ih =>
    intro i w is_leaf w1 n_past1 is_leaf1 hctx hl hqp hres h
    cases hc : (ranked_candidates api st)[i]? with
    | none => rw [iterate_candidates] at h; simp [hc] at h
    | some c =>
      rw [iterate_candidates_succ api _ _ _ _ _ _ _ _ _ _ _ c hc] at h
      have hstep := follow_path_step api 12 c0 n0 t0 0 path st n_past text prob_sum i c
        hpath hc
      split at h
      · simp only [Except.ok.injEq, Prod.mk.injEq] at h
        obtain ⟨rfl, -, -⟩ := h
        exact ⟨hl, hqp, hres⟩
      · split at h
        · refine ih (i + 1) { w with beam_results := w.beam_results ++
              [⟨text ++ api.llama_token_to_str w.ctx c.id, prob_sum + c.p, depth⟩] }
            false w1 n_past1 is_leaf1 hctx hl hqp ?_ h
          obtain ⟨recorded, hrec, hall⟩ := hres
          refine ⟨recorded ++ [⟨text ++ api.llama_token_to_str w.ctx c.id, prob_sum + c.p,
            depth⟩], by simp [hrec], ?_⟩
          intro r hr
          rcases List.mem_append.1 hr with hr | hr
          · exact hall r hr
          · simp only [List.mem_singleton] at hr
            subst hr
            exact ⟨path ++ [i], _, _, by rw [hstep, hctx]⟩
        · have hread : ∀ a, a < w.heap.next →
              (enqueue_child api w c.id n_past (text ++ api.llama_token_to_str w.ctx c.id)
                (depth + 1) (prob_sum + c.p)).heap.read a = w.heap.read a := by
            intro a ha
            exact heap_read_cons_ne w.heap.next _ _ a _ _ (by omega)
          have hlive1 := (iterate_candidates_live api (ranked_candidates api st) max_depth
            p_threshold text depth prob_sum 1 i w n_past is_leaf _ _ _
            (by
              rw [iterate_candidates_succ api _ _ _ _ _ _ _ _ _ _ _ c hc,
                if_neg (by assumption), if_neg (by assumption)]
              rfl)).2.2 hl
          refine ih (i + 1) (enqueue_child api w c.id n_past
            (text ++ api.llama_token_to_str w.ctx c.id) (depth + 1) (prob_sum + c.p))
            false w1 n_past1 is_leaf1 ?_ hlive1 ?_ hres h
          · simp only [enqueue_child]
            rw [hrt]; exact hctx
          · intro e he
            simp only [enqueue_child, List.mem_append, List.mem_singleton] at he
            rcases he with he | rfl
            · obtain ⟨pe, ste, hre, hpe⟩ := hqp e he
              refine ⟨pe, ste, ?_, hpe⟩
              rw [hread e.state_mem (hl.2 e he).1]; exact hre
            · refine ⟨path ++ [i], (api.llama_eval w.ctx [c.id] n_past 12).1, ?_, ?_⟩
              · simp [enqueue_child, Heap.read]
              · rw [hstep, hctx]

theorem iterate_trim_heap (beam_width : Int) (s : IterState Ctx) :
    (iterate_trim beam_width s).heap = s.w.heap := by
  unfold iterate_trim
  split
  · exact queue_trim_heap _ _
  · rfl

/-- Dequeuing the front frame of a queue whose frames are on paths puts the model in the
state reached along the path of that frame. -/
theorem dequeue_paths (api : LlamaApi Ctx) (hrt : api.RoundTrip) (c0 : Ctx) (n0 : Int)
    (t0 : String) (w0 : World Ctx) (e : state_stack_entry) (rest : List state_stack_entry)
    (hl : QueueLive w0) (hqp : QueueOnPath api c0 n0 t0 w0)
    (hq : w0.llama_state_queue = e :: rest) :
    ∃ path st w1,
      follow_path api 12 c0 n0 t0 0 path = some (st, e.n_past, e.text, e.prob_sum) ∧
      llama_dequeue_state api w0 = .ok (w1, e.n_past, e.text, e.depth, e.prob_sum) ∧
      w1.ctx = st ∧ w1.beam_results = w0.beam_results ∧
      QueueLive w1 ∧ QueueOnPath api c0 n0 t0 w1 := by
  obtain ⟨path, st, hread, hpath⟩ := hqp e (by rw [hq]; exact List.mem_cons_self _ _)
  obtain ⟨hpw, hall⟩ := hl
  rw [hq] at hpw hall
  rw [List.pairwise_cons] at hpw
  refine ⟨path, st, { w0 with
      ctx := api.llama_set_state_data w0.ctx (api.llama_copy_state_data st)
      llama_state_queue := rest
      heap := w0.heap.free e.state_mem }, hpath, ?_, hrt _ _, rfl, ⟨hpw.2, ?_⟩, ?_⟩
  · simp only [llama_dequeue_state, hq, hread]
  · intro r hr
    obtain ⟨hlt, hrs⟩ := hall r (List.mem_cons_of_mem _ hr)
    refine ⟨hlt, ?_⟩
    show ((w0.heap.free e.state_mem).read r.state_mem).isSome = true
    rw [heap_read_free_ne _ _ _ (hpw.1 r hr)]
    exact hrs
  · intro r hr
    obtain ⟨pr, sr, hrr, hpr⟩ := hqp r (by rw [hq]; exact List.mem_cons_of_mem _ hr)
    refine ⟨pr, sr, ?_, hpr⟩
    show (w0.heap.free e.state_mem).read r.state_mem = _
    rw [heap_read_free_ne _ _ _ (hpw.1 r hr)]
    exact hrr

/-- One pass of the `while` body keeps the queue and the results on paths from the
start. -/
theorem iterate_frame_paths (api : LlamaApi Ctx) (hrt : api.RoundTrip) (c0 : Ctx) (n0 : Int)
    (t0 : String) (base : List beam_result) (beam_width max_depth : Int) (p_threshold : ℚ)
    (s s1 : IterState Ctx) (hl : QueueLive s.w) (hqp : QueueOnPath api c0 n0 t0 s.w)
    (hres : ∃ recorded, s.w.beam_results = base ++ recorded ∧
      ∀ r ∈ recorded, OnPath api 12 c0 n0 t0 0 r.text r.prob_sum)
    (h : iterate_frame api beam_width max_depth p_threshold s = .ok s1) :
    QueueLive s1.w ∧ QueueOnPath api c0 n0 t0 s1.w ∧
    ∃ recorded, s1.w.beam_results = base ++ recorded ∧
      ∀ r ∈ recorded, OnPath api 12 c0 n0 t0 0 r.text r.prob_sum := by
  obtain ⟨e, rest, -, -, hq0, -⟩ :=
    iterate_frame_shape api beam_width max_depth p_threshold s s1 h
  have hlt : QueueLive (iterate_trim beam_width s) := iterate_trim_live beam_width s hl
  have hqpt : QueueOnPath api c0 n0 t0 (iterate_trim beam_width s) := by
    intro f hf
    rw [iterate_trim_heap]
    exact hqp f (iterate_trim_mem _ _ _ hf)
  obtain ⟨path, st, w1, hpath, hdq, hctx, hr1, hl1, hqp1⟩ :=
    dequeue_paths api hrt c0 n0 t0 _ e rest hlt hqpt hq0
  have hres1 : ∃ recorded, w1.beam_results = base ++ recorded ∧
      ∀ r ∈ recorded, OnPath api 12 c0 n0 t0 0 r.text r.prob_sum := by
    rw [hr1, iterate_trim_results]; exact hres
  simp only [iterate_frame, hdq] at h
  rw [hctx] at h
  split at h
  · simp at h
  · rename_i w2 n_past1 is_leaf hcand
    obtain ⟨hl2, hqp2, recorded, hrec, hall⟩ := iterate_candidates_paths api hrt c0 n0 t0 base
      max_depth p_threshold e.text e.depth e.prob_sum path st e.n_past hpath _ _ _ _ _ _ _
      hctx hl1 hqp1 hres1 hcand
    simp only [Except.ok.injEq] at h
    subst h
    cases is_leaf
    · simp only [Bool.false_eq_true, if_false]
      exact ⟨hl2, hqp2, recorded, hrec, hall⟩
    · simp only [if_true]
      refine ⟨hl2, hqp2, recorded ++ [⟨e.text, e.prob_sum, e.depth⟩], by simp [hrec], ?_⟩
      intro r hr
      rcases List.mem_append.1 hr with hr | hr
      · exact hall r hr
      · simp only [List.mem_singleton] at hr
        subst hr
        exact ⟨path, st, e.n_past, hpath⟩

theorem iterate_loop_paths (api : LlamaApi Ctx) (hrt : api.RoundTrip) (c0 : Ctx) (n0 : Int)
    (t0 : String) (base : List beam_result) (beam_width max_depth : Int) (p_threshold : ℚ) :
    ∀ (fuel : Nat) (s s1 : IterState Ctx),
      QueueLive s.w → QueueOnPath api c0 n0 t0 s.w →
      (∃ recorded, s.w.beam_results = base ++ recorded ∧
        ∀ r ∈ recorded, OnPath api 12 c0 n0 t0 0 r.text r.prob_sum) →
      iterate_loop api beam_width max_depth p_threshold fuel s = .ok s1 →
      ∃ recorded, s1.w.beam_results = base ++ recorded ∧
        ∀ r ∈ recorded, OnPath api 12 c0 n0 t0 0 r.text r.prob_sum := by
  intro fuel
  induction fuel with
  | zero =>
    intro s s1 _ _ hres h
    unfold iterate_loop at h
    split at h
    · simp only [Except.ok.injEq] at h; subst h; exact hres
    · simp at h
  | succ fuel ih =>
    intro s s1 hl hqp hres h
    unfold iterate_loop at h
    split at h
    · simp only [Except.ok.injEq] at h; subst h; exact hres
    · dsimp only at h
      split at h
      · simp at h
      · rename_i s2 hstep
        obtain ⟨hl2, hqp2, hres2⟩ := iterate_frame_paths api hrt c0 n0 t0 base beam_width
          max_depth p_threshold s s2 hl hqp hres hstep
        exact ih s2 s1 hl2 hqp2 hres2 h

/-- The results of a breadth-first search started with an empty queue lie on paths from
the start state, position and text, with start `prob_sum` 0. -/
theorem iterate_beam_search_paths (api : LlamaApi Ctx) (hrt : api.RoundTrip) (fuel : Nat)
    (w : World Ctx) (n_past beam_width max_depth : Int) (text : String) (p_threshold : ℚ)
    (w1 : World Ctx) (hq : w.llama_state_queue = [])
    (hrun : iterate_beam_search api fuel w n_past beam_width max_depth text p_threshold
      = .ok w1) :
    ∃ recorded, w1.beam_results = w.beam_results ++ recorded ∧
      ∀ r ∈ recorded, OnPath api 12 w.ctx n_past text 0 r.text r.prob_sum := by
  unfold iterate_beam_search at hrun
  split at hrun
  · simp at hrun
  · rename_i s hloop
    simp only [Except.ok.injEq] at hrun
    subst hrun
    have hinit : (iterate_init api w n_past text).w.llama_state_queue
        = [⟨w.heap.next, api.llama_get_state_size w.ctx, n_past, text, 1, 0⟩] := by
      simp [iterate_init, llama_queue_state, hq]
    refine iterate_loop_paths api hrt w.ctx n_past text w.beam_results beam_width max_depth
      p_threshold fuel (iterate_init api w n_past text) s ?_ ?_ ?_ hloop
    · refine ⟨by rw [hinit]; exact List.pairwise_singleton _ _, ?_⟩
      intro e he
      rw [hinit, List.mem_singleton] at he
      subst he
      simp [iterate_init, llama_queue_state, Heap.read, Heap.alloc]
    · intro e he
      rw [hinit, List.mem_singleton] at he
      subst he
      refine ⟨[], w.ctx, ?_, rfl⟩
      simp [iterate_init, llama_queue_state, Heap.read, Heap.alloc]
    · exact ⟨[], by simp [iterate_init, llama_queue_state], by simp⟩

/-- The second loop of `recurse_beam_search` restores the frame after every candidate and
records only results that lie on non-empty paths from the frame, when the recursive call
does so. -/
theorem expand_candidates_paths (api : LlamaApi Ctx) (hrt : api.RoundTrip)
    (self : World Ctx → Int → ℚ → Int → String → Except Fault (World Ctx))
    (hself : ∀ w a b c d w1, self w a b c d = .ok w1 →
      SameFrame w w1 ∧ ∃ recorded, w1.beam_results = w.beam_results ++ recorded ∧
        ∀ r ∈ recorded, ∃ path st n, path ≠ [] ∧
          follow_path api 1 w.ctx a d b path = some (st, n, r.text, r.prob_sum))
    (c0 : Ctx) (beam_width : Int) (prob_sum : ℚ) (current_depth max_depth : Int)
    (text : String) :
    ∀ (n i : Nat) (w : World Ctx) (n_past : Int) (w1 : World Ctx) (n_past1 : Int),
      w.ctx = c0 →
      expand_candidates api self (ranked_candidates api c0) beam_width prob_sum current_depth
        max_depth text n i w n_past = .ok (w1, n_past1) →
      SameFrame w w1 ∧ n_past1 = n_past ∧
      ∃ recorded, w1.beam_results = w.beam_results ++ recorded ∧
        ∀ r ∈ recorded, ∃ path st m, path ≠ [] ∧
          follow_path api 1 c0 n_past text prob_sum path = some (st, m, r.text, r.prob_sum) := by
  intro n
  induction n with
  | zero =>
    intro i w n_past w1 n_past1 _ h
    simp only [expand_candidates, Except.ok.injEq, Prod.mk.injEq] at h
    obtain ⟨rfl, rfl⟩ := h
    exact ⟨⟨rfl, rfl, rfl⟩, rfl, [], by simp, by simp⟩
  | succ n ih =>
    intro i w n_past w1 n_past1 hctx h
    rw [expand_candidates] at h
    cases hc : (ranked_candidates api c0)[i]? with
    | none => simp [hc] at h
    | some c =>
      simp only [hc] at h
      have hone : ∀ rest : List Nat, follow_path api 1 c0 n_past text prob_sum (i :: rest)
          = follow_path api 1 (api.llama_eval c0 [c.id] n_past 1).1 (n_past + 1)
              (text ++ api.llama_token_to_str c0 c.id) (prob_sum + c.p) rest := by
        intro rest
        simp only [follow_path, hc]
      by_cases hleaf : current_depth = max_depth ∨ beam_width = 1
      · rw [if_pos hleaf] at h
        obtain ⟨⟨hc1, hs1, hh1⟩, hn, recorded, hrec, hall⟩ :=
          ih (i + 1) { w with beam_results := w.beam_results ++
            [⟨text ++ api.llama_token_to_str w.ctx c.id, prob_sum + c.p, current_depth⟩] }
            n_past w1 n_past1 hctx h
        refine ⟨⟨hc1, hs1, hh1⟩, hn,
          ⟨text ++ api.llama_token_to_str w.ctx c.id, prob_sum + c.p, current_depth⟩ ::
            recorded, by rw [hrec]; simp, ?_⟩
        intro r hr
        rcases List.mem_cons.1 hr with rfl | hr
        · exact ⟨[i], _, _, by simp, by rw [hone, hctx]; rfl⟩
        · exact hall r hr
      · rw [if_neg hleaf] at h
        generalize hw2 : eval_token api (llama_push_state api w n_past) c.id n_past 1 = w2 at h
        have hw2c : w2.ctx = (api.llama_eval c0 [c.id] n_past 1).1 := by
          rw [← hw2, ← hctx]; rfl
        have hw2r : w2.beam_results = w.beam_results := by rw [← hw2]; rfl
        cases hs : self w2 (n_past + 1) (prob_sum + c.p) (current_depth + 1)
            (text ++ api.llama_token_to_str w.ctx c.id) with
        | error e => simp [hs] at h
        | ok w3 =>
          simp only [hs] at h
          obtain ⟨⟨-, hst, hcells⟩, rec3, hrec3, hall3⟩ := hself _ _ _ _ _ _ hs
          have hst3 : w3.llama_state_stack = w.llama_state_stack ++
              [⟨w.heap.next, api.llama_get_state_size w.ctx, n_past, "", 0, 0⟩] := by
            rw [hst, ← hw2]; rfl
          have hcells3 : w3.heap.cells =
              (w.heap.next, api.llama_copy_state_data w.ctx) :: w.heap.cells := by
            rw [hcells, ← hw2]; rfl
          obtain ⟨w4, hpop, h4c, h4s, h4h, -, -, h4r, -⟩ :=
            pop_of_top api hrt w3 w.llama_state_stack _ w.ctx w.heap.cells hst3 hcells3
          simp only [hpop] at h
          obtain ⟨⟨hc1, hs1, hh1⟩, hn, recorded, hrec, hall⟩ :=
            ih (i + 1) w4 n_past w1 n_past1 (by rw [h4c, hctx]) h
          refine ⟨⟨hc1.trans h4c, hs1.trans h4s, hh1.trans h4h⟩, hn, rec3 ++ recorded,
            by rw [hrec, h4r, hrec3, hw2r, List.append_assoc], ?_⟩
          intro r hr
          rcases List.mem_append.1 hr with hr | hr
          · obtain ⟨path, st, m, -, hp⟩ := hall3 r hr
            refine ⟨i :: path, st, m, by simp, ?_⟩
            rw [hone, ← hw2c, ← hctx]
            exact hp
          · exact hall r hr

theorem recurse_beam_search_paths (api : LlamaApi Ctx) (hrt : api.RoundTrip) :
    ∀ (fuel : Nat) (w : World Ctx) (n_past beam_width : Int) (prob_sum : ℚ)
      (current_depth max_depth : Int) (text : String) (w1 : World Ctx),
      recurse_beam_search api fuel w n_past beam_width prob_sum current_depth max_depth text
        = .ok w1 →
      SameFrame w w1 ∧ ∃ recorded, w1.beam_results = w.beam_results ++ recorded ∧
        ∀ r ∈ recorded, ∃ path st m, path ≠ [] ∧
          follow_path api 1 w.ctx n_past text prob_sum path
            = some (st, m, r.text, r.prob_sum) := by
  intro fuel
  induction fuel with
  | zero => intro w n_past beam_width prob_sum current_depth max_depth text w1 h
            simp [recurse_beam_search] at h
  | succ fuel ih =>
    intro w n_past beam_width prob_sum current_depth max_depth text w1 h
    rw [recurse_beam_search] at h
    cases hsc : scan_width (ranked_candidates api w.ctx) beam_width.toNat 0 with
    | error e => simp [hsc] at h
    | ok max_width =>
      simp only [hsc] at h
      split at h
      · simp at h
      · rename_i w2 np2 hex
        simp only [Except.ok.injEq] at h
        subst h
        obtain ⟨hf, -, hres⟩ := expand_candidates_paths api hrt _
          (fun w a b c d w1 hh => ih w a beam_width b c max_depth d w1 hh)
          w.ctx beam_width prob_sum current_depth max_depth text max_width 0 w n_past _ _
          rfl hex
        exact ⟨hf, hres⟩

/-- C11. Path consistency of the results of interactive-beam.cpp. Every result recorded
by a returning `recurse_beam_search` (and, started with an empty queue, by a returning
`iterate_beam_search`) has the text and the `prob_sum` that `follow_path` reaches from
the start state, position, text and `prob_sum` along some sequence of candidate choices:
the start text followed by the detokenized chosen candidates in order, and the start
`prob_sum` (0 for the breadth-first search) plus the probabilities of exactly those
candidates, each ranked in the state reached by stepping the start state through the
preceding tokens. -/
theorem path_consistency (api : LlamaApi Ctx) (hrt : api.RoundTrip) :
    (∀ (fuel : Nat) (w : World Ctx) (n_past beam_width : Int) (prob_sum : ℚ)
      (current_depth max_depth : Int) (text : String) (w1 : World Ctx),
      recurse_beam_search api fuel w n_past beam_width prob_sum current_depth max_depth text
        = .ok w1 →
      ∃ recorded, w1.beam_results = w.beam_results ++ recorded ∧
        ∀ r ∈ recorded, ∃ path st m, path ≠ [] ∧
          follow_path api 1 w.ctx n_past text prob_sum path
            = some (st, m, r.text, r.prob_sum)) ∧
    (∀ (fuel : Nat) (w : World Ctx) (n_past beam_width max_depth : Int) (text : String)
      (p_threshold : ℚ) (w1 : World Ctx),
      w.llama_state_queue = [] →
      iterate_beam_search api fuel w n_past beam_width max_depth text p_threshold = .ok w1 →
      ∃ recorded, w1.beam_results = w.beam_results ++ recorded ∧
        ∀ r ∈ recorded, ∃ path st m,
          follow_path api 12 w.ctx n_past text 0 path = some (st, m, r.text, r.prob_sum)) := by
  constructor
  · intro fuel w n_past beam_width prob_sum current_depth max_depth text w1 h
    exact (recurse_beam_search_paths api hrt fuel w n_past beam_width prob_sum current_depth
      max_depth text w1 h).2
  · intro fuel w n_past beam_width max_depth text p_threshold w1 hq h
    exact iterate_beam_search_paths api hrt fuel w n_past beam_width max_depth text
      p_threshold w1 hq h

/-- Witness of C11: the two-level depth-first run of the dominant-token model and the
breadth-first run of the scenario. -/
theorem path_consistency_witness :
    scenario_api.RoundTrip ∧
    recurse_beam_search scenario_api 2 sample_world 5 3 0 0 1 "" = .ok sibling_sample_result ∧
    (empty_world ([] : List Nat)).llama_state_queue = [] ∧
    iterate_beam_search scenario_api 3 (empty_world []) 5 2 2 "" (1 / 10)
      = .ok scenario_result ∧
    (∃ recorded, sibling_sample_result.beam_results = sample_world.beam_results ++ recorded ∧
      ∀ r ∈ recorded, ∃ path st m, path ≠ [] ∧
        follow_path scenario_api 1 sample_world.ctx 5 "" 0 path
          = some (st, m, r.text, r.prob_sum)) ∧
    (∃ recorded, scenario_result.beam_results
        = (empty_world ([] : List Nat)).beam_results ++ recorded ∧
      ∀ r ∈ recorded, ∃ path st m,
        follow_path scenario_api 12 (empty_world ([] : List Nat)).ctx 5 "" 0 path
          = some (st, m, r.text, r.prob_sum)) :=
  ⟨toy_round_trip _, by decide!, rfl, by decide!,
   (path_consistency scenario_api (toy_round_trip _)).1 2 sample_world 5 3 0 0 1 ""
     sibling_sample_result (by decide!),
   (path_consistency scenario_api (toy_round_trip _)).2 3 (empty_world []) 5 2 2 ""
     (1 / 10) scenario_result rfl (by decide!)⟩

end InteractiveBeam

namespace SaveLoadState

open InteractiveBeam

/-- C17. The `int` parameter `prob_sum` of `recurse_beam_search` of save-load-state.cpp
drops the accumulated sum: started with `beam_width` 2, `prob_sum` 0 and `max_depth` 6 on
the model whose ranking is always 0.6, 0.3, 0.08, 0.02, the search records "aa" and "ba"
both at `prob_sum` 0.6, the probability of the last candidate alone, whereas the
probabilities of the candidates chosen along the two paths sum to 1.2 and to 0.9. -/
theorem prob_sum_truncated :
    recurse_beam_search scenario_api 2 (empty_world []) 5 2 0 0 6 ""
      = .ok ⟨[], ⟨2, []⟩, [], [⟨"aa", 6 / 10, 1⟩, ⟨"ba", 6 / 10, 1⟩],
          [([0], 5, 0), ([1], 5, 0)]⟩ ∧
    (follow_path scenario_api 1 [] 5 "" 0 [0, 0]).map (fun r => r.2.2)
      = some ("aa", 12 / 10) ∧
    (follow_path scenario_api 1 [] 5 "" 0 [1, 0]).map (fun r => r.2.2)
      = some ("ba", 9 / 10) ∧
    float_to_int ((0 : Int) + (6 / 10 : ℚ)) = 0 ∧ float_to_int ((0 : Int) + (3 / 10 : ℚ)) = 0 := by
  refine ⟨by decide!, by decide!, by decide!, by decide!, by decide!⟩

end SaveLoadState
